import Mathlib

/-!
Verification development for the PyCopasi scripts (`copasi.py`,
`extractFluxConcFromResults.py`, `extractMCAOptimizationResults.py`).

The Python code manipulates Copasi XML documents as plain text: readers scan
lines with fixed regular-expression templates, mutators perform `re.subn`
substitutions and dispatch on the number of substitutions made, and helper
scripts aggregate tabular result files.  This file shallowly embeds those
operations over `List Char`.

Every regular-expression template used by the code is a chain of fixed
literals and greedy character classes where the character that follows a
class never belongs to the class, so matching is deterministic and is
embedded here as a backtrack-free matcher (`lit`, `manyOne`, `manyZero`)
combined by `searchP` (Python `re.search` / the `in` operator) and `subn`
(Python `re.subn`: leftmost, non-overlapping).
-/

namespace PyCopasi

set_option maxRecDepth 8000

/-- Characters of a Python string. -/
abbrev Chars := List Char

/-- Python whitespace, as matched by the regex class `\s` and `str.strip()`
for the ASCII documents the scripts handle. -/
def isPySpace (c : Char) : Bool :=
  c = ' ' || c = '\t' || c = '\n' || c = '\r' || c = '\x0b' || c = '\x0c'

/-- Python `str.strip()` with no arguments. -/
def pyStrip (cs : Chars) : Chars :=
  ((cs.dropWhile isPySpace).reverse.dropWhile isPySpace).reverse

/-- Helper for `splitOnChar`, carrying the reversed current field. -/
def splitOnCharGo (sep : Char) : Chars → Chars → List Chars
  | [], acc => [acc.reverse]
  | c :: t, acc =>
    if c = sep then acc.reverse :: splitOnCharGo sep t []
    else splitOnCharGo sep t (c :: acc)

/-- Python `str.split(sep)` for a one-character separator: fields between
separators, keeping empty fields, always at least one field. -/
def splitOnChar (sep : Char) (cs : Chars) : List Chars :=
  splitOnCharGo sep cs []

/-- Python `content.split('\n')`, how every line scanner in `copasi.py`
iterates a document. -/
def splitLinesC (cs : Chars) : List Chars := splitOnChar '\n' cs

/-- Greedy match of one-or-more characters satisfying `p` (regex class `+`).
For every template in the code the character after such a class never
satisfies `p`, so the greedy backtrack-free match coincides with Python's. -/
def manyOne (p : Char → Bool) (cs : Chars) : Option (Chars × Chars) :=
  let r := cs.takeWhile p
  if r.isEmpty then none else some (r, cs.dropWhile p)

/-- Greedy match of zero-or-more characters satisfying `p` (regex class `*`). -/
def manyZero (p : Char → Bool) (cs : Chars) : Chars × Chars :=
  (cs.takeWhile p, cs.dropWhile p)

/-- Match a fixed literal at the head of the input. -/
def lit (l : Chars) (cs : Chars) : Option Chars :=
  if l.isPrefixOf cs then some (cs.drop l.length) else none

/-- Python `re.search`: try the matcher at every position, leftmost first,
including the empty suffix. -/
def searchP (tr : Chars → Option α) : Chars → Option α
  | [] => tr []
  | c :: t =>
    match tr (c :: t) with
    | some a => some a
    | none => searchP tr t

/-- Matcher for a bare literal occurrence. -/
def prefOcc (t : Chars) (cs : Chars) : Option Unit :=
  if t.isPrefixOf cs then some () else none

/-- Python's `sub in s` substring test. -/
def containsSub (t : Chars) (cs : Chars) : Bool :=
  (searchP (prefOcc t) cs).isSome

/-- Fuelled worker for `subn`.  The matcher `tr` returns the replacement
instance and the rest of the input after the match; every matcher in this
file consumes at least one character, so fuel `cs.length` is always enough. -/
def subnGo (tr : Chars → Option (Chars × Chars)) : Nat → Chars → Chars × Nat
  | 0, cs => (cs, 0)
  | fuel + 1, cs =>
    match tr cs with
    | some (r, rest) =>
      let p := subnGo tr fuel rest
      (r ++ p.1, p.2 + 1)
    | none =>
      match cs with
      | [] => ([], 0)
      | c :: t =>
        let p := subnGo tr fuel t
        (c :: p.1, p.2)

/-- Python `re.subn`: substitute the leftmost non-overlapping matches and
count them. -/
def subn (tr : Chars → Option (Chars × Chars)) (cs : Chars) : Chars × Nat :=
  subnGo tr cs.length cs

/-- The outcome of one mutator call in `copasi.py`: either `_errorReport`
was reached with `fatal = True` (the process exits with status 1), or the
call returns with the new document content and the number of non-fatal
problem reports it printed. -/
inductive MutOut where
  | fatal : Chars → MutOut
  | ok : Chars → Nat → MutOut
deriving DecidableEq

/-- Whether a mutator outcome aborted the process. -/
def MutOut.isFatal : MutOut → Bool
  | .fatal _ => true
  | .ok _ _ => false

/-- Content after a non-fatal mutator call (`[]` after a fatal one, which
never returns). -/
def MutOut.content : MutOut → Chars
  | .fatal _ => []
  | .ok c _ => c

/-- Embeds `Copasi._getValidFilename`: keep alphanumeric characters and the
three characters `.`, `_`, `/`. -/
def getValidFilename (cs : Chars) : Chars :=
  cs.filter (fun c => c.isAlphanum || c = '.' || c = '_' || c = '/')

/-- The fixed head of the report-target template `target="[^"]+"`. -/
def targetLit : Chars := "target=\"".data

/-- Matcher for the template `target="[^"]+"` of `setReportFileName`,
returning the substituted text `target="repl"` and the rest of the input. -/
def tryTargetPat (repl : Chars) (cs : Chars) : Option (Chars × Chars) := do
  let cs1 ← lit targetLit cs
  let (_, cs2) ← manyOne (fun c => !(c = '"')) cs1
  let cs3 ← lit "\"".data cs2
  pure (targetLit ++ repl ++ "\"".data, cs3)

/-- Embeds `Copasi.setReportFileName`: sanitize the name, substitute the
template `target="[^"]+"`, abort fatally on zero matches, warn on several
matches only when `warn` is set. -/
def setReportFileName (reportFile : Chars) (warn : Bool) (content : Chars) : MutOut :=
  let rf := getValidFilename reportFile
  let r := subn (tryTargetPat rf) content
  if r.2 = 0 then .fatal "The output filename could not be changed.".data
  else .ok r.1 (if r.2 > 1 && warn then 1 else 0)

/-- Matcher that reads the value of a `target="..."` attribute. -/
def tryTargetRead (cs : Chars) : Option Chars := do
  let cs1 ← lit targetLit cs
  let (v, cs2) ← manyOne (fun c => !(c = '"')) cs1
  let _ ← lit "\"".data cs2
  pure v

/-- Modelled from the spec: the round-trip observation "a fresh read of the
`target=` attribute".  `copasi.py` has no such getter; this reads the first
occurrence of the attribute exactly the way the mutator's template defines
it. -/
def readTargetAttr (content : Chars) : Option Chars := searchP tryTargetRead content

example : setReportFileName "foo".data false "x target=\"old\" y".data =
    .ok "x target=\"foo\" y".data 0 := by decide

example : setReportFileName "foo".data false "no attribute here".data =
    .fatal "The output filename could not be changed.".data := by decide

example : readTargetAttr "x target=\"foo\" y".data = some "foo".data := by decide

/-- Matcher for the template `\[\d*\]\[\d*\]` of `setMCAOptiParameters`,
substituting `[objleft][objright]`.  The arguments stand for the `str()`
renderings of the Python call's objectives. -/
def tryMCAPat (objleft objright : Chars) (cs : Chars) : Option (Chars × Chars) := do
  let c1 ← lit "[".data cs
  let (_, c2) := manyZero Char.isDigit c1
  let c3 ← lit "][".data c2
  let (_, c4) := manyZero Char.isDigit c3
  let c5 ← lit "]".data c4
  pure ("[".data ++ objleft ++ "][".data ++ objright ++ "]".data, c5)

/-- Embeds `Copasi.setMCAOptiParameters`: zero matches abort fatally, more
than one match prints a non-fatal report and the substitution is kept. -/
def setMCAOptiParameters (objleft objright content : Chars) : MutOut :=
  let r := subn (tryMCAPat objleft objright) content
  if r.2 = 0 then .fatal "The optimization targets could not be replaced.".data
  else .ok r.1 (if r.2 > 1 then 1 else 0)

/-- The `types` table of `Copasi.setOptimizationTargetType`. -/
def optiTypes : List (Chars × Chars) :=
  [("CCC".data, "Scaled concentration control coefficients".data),
   ("FCC".data, "Scaled flux control coefficients".data),
   ("E".data, "Scaled elasticities".data),
   ("uCCC".data, "Unscaled concentration control coefficients".data),
   ("uFCC".data, "Unscaled flux control coefficients".data),
   ("uE".data, "Unscaled elasticities".data)]

/-- First-match association lookup (Python `dict` access on a literal dict). -/
def lookupAssoc (k : Chars) : List (Chars × Chars) → Option Chars
  | [] => none
  | (a, b) :: t => if a = k then some b else lookupAssoc k t

/-- Matcher for the template `Array=[^\[]+\[(\d+)\]\[(\d+)\]` of
`setOptimizationTargetType`, substituting `Array=typeName[\1][\2]`. -/
def tryTypePat (typeName : Chars) (cs : Chars) : Option (Chars × Chars) := do
  let c1 ← lit "Array=".data cs
  let (_, c2) ← manyOne (fun c => !(c = '[')) c1
  let c3 ← lit "[".data c2
  let (g1, c4) ← manyOne Char.isDigit c3
  let c5 ← lit "][".data c4
  let (g2, c6) ← manyOne Char.isDigit c5
  let c7 ← lit "]".data c6
  pure ("Array=".data ++ typeName ++ "[".data ++ g1 ++ "][".data ++ g2 ++ "]".data, c7)

/-- Embeds `Copasi.setOptimizationTargetType`: an unknown type name and a
zero-match substitution abort fatally; several matches only print a
non-fatal report and the substitution is kept. -/
def setOptimizationTargetType (optiType content : Chars) : MutOut :=
  match lookupAssoc optiType optiTypes with
  | none => .fatal "The optimization target type is no valid target type".data
  | some typeName =>
    let r := subn (tryTypePat typeName) content
    if r.2 = 0 then .fatal "The optimization target type could not be set.".data
    else .ok r.1 (if r.2 > 1 then 1 else 0)

/-- Matcher for the `parameter = None` deletion template of
`delOptimizationItem`: whitespace, the `OptimizationItem` group opener, one
tag, the `ObjectCN` parameter whose value contains `[nm]`, two tags, and the
group closer; the match is replaced by nothing.  `nm` stands for a name
without regex metacharacters, as the fixed structural template intends.
The next declarations build it from its fragments; `skipClass1` consumes a
greedy nonempty class run and keeps only the rest of the input. -/
def skipClass1 (p : Char → Bool) (cs : Chars) : Option Chars :=
  match manyOne p cs with
  | some pr => some pr.2
  | none => none

/-- The fragment `\s+<[^>]+>` of the deletion template: whitespace, then a
whole tag. -/
def wsTag (cs : Chars) : Option Chars := do
  let c1 ← skipClass1 isPySpace cs
  let c2 ← lit "<".data c1
  let c3 ← skipClass1 (fun c => !(c = '>')) c2
  lit ">".data c3

/-- The fragment `\s+<Parameter name="ObjectCN" type="cn" value="[^\[]+\[nm\][^"]+"/>`
of the deletion template. -/
def wsObjectCN (nm : Chars) (cs : Chars) : Option Chars := do
  let c1 ← skipClass1 isPySpace cs
  let c2 ← lit "<Parameter name=\"ObjectCN\" type=\"cn\" value=\"".data c1
  let c3 ← skipClass1 (fun c => !(c = '[')) c2
  let c4 ← lit ("[".data ++ nm ++ "]".data) c3
  let c5 ← skipClass1 (fun c => !(c = '"')) c4
  lit "\"/>".data c5

def tryDelPat (nm : Chars) (cs : Chars) : Option (Chars × Chars) := do
  let c1 ← skipClass1 isPySpace cs
  let c2 ← lit "<ParameterGroup name=\"OptimizationItem\">".data c1
  let c3 ← wsTag c2
  let c4 ← wsObjectCN nm c3
  let c5 ← wsTag c4
  let c6 ← wsTag c5
  let c7 ← skipClass1 isPySpace c6
  let c8 ← lit "</ParameterGroup>".data c7
  pure ([], c8)

/-- Embeds `Copasi.delOptimizationItem` in its `parameter = None` form: zero
matches and more than one match both abort fatally. -/
def delOptimizationItem (nm content : Chars) : MutOut :=
  let r := subn (tryDelPat nm) content
  if r.2 = 0 then .fatal "The item to delete could not be found.".data
  else if r.2 > 1 then .fatal "The item was deleted on several occurances.".data
  else .ok r.1 0

/-- Matcher for the template of `setParameter`:
`Reactions\[reaction\],ParameterGroup=([^,]+),Parameter=param" value="[^"]+"`,
substituting the new value and keeping the captured parameter group. -/
def tryParamPat (reaction param value : Chars) (cs : Chars) : Option (Chars × Chars) := do
  let c1 ← lit ("Reactions[".data ++ reaction ++ "],ParameterGroup=".data) cs
  let (g1, c2) ← manyOne (fun c => !(c = ',')) c1
  let c3 ← lit (",Parameter=".data ++ param ++ "\" value=\"".data) c2
  let (_, c4) ← manyOne (fun c => !(c = '"')) c3
  let c5 ← lit "\"".data c4
  pure ("Reactions[".data ++ reaction ++ "],ParameterGroup=".data ++ g1 ++
    ",Parameter=".data ++ param ++ "\" value=\"".data ++ value ++ "\"".data, c5)

/-- Embeds `Copasi.setParameter`: both the zero-match and the multi-match
case only print a non-fatal report; the call never aborts and always keeps
the substitution result. -/
def setParameter (reaction param value content : Chars) : MutOut :=
  let r := subn (tryParamPat reaction param value) content
  .ok r.1 (if r.2 = 0 then 1 else if r.2 > 1 then 1 else 0)

/-- Matcher for the version-marker template of `getVersion`:
`<!-- generated with COPASI ([0-9\.]+ \(Build [0-9]+\)) \(http://www.copasi.org\)`,
returning the captured version string. -/
def tryVersionPat (cs : Chars) : Option Chars := do
  let c1 ← lit "<!-- generated with COPASI ".data cs
  let (g1, c2) ← manyOne (fun c => c.isDigit || c = '.') c1
  let c3 ← lit " (Build ".data c2
  let (g2, c4) ← manyOne Char.isDigit c3
  let c5 ← lit ")".data c4
  let _ ← lit " (http://www.copasi.org)".data c5
  pure (g1 ++ " (Build ".data ++ g2 ++ ")".data)

/-- Embeds `Copasi.getVersion`: the version string when the marker is found,
otherwise `None` together with one NON-fatal problem report (the
`_errorReport` call in `getVersion` uses the default `fatal = False`). -/
def getVersion (content : Chars) : Option Chars × Nat :=
  match searchP tryVersionPat content with
  | some v => (some v, 0)
  | none => (none, 1)

/-- The `testedVersions` list set in `Copasi.__init__`. -/
def testedVersions : List Chars :=
  ["4.14 (Build 89)".data, "4.15 (Build 95)".data]

/-- Embeds `Copasi.checkVersion`: `self.version in self.testedVersions`,
where the `None` sentinel is never in the list. -/
def checkVersion (v : Option Chars) : Bool :=
  match v with
  | some s => testedVersions.contains s
  | none => false

/-- Embeds the tail of `Copasi.__init__` after the file content has been
read: determine the version, check it, and report an unsupported version
NON-fatally (the `_errorReport` call in `__init__` uses the default
`fatal = False`).  The result carries the unchanged content and the number
of non-fatal reports; no branch of the source reaches a fatal report. -/
def copasiInitAfterOpen (content : Chars) : MutOut :=
  let v := getVersion content
  .ok content (v.2 + (if checkVersion v.1 then 0 else 1))

/-- Matcher for the title template `name="([^"]+)"` of `getTitle`. -/
def tryNamePat (cs : Chars) : Option Chars := do
  let c1 ← lit "name=\"".data cs
  let (v, c2) ← manyOne (fun c => !(c = '"')) c1
  let _ ← lit "\"".data c2
  pure v

/-- Line loop of `getTitle`: at the first line containing `<Model ` the
title (or the placeholder, with one non-fatal report) is returned; when no
line matches, the Python function falls through to `return title` with
`title` unbound and crashes — modelled by `none`. -/
def getTitleGo : List Chars → Option (Chars × Nat)
  | [] => none
  | line :: rest =>
    if containsSub "<Model ".data line then
      match searchP tryNamePat line with
      | some t => some (t, 0)
      | none => some ("!No title found!".data, 1)
    else getTitleGo rest

/-- Embeds `Copasi.getTitle`. -/
def getTitle (content : Chars) : Option (Chars × Nat) :=
  getTitleGo (splitLinesC content)

/-- Python `dict` assignment `d[k] = v` on an insertion-ordered dict:
overwrite in place, else append. -/
def pyDictInsert {β : Type} (k : Chars) (v : β) : List (Chars × β) → List (Chars × β)
  | [] => [(k, v)]
  | (a, b) :: t => if a = k then (a, v) :: t else (a, b) :: pyDictInsert k v t

/-- Python `dict` lookup `d[k]` (`none` models a `KeyError`). -/
def pyDictGet {β : Type} (k : Chars) : List (Chars × β) → Option β
  | [] => none
  | (a, b) :: t => if a = k then some b else pyDictGet k t

/-- Keys of a Python dict in insertion order. -/
def pyDictKeys {β : Type} (d : List (Chars × β)) : List Chars :=
  d.map (fun kv => kv.1)

/-- Matcher for the compartment template
`key="(Compartment_[0-9]+)" name="([^"]+)"` of `getCompartments`. -/
def tryCompartmentPat (cs : Chars) : Option (Chars × Chars) := do
  let c1 ← lit "key=\"Compartment_".data cs
  let (d, c2) ← manyOne Char.isDigit c1
  let c3 ← lit "\" name=\"".data c2
  let (nm, c4) ← manyOne (fun c => !(c = '"')) c3
  let _ ← lit "\"".data c4
  pure ("Compartment_".data ++ d, nm)

/-- Line loop of `getCompartments`. -/
def getCompartmentsGo : List Chars → List (Chars × Chars) → List (Chars × Chars)
  | [], acc => acc
  | line :: rest, acc =>
    if containsSub "<Compartment".data line then
      match searchP tryCompartmentPat line with
      | some kv => getCompartmentsGo rest (pyDictInsert kv.1 kv.2 acc)
      | none => getCompartmentsGo rest acc
    else getCompartmentsGo rest acc

/-- Embeds `Copasi.getCompartments`: an insertion-ordered dict from
`Compartment_n` keys to display names. -/
def getCompartments (content : Chars) : List (Chars × Chars) :=
  getCompartmentsGo (splitLinesC content) []

/-- Matcher for the metabolite template of `getMetabolites`:
`key="Metabolite_([0-9]+)" name="([^"]+)" simulationType="reactions" compartment="(Compartment_[0-9]+)"`. -/
def tryMetabolitePat (cs : Chars) : Option (Chars × Chars × Chars) := do
  let c1 ← lit "key=\"Metabolite_".data cs
  let (d, c2) ← manyOne Char.isDigit c1
  let c3 ← lit "\" name=\"".data c2
  let (nm, c4) ← manyOne (fun c => !(c = '"')) c3
  let c5 ← lit "\" simulationType=\"reactions\" compartment=\"Compartment_".data c4
  let (cd, c6) ← manyOne Char.isDigit c5
  let _ ← lit "\"".data c6
  pure (d, nm, "Compartment_".data ++ cd)

/-- Matcher for the reference template `objectReference="Metabolite_([0-9]+)"`
of `getMetabolites`. -/
def trySTVPat (cs : Chars) : Option Chars := do
  let c1 ← lit "objectReference=\"Metabolite_".data cs
  let (d, c2) ← manyOne Char.isDigit c1
  let _ ← lit "\"".data c2
  pure d

/-- Line loop of `getMetabolites`, threading the unordered buffer dict and
the ordered output (reversed).  A dynamic metabolite in an unknown
compartment makes Python raise a `KeyError` on `compartments[...]` when
names are being suffixed — modelled by `none`. -/
def getMetabolitesGo (appendComp : Bool) (comps : List (Chars × Chars)) :
    List Chars → List (Chars × Chars) → List Chars → Option (List Chars)
  | [], _, acc => some acc.reverse
  | line :: rest, buf, acc =>
    if containsSub "<Metabolite".data line then
      match searchP tryMetabolitePat line with
      | some (d, nm, ck) =>
        if appendComp then
          match pyDictGet ck comps with
          | none => none
          | some cn =>
            getMetabolitesGo appendComp comps rest
              (pyDictInsert d (nm ++ "_".data ++ cn) buf) acc
        else getMetabolitesGo appendComp comps rest (pyDictInsert d nm buf) acc
      | none => getMetabolitesGo appendComp comps rest buf acc
    else if containsSub "<StateTemplateVariable".data line then
      match searchP trySTVPat line with
      | some d =>
        match pyDictGet d buf with
        | some nm => getMetabolitesGo appendComp comps rest buf (nm :: acc)
        | none => getMetabolitesGo appendComp comps rest buf acc
      | none => getMetabolitesGo appendComp comps rest buf acc
    else getMetabolitesGo appendComp comps rest buf acc

/-- Embeds `Copasi.getMetabolites`. -/
def getMetabolites (content : Chars) : Option (List Chars) :=
  let comps := getCompartments content
  getMetabolitesGo (decide (comps.length > 1)) comps (splitLinesC content) [] []

/-- Value of a nonempty decimal digit run. -/
def natOfDigits (d : Chars) : Nat :=
  d.foldl (fun a c => 10 * a + (c.toNat - 48)) 0

/-- Python `int(str)` on the decimal strings the scripts handle: optional
surrounding whitespace, optional sign, then a nonempty digit run. -/
def pyParseInt (cs : Chars) : Option Int :=
  match pyStrip cs with
  | '+' :: d => if !d.isEmpty && d.all Char.isDigit then some (Int.ofNat (natOfDigits d)) else none
  | '-' :: d => if !d.isEmpty && d.all Char.isDigit then some (-(Int.ofNat (natOfDigits d))) else none
  | d => if !d.isEmpty && d.all Char.isDigit then some (Int.ofNat (natOfDigits d)) else none

/-- Python `list.index` (zero-based rank of the first exact occurrence). -/
def pyIndexGo (x : Chars) : List Chars → Nat → Option Nat
  | [], _ => none
  | a :: t, i => if a = x then some i else pyIndexGo x t (i + 1)

/-- Python `list.index` from rank 0. -/
def pyIndex (x : Chars) (l : List Chars) : Option Nat := pyIndexGo x l 0

/-- Embeds `Copasi.turnToNumbers`: numeric strings parse directly, other
strings are replaced by the rank of their first occurrence in the reference
list, and an element found nowhere aborts fatally (the `.error` case, which
names the offending element). -/
def turnToNumbers : List Chars → List Chars → Except Chars (List Int)
  | [], _ => .ok []
  | x :: xs, refs =>
    match pyParseInt x with
    | some i => (turnToNumbers xs refs).map (fun t => i :: t)
    | none =>
      match pyIndex x refs with
      | some i => (turnToNumbers xs refs).map (fun t => (Int.ofNat i) :: t)
      | none => .error x

example : turnToNumbers ["2".data, "ReactA".data] ["R0".data, "R1".data, "ReactA".data] =
    .ok [2, 2] := by rfl

example : turnToNumbers ["nope".data] ["R0".data, "R1".data, "ReactA".data] =
    .error "nope".data := by rfl

example : setMCAOptiParameters "5".data "6".data "x[1][2]y".data =
    .ok "x[5][6]y".data 0 := by decide

example : setMCAOptiParameters "5".data "6".data "x[1][2]y[3][4]".data =
    .ok "x[5][6]y[5][6]".data 1 := by decide

example : setParameter "R1".data "k1".data "0.5".data "nothing".data =
    .ok "nothing".data 1 := by decide

example : getVersion "<!-- generated with COPASI 4.14 (Build 89) (http://www.copasi.org)".data =
    (some "4.14 (Build 89)".data, 0) := by decide

example : getTitle "<Model key=\"M\" name=\"T\">".data = some ("T".data, 0) := by decide

example : getTitle "no model here".data = none := by decide

/-!
Embedding of `extractFluxConcFromResults.py`.
-/

/-- Rightmost index of a character (Python `str.rfind`). -/
def rfindIdxGo (c : Char) : Chars → Nat → Option Nat → Option Nat
  | [], _, best => best
  | a :: t, i, best => rfindIdxGo c t (i + 1) (if a = c then some i else best)

/-- Rightmost index of a character, `none` when absent. -/
def rfindIdx (c : Char) (cs : Chars) : Option Nat := rfindIdxGo c cs 0 none

/-- Python `os.path.basename`: everything after the last `/`. -/
def pyBasename (p : Chars) : Chars :=
  match rfindIdx '/' p with
  | some i => p.drop (i + 1)
  | none => p

/-- The column name `os.path.splitext(os.path.basename(fn))[0]` computed in
`get_tables`: strip the path, then strip the extension at the last dot
unless everything before that dot is dots. -/
def fileStem (p : Chars) : Chars :=
  let b := pyBasename p
  match rfindIdx '.' b with
  | none => b
  | some d => if (b.take d).any (fun c => !(c = '.')) then b.take d else b

/-- Python `sep.join(list)`. -/
def joinSep (sep : Chars) : List Chars → Chars
  | [] => []
  | [x] => x
  | x :: y :: t => x ++ sep ++ joinSep sep (y :: t)

/-- Python `<` on strings: lexicographic comparison by code point. -/
def lexLtC : Chars → Chars → Bool
  | [], [] => false
  | [], _ :: _ => true
  | _ :: _, [] => false
  | a :: xs, b :: ys =>
    if a.toNat < b.toNat then true
    else if b.toNat < a.toNat then false
    else lexLtC xs ys

/-- Ordered insertion for `sortStrs`. -/
def insSorted (x : Chars) : List Chars → List Chars
  | [] => [x]
  | y :: t => if lexLtC x y then x :: y :: t else y :: insSorted x t

/-- Python `sorted()` on a list of strings with pairwise distinct elements
(the scripts only sort dict key lists). -/
def sortStrs (l : List Chars) : List Chars := l.foldr insSorted []

/-- A nested result dict `entity name → (column name → value)`. -/
abbrev Dict2 := List (Chars × List (Chars × Chars))

/-- The update `d.setdefault(name, {}); d[name][fn] = v` performed for every
data row of `_get_values_from_single_file`. -/
def dict2Insert (name fn v : Chars) (d : Dict2) : Dict2 :=
  match pyDictGet name d with
  | none => pyDictInsert name [(fn, v)] d
  | some inner => pyDictInsert name (pyDictInsert fn v inner) d

/-- Section state of the line scanner of `_get_values_from_single_file`
(Python uses the strings `''`, `'conc'`, `'flux'`). -/
inductive GVSect where
  | idle : GVSect
  | conc : GVSect
  | flux : GVSect

/-- Line loop of `_get_values_from_single_file`: a blank line leaves the
concentration section or terminates the flux section; inside a section each
stripped line must split into at least two tab fields (`none` models the
`IndexError` on a malformed row); outside, the two fixed headers activate
their sections. -/
def gvGo (fn : Chars) : List Chars → GVSect → Dict2 → Dict2 → Option (Dict2 × Dict2)
  | [], _, cd, fd => some (cd, fd)
  | line :: rest, st, cd, fd =>
    let l := pyStrip line
    match st with
    | .conc =>
      if l.isEmpty then gvGo fn rest .idle cd fd
      else
        match splitOnChar '\t' l with
        | name :: v :: _ => gvGo fn rest .conc (dict2Insert name fn v cd) fd
        | _ => none
    | .flux =>
      if l.isEmpty then some (cd, fd)
      else
        match splitOnChar '\t' l with
        | name :: v :: _ => gvGo fn rest .flux cd (dict2Insert name fn v fd)
        | _ => none
    | .idle =>
      if "Species\tConcentration".data.isPrefixOf l then gvGo fn rest .conc cd fd
      else if "Reaction\tFlux".data.isPrefixOf l then gvGo fn rest .flux cd fd
      else gvGo fn rest .idle cd fd

/-- The fixed steady-state marker tested by `f.startswith(...)`. -/
def steadyMarker : Chars := "A steady state with given resolution was found.".data

/-- Embeds `_get_values_from_single_file`: a file not starting with the
marker contributes nothing. -/
def getValuesFromSingleFile (content fn : Chars) (cd fd : Dict2) : Option (Dict2 × Dict2) :=
  if steadyMarker.isPrefixOf content then gvGo fn (splitLinesC content) .idle cd fd
  else some (cd, fd)

/-- One rendered table cell: the value this column's dict holds for the
entity, or the literal sentinel `na`. -/
def cellVal (inner : List (Chars × Chars)) (n : Chars) : Chars :=
  (pyDictGet n inner).getD "na".data

/-- One rendered table: the tab-led header row of column names, then one row
per sorted entity name. -/
def renderTable (names : List Chars) (d : Dict2) : Chars :=
  let header := '\t' :: joinSep ['\t'] names
  let rows := (sortStrs (pyDictKeys d)).map (fun nm =>
    joinSep ['\t'] (nm :: names.map (fun n => cellVal ((pyDictGet nm d).getD []) n)))
  joinSep ['\n'] (header :: rows)

/-- Embeds `get_tables` over the list of `(filename, file content)` pairs:
fold every file into the two dicts, then render the concentration and flux
tables. -/
def getTables (files : List (Chars × Chars)) : Option (Chars × Chars) :=
  let names := files.map (fun f => fileStem f.1)
  let dicts := files.foldl
    (fun acc f => acc.bind (fun cf => getValuesFromSingleFile f.2 (fileStem f.1) cf.1 cf.2))
    (some ([], []))
  dicts.map (fun cf => (renderTable names cf.1, renderTable names cf.2))

/-!
Embedding of `extractMCAOptimizationResults.py` (the module-level
aggregation loop).
-/

/-- Fuelled worker for `replaceAll`. -/
def replaceAllGo (pat repl : Chars) : Nat → Chars → Chars
  | 0, cs => cs
  | fuel + 1, cs =>
    if pat.isPrefixOf cs then repl ++ replaceAllGo pat repl fuel (cs.drop pat.length)
    else
      match cs with
      | [] => []
      | c :: t => c :: replaceAllGo pat repl fuel t

/-- Python `str.replace(pat, repl)` for a nonempty pattern: replace every
leftmost non-overlapping occurrence. -/
def replaceAll (pat repl : Chars) (cs : Chars) : Chars :=
  replaceAllGo pat repl cs.length cs

/-- Filename dissection of the aggregation loop: drop every `.txt`, split on
`_`, pop the column and the row, rejoin the rest as the scan id.  `none`
models the `IndexError` when fewer than two `_`-separated parts remain. -/
def scanRowCol (filename : Chars) : Option (Chars × Chars × Chars) :=
  let parts := splitOnChar '_' (replaceAll ".txt".data [] filename)
  match parts.reverse with
  | col :: row :: restRev => some (joinSep ['_'] restRev.reverse, row, col)
  | _ => none

/-- The fixed marker scanned for in every result line. -/
def objMarker : Chars := "Objective Function Value:".data

/-- Line loop for one result file: every line containing the marker appends
one tab-joined `(row, column, value)` triple under the scan id, where the
value is the stripped second tab field of the line (`none` models the
`IndexError` when the line has no tab). -/
def extractFileGo (scan row col : Chars) :
    List Chars → List (Chars × List Chars) → Option (List (Chars × List Chars))
  | [], res => some res
  | line :: rest, res =>
    if containsSub objMarker line then
      match splitOnChar '\t' line with
      | _ :: v :: _ =>
        let triple := joinSep ['\t'] [row, col, pyStrip v]
        let cur := (pyDictGet scan res).getD []
        extractFileGo scan row col rest (pyDictInsert scan (cur ++ [triple]) res)
      | _ => none
    else extractFileGo scan row col rest res

/-- Embeds the module-level loop of `extractMCAOptimizationResults.py` over
`(filename, file content)` pairs: aggregate all triples per scan id, then
emit one `<scanId>_summary.txt` file per scan id in lexicographically sorted
order, each holding the newline-joined triples. -/
def runExtractMCA (files : List (Chars × Chars)) : Option (List (Chars × Chars)) :=
  let res := files.foldl
    (fun acc f => acc.bind (fun r =>
      match scanRowCol f.1 with
      | some src => extractFileGo src.1 src.2.1 src.2.2 (splitLinesC f.2) r
      | none => none))
    (some [])
  res.map (fun r => (sortStrs (pyDictKeys r)).map (fun s =>
    (s ++ "_summary.txt".data, joinSep ['\n'] ((pyDictGet s r).getD []))))

example : scanRowCol "my_scan_abc_def.txt".data =
    some ("my_scan".data, "abc".data, "def".data) := by decide

example : runExtractMCA [("s_a_b.txt".data,
    "start\nObjective Function Value:\t2.5e-2\nend".data)] =
    some [("s_summary.txt".data, "a\tb\t2.5e-2".data)] := by rfl

/-!
Generic facts about the matching engine.
-/

/-- A zero-count substitution pass copies its input unchanged. -/
theorem subnGo_count_zero (tr : Chars → Option (Chars × Chars)) :
    ∀ fuel cs, (subnGo tr fuel cs).2 = 0 → (subnGo tr fuel cs).1 = cs
  | 0, _, _ => rfl
  | fuel + 1, cs, h => by
    cases htr : tr cs with
    | some pr => simp [subnGo, htr] at h
    | none =>
      cases cs with
      | nil => simp [subnGo, htr]
      | cons c t =>
        have ih := subnGo_count_zero tr fuel t
        simp only [subnGo, htr] at h ⊢
        exact congrArg (c :: ·) (ih h)

/-- A zero-count `re.subn` returns its input unchanged. -/
theorem subn_count_zero (tr : Chars → Option (Chars × Chars)) (cs : Chars)
    (h : (subn tr cs).2 = 0) : (subn tr cs).1 = cs :=
  subnGo_count_zero tr cs.length cs h

/-!
Claim theorems: dispatch behaviour of the mutators.
-/

/-- C2 (amended): on a zero-match substitution, `setReportFileName`,
`setMCAOptiParameters`, `setOptimizationTargetType` (for a valid target
type) and `delOptimizationItem` all fail fatally with their target-not-found
report, but the reaction-parameter mutator `setParameter` downgrades the
zero-match to one non-fatal warning and returns with the document
unchanged. -/
theorem zeroMatch_dispatch
    (rf ol og ty tyn nm rxn pm vl c1 c2 c3 c4 c5 : Chars) (warn : Bool)
    (h1 : (subn (tryTargetPat (getValidFilename rf)) c1).2 = 0)
    (h2 : (subn (tryMCAPat ol og) c2).2 = 0)
    (hty : lookupAssoc ty optiTypes = some tyn)
    (h3 : (subn (tryTypePat tyn) c3).2 = 0)
    (h4 : (subn (tryDelPat nm) c4).2 = 0)
    (h5 : (subn (tryParamPat rxn pm vl) c5).2 = 0) :
    (setReportFileName rf warn c1).isFatal = true ∧
    (setMCAOptiParameters ol og c2).isFatal = true ∧
    (setOptimizationTargetType ty c3).isFatal = true ∧
    (delOptimizationItem nm c4).isFatal = true ∧
    setParameter rxn pm vl c5 = .ok c5 1 := by
  refine ⟨?_, ?_, ?_, ?_, ?_⟩
  · simp [setReportFileName, h1, MutOut.isFatal]
  · simp [setMCAOptiParameters, h2, MutOut.isFatal]
  · simp [setOptimizationTargetType, hty, h3, MutOut.isFatal]
  · simp [delOptimizationItem, h4, MutOut.isFatal]
  · simp [setParameter, h5, subn_count_zero _ _ h5]

/-- Witness for `zeroMatch_dispatch` at concrete empty documents, where
every template matches zero times. -/
theorem zeroMatch_dispatch_witness :
    (setReportFileName "f".data false []).isFatal = true ∧
    (setMCAOptiParameters "1".data "2".data []).isFatal = true ∧
    (setOptimizationTargetType "CCC".data []).isFatal = true ∧
    (delOptimizationItem "X".data []).isFatal = true ∧
    setParameter "R".data "k".data "5".data [] = .ok [] 1 :=
  zeroMatch_dispatch "f".data "1".data "2".data "CCC".data
    "Scaled concentration control coefficients".data "X".data "R".data "k".data "5".data
    [] [] [] [] [] false (by decide) (by decide) (by decide) (by decide) (by decide) (by decide)

/-- C2 counterexample: `setParameter` with a zero-match template returns
non-fatally with one warning and the document unchanged, contradicting the
claim that every mutator fails fatally with `TargetNotFound` on zero
matches. -/
theorem setParameter_zeroMatch_not_fatal :
    (subn (tryParamPat "R".data "k".data "5".data) "no such reaction".data).2 = 0 ∧
    setParameter "R".data "k".data "5".data "no such reaction".data =
      .ok "no such reaction".data 1 ∧
    (setParameter "R".data "k".data "5".data "no such reaction".data).isFatal = false := by
  decide

/-- C1 (amended): of the three structurally significant mutators only
`delOptimizationItem` fails fatally on an ambiguous (more than one) match;
`setMCAOptiParameters` and `setOptimizationTargetType` print one non-fatal
report and return successfully with the substitution applied at every
occurrence. -/
theorem ambiguousMatch_dispatch
    (nm c1 ol og c2 ty tyn c3 : Chars)
    (hty : lookupAssoc ty optiTypes = some tyn)
    (h1 : 1 < (subn (tryDelPat nm) c1).2)
    (h2 : 1 < (subn (tryMCAPat ol og) c2).2)
    (h3 : 1 < (subn (tryTypePat tyn) c3).2) :
    (delOptimizationItem nm c1).isFatal = true ∧
    setMCAOptiParameters ol og c2 = .ok (subn (tryMCAPat ol og) c2).1 1 ∧
    setOptimizationTargetType ty c3 = .ok (subn (tryTypePat tyn) c3).1 1 := by
  have h1' : ¬ (subn (tryDelPat nm) c1).2 = 0 := by omega
  have h2' : ¬ (subn (tryMCAPat ol og) c2).2 = 0 := by omega
  have h3' : ¬ (subn (tryTypePat tyn) c3).2 = 0 := by omega
  refine ⟨?_, ?_, ?_⟩
  · simp [delOptimizationItem, h1', h1, MutOut.isFatal]
  · simp [setMCAOptiParameters, h2', h2]
  · simp [setOptimizationTargetType, hty, h3', h3]

/-- One deletable `OptimizationItem` group in the textual form the deletion
template expects. -/
def delItemSample : Chars :=
  ("\n<ParameterGroup name=\"OptimizationItem\">\n<a>\n" ++
   "<Parameter name=\"ObjectCN\" type=\"cn\" value=\"V,Vector=Values[X],R\"/>\n" ++
   "<b>\n<c>\n</ParameterGroup>").data

/-- Witness for `ambiguousMatch_dispatch` at concrete documents in which
each template matches exactly twice. -/
theorem ambiguousMatch_dispatch_witness :
    (delOptimizationItem "X".data (delItemSample ++ delItemSample)).isFatal = true ∧
    setMCAOptiParameters "7".data "8".data "[1][2][3][4]".data =
      .ok (subn (tryMCAPat "7".data "8".data) "[1][2][3][4]".data).1 1 ∧
    setOptimizationTargetType "FCC".data "Array=X[1][2] Array=Y[3][4]".data =
      .ok (subn (tryTypePat "Scaled flux control coefficients".data)
        "Array=X[1][2] Array=Y[3][4]".data).1 1 :=
  ambiguousMatch_dispatch "X".data (delItemSample ++ delItemSample)
    "7".data "8".data "[1][2][3][4]".data
    "FCC".data "Scaled flux control coefficients".data "Array=X[1][2] Array=Y[3][4]".data
    (by decide) (by decide) (by decide) (by decide)

/-- C1 counterexample: `setMCAOptiParameters` on a document whose
coordinate template matches twice returns NON-fatally (with the
substitution applied everywhere), contradicting the claim that an ambiguous
match makes the operation fail fatally. -/
theorem setMCAOptiParameters_multiMatch_not_fatal :
    (subn (tryMCAPat "7".data "8".data) "[1][2][3][4]".data).2 = 2 ∧
    setMCAOptiParameters "7".data "8".data "[1][2][3][4]".data =
      .ok "[7][8][7][8]".data 1 ∧
    (setMCAOptiParameters "7".data "8".data "[1][2][3][4]".data).isFatal = false := by
  decide

/-- C6 (amended): when the version marker is absent, `getVersion` prints one
NON-fatal problem report and returns the `None` sentinel, and loading
continues: the constructor then merely adds a second non-fatal report for
the unsupported version and returns normally. -/
theorem versionMarkerAbsent_nonfatal (content : Chars)
    (h : searchP tryVersionPat content = none) :
    getVersion content = (none, 1) ∧
    copasiInitAfterOpen content = .ok content 2 ∧
    (copasiInitAfterOpen content).isFatal = false := by
  refine ⟨?_, ?_, ?_⟩ <;>
    simp [getVersion, copasiInitAfterOpen, checkVersion, h, MutOut.isFatal]

/-- Witness for `versionMarkerAbsent_nonfatal` on a concrete document
without the marker. -/
theorem versionMarkerAbsent_nonfatal_witness :
    getVersion "<COPASI></COPASI>".data = (none, 1) ∧
    copasiInitAfterOpen "<COPASI></COPASI>".data = .ok "<COPASI></COPASI>".data 2 ∧
    (copasiInitAfterOpen "<COPASI></COPASI>".data).isFatal = false :=
  versionMarkerAbsent_nonfatal "<COPASI></COPASI>".data (by decide)

/-- C6 counterexample: loading a document with no version marker does NOT
terminate the process; both reports on the way are non-fatal. -/
theorem copasiInit_noMarker_not_fatal :
    getVersion "<COPASI>".data = (none, 1) ∧
    (copasiInitAfterOpen "<COPASI>".data).isFatal = false := by decide

/-- Modelled from the spec: per-element resolution of `turnToNumbers` —
numeric strings parse directly, non-numeric strings are replaced by the
zero-based rank of their first exact occurrence in the reference list, and
an element with no match is fatal. -/
def resolveSpec (refs : List Chars) (x : Chars) : Except Chars Int :=
  match pyParseInt x with
  | some i => .ok i
  | none =>
    match pyIndex x refs with
    | some i => .ok (Int.ofNat i)
    | none => .error x

/-- C7: `turnToNumbers` is element-wise name resolution (aborting at the
first unresolvable element), and on the claim's concrete shapes it yields
`[2, 2]` for `['2', 'ReactA']` when `ReactA` first occurs at rank 2, and is
fatal for `['nope']` when `nope` does not occur. -/
theorem turnToNumbers_resolution :
    (∀ xs refs, turnToNumbers xs refs = xs.mapM (resolveSpec refs)) ∧
    (∀ refs, pyIndex "ReactA".data refs = some 2 →
      turnToNumbers ["2".data, "ReactA".data] refs = .ok [2, 2]) ∧
    (∀ refs, pyIndex "nope".data refs = none →
      turnToNumbers ["nope".data] refs = .error "nope".data) := by
  have main : ∀ xs refs, turnToNumbers xs refs = xs.mapM (resolveSpec refs) := by
    intro xs refs
    induction xs with
    | nil => rfl
    | cons x t ih =>
      rw [List.mapM_cons]
      cases hp : pyParseInt x with
      | some i =>
        simp only [turnToNumbers, resolveSpec, hp, ih]
        cases t.mapM (resolveSpec refs) <;> rfl
      | none =>
        cases hix : pyIndex x refs with
        | some i =>
          simp only [turnToNumbers, resolveSpec, hp, hix, ih]
          cases t.mapM (resolveSpec refs) <;> rfl
        | none => simp only [turnToNumbers, resolveSpec, hp, hix]; rfl
  refine ⟨main, ?_, ?_⟩
  · intro refs h
    have h2 : pyParseInt "2".data = some 2 := by decide
    have hra : pyParseInt "ReactA".data = none := by decide
    simp only [turnToNumbers, h2, hra, h]
    rfl
  · intro refs h
    have hn : pyParseInt "nope".data = none := by decide
    simp only [turnToNumbers, hn, h]

/-- Witness for `turnToNumbers_resolution` at concrete reference lists. -/
theorem turnToNumbers_resolution_witness :
    turnToNumbers ["2".data, "ReactA".data] ["R0".data, "R1".data, "ReactA".data] =
      .ok [2, 2] ∧
    turnToNumbers ["nope".data] ["R0".data, "R1".data, "ReactA".data] =
      .error "nope".data :=
  ⟨turnToNumbers_resolution.2.1 ["R0".data, "R1".data, "ReactA".data] (by decide),
   turnToNumbers_resolution.2.2 ["R0".data, "R1".data, "ReactA".data] (by decide)⟩

/-- Helper for the title theorem: the line loop of `getTitle` succeeds as
soon as some line contains `<Model `. -/
theorem getTitleGo_with_model :
    ∀ lines : List Chars,
      lines.any (fun l => containsSub "<Model ".data l) = true →
      (getTitleGo lines).isSome = true ∧
      (∀ t w, getTitleGo lines = some (t, w) →
        w = 0 ∨ (t = "!No title found!".data ∧ w = 1))
  | [], h => by simp at h
  | line :: rest, h => by
    cases hc : containsSub "<Model ".data line with
    | true =>
      refine ⟨?_, ?_⟩
      · simp only [getTitleGo, hc, if_true]
        cases searchP tryNamePat line <;> rfl
      · intro t w hw
        cases hs : searchP tryNamePat line with
        | some ttl =>
          simp only [getTitleGo, hc, if_true, hs, Option.some.injEq,
            Prod.mk.injEq] at hw
          exact Or.inl hw.2.symm
        | none =>
          simp only [getTitleGo, hc, if_true, hs, Option.some.injEq,
            Prod.mk.injEq] at hw
          exact Or.inr ⟨hw.1.symm, hw.2.symm⟩
    | false =>
      have h' : rest.any (fun l => containsSub "<Model ".data l) = true := by
        simpa [hc] using h
      have ih := getTitleGo_with_model rest h'
      simpa only [getTitleGo, hc, if_false] using ih

/-- C9 (amended): whenever some line of the document contains `<Model `,
`getTitle` returns a value, and that value is either a real title with no
problem report or the placeholder sentinel with one NON-fatal report.  (On
documents with no such line `getTitle` is undefined: the Python function
reaches `return title` with `title` unbound.) -/
theorem getTitle_with_model_line (content : Chars)
    (h : (splitLinesC content).any (fun l => containsSub "<Model ".data l) = true) :
    (getTitle content).isSome = true ∧
    (∀ t w, getTitle content = some (t, w) →
      w = 0 ∨ (t = "!No title found!".data ∧ w = 1)) :=
  getTitleGo_with_model (splitLinesC content) h

/-- Witness for `getTitle_with_model_line` on concrete documents with and
without a usable title attribute. -/
theorem getTitle_with_model_line_witness :
    ((getTitle "<Model key=\"M\" name=\"T\">".data).isSome = true) ∧
    ((getTitle "<Model nameless>".data).isSome = true) :=
  ⟨(getTitle_with_model_line "<Model key=\"M\" name=\"T\">".data (by decide)).1,
   (getTitle_with_model_line "<Model nameless>".data (by decide)).1⟩

/-- C9 counterexample: on a document with no `<Model ` line at all,
`getTitle` does not return a value (the Python function crashes on an
unbound local), contradicting the claim that it is total and returns the
placeholder sentinel. -/
theorem getTitle_no_model_crashes :
    getTitle "<NoModel/>\n<Other/>".data = none := by decide

/-!
String-rewriting lemmas for the report-target template, towards the
round-trip and idempotence facts about `setReportFileName`.
-/

/-- The characters of the fixed template head. -/
theorem targetLit_chars : targetLit = ['t', 'a', 'r', 'g', 'e', 't', '=', '"'] := rfl

/-- A greedy class run over `v ++ r0 :: rr` stops exactly at the first
failing character. -/
theorem takeWhile_stop (p : Char → Bool) :
    ∀ (v : Chars) (r0 : Char) (rr : Chars), (∀ c ∈ v, p c = true) → p r0 = false →
      (v ++ r0 :: rr).takeWhile p = v ∧ (v ++ r0 :: rr).dropWhile p = r0 :: rr
  | [], r0, rr, _, hstop => by
    simp [List.takeWhile_cons, List.dropWhile_cons, hstop]
  | c :: v, r0, rr, hall, hstop => by
    have hc : p c = true := hall c (by simp)
    have ih := takeWhile_stop p v r0 rr (fun d hd => hall d (by simp [hd])) hstop
    simp [List.takeWhile_cons, List.dropWhile_cons, hc, ih.1, ih.2]

/-- `manyOne` over `v ++ r0 :: rr` consumes exactly `v`. -/
theorem manyOne_stop (p : Char → Bool) (v : Chars) (r0 : Char) (rr : Chars)
    (hv : v ≠ []) (hall : ∀ c ∈ v, p c = true) (hstop : p r0 = false) :
    manyOne p (v ++ r0 :: rr) = some (v, r0 :: rr) := by
  have h := takeWhile_stop p v r0 rr hall hstop
  have hne : v.isEmpty = false := by cases v with
    | nil => exact absurd rfl hv
    | cons _ _ => rfl
  simp [manyOne, h.1, h.2, hne]

/-- `manyOne` fails when already the first character fails the class. -/
theorem manyOne_fail (p : Char → Bool) (r0 : Char) (rr : Chars) (hstop : p r0 = false) :
    manyOne p (r0 :: rr) = none := by
  simp [manyOne, List.takeWhile_cons, hstop]

/-- A literal consumes itself. -/
theorem lit_self (l t : Chars) : lit l (l ++ t) = some t := by
  have h : l.isPrefixOf (l ++ t) = true := by
    rw [List.isPrefixOf_iff_prefix]; exact List.prefix_append l t
  simp [lit, h, List.drop_left]

/-- A literal fails where it is not a prefix. -/
theorem lit_not_pref (l cs : Chars) (h : l.isPrefixOf cs = false) : lit l cs = none := by
  simp [lit, h]

/-- A successful literal match splits the input. -/
theorem lit_some (l cs t : Chars) (h : lit l cs = some t) : cs = l ++ t := by
  unfold lit at h
  split at h
  · next hp =>
    obtain ⟨r, rfl⟩ := List.isPrefixOf_iff_prefix.1 hp
    rw [List.drop_left] at h
    cases h
    rfl
  · exact absurd h (by simp)

/-- A successful greedy class run splits the input and is nonempty. -/
theorem manyOne_some (p : Char → Bool) (cs v rest : Chars)
    (h : manyOne p cs = some (v, rest)) : v ++ rest = cs ∧ v ≠ [] := by
  simp only [manyOne] at h
  cases hE : (cs.takeWhile p).isEmpty with
  | true => rw [hE] at h; simp at h
  | false =>
    rw [hE] at h
    simp only [Bool.false_eq_true, if_false, Option.some.injEq, Prod.mk.injEq] at h
    obtain ⟨h1, h2⟩ := h
    subst h1; subst h2
    refine ⟨List.takeWhile_append_dropWhile p cs, ?_⟩
    intro hv
    rw [hv] at hE
    simp at hE

/-- The report-target matcher consumes at least one character. -/
theorem tryTargetPat_consumes (r : Chars) :
    ∀ cs x rest, tryTargetPat r cs = some (x, rest) → rest.length < cs.length := by
  intro cs x rest h
  cases h1 : lit targetLit cs with
  | none => simp [tryTargetPat, h1] at h
  | some cs1 =>
    cases h2 : manyOne (fun c => !(c = '"')) cs1 with
    | none => simp [tryTargetPat, h1, h2] at h
    | some pr =>
      obtain ⟨v, cs2⟩ := pr
      cases h3 : lit "\"".data cs2 with
      | none => simp [tryTargetPat, h1, h2, h3] at h
      | some cs3 =>
        have e1 := lit_some _ _ _ h1
        have e2 := manyOne_some _ _ _ _ h2
        have e3 := lit_some _ _ _ h3
        have hrest : rest = cs3 := by
          simp [tryTargetPat, h1, h2, h3] at h
          exact h.2.symm
        subst hrest
        have l1 := congrArg List.length e1
        have l2 := congrArg List.length e2.1
        have l3 := congrArg List.length e3
        have hv : 0 < v.length := by
          cases v with
          | nil => exact absurd rfl e2.2
          | cons _ _ => simp
        simp [targetLit_chars] at l1 l2 l3
        omega

/-- A matcher that always consumes rejects the empty input. -/
theorem consumes_nil_none (tr : Chars → Option (Chars × Chars))
    (hcons : ∀ cs x rest, tr cs = some (x, rest) → rest.length < cs.length) :
    tr [] = none := by
  cases htr : tr [] with
  | none => rfl
  | some pr =>
    have := hcons [] pr.1 pr.2 (by rw [htr])
    simp at this

/-- `subnGo` does not depend on the fuel once the fuel covers the input. -/
theorem subnGo_fuel_irrel (tr : Chars → Option (Chars × Chars))
    (hcons : ∀ cs x rest, tr cs = some (x, rest) → rest.length < cs.length) :
    ∀ f1 f2 cs, cs.length ≤ f1 → cs.length ≤ f2 → subnGo tr f1 cs = subnGo tr f2 cs := by
  intro f1
  induction f1 with
  | zero =>
    intro f2 cs h1 _
    have hcs : cs = [] := by
      cases cs with
      | nil => rfl
      | cons c t => simp at h1
    subst hcs
    cases f2 with
    | zero => rfl
    | succ f => simp [subnGo, consumes_nil_none tr hcons]
  | succ f ih =>
    intro f2 cs h1 h2
    cases f2 with
    | zero =>
      have hcs : cs = [] := by
        cases cs with
        | nil => rfl
        | cons c t => simp at h2
      subst hcs
      simp [subnGo, consumes_nil_none tr hcons]
    | succ f2 =>
      cases htr : tr cs with
      | some pr =>
        obtain ⟨x, rest⟩ := pr
        have hlt := hcons cs x rest htr
        have := ih f2 rest (by omega) (by omega)
        simp [subnGo, htr, this]
      | none =>
        cases cs with
        | nil => simp [subnGo, htr]
        | cons c t =>
          have ht1 : t.length ≤ f := by simp at h1; omega
          have ht2 : t.length ≤ f2 := by simp at h2; omega
          have := ih f2 t ht1 ht2
          simp [subnGo, htr, this]

/-- One non-matching head character is copied by `subn`. -/
theorem subn_cons_none (tr : Chars → Option (Chars × Chars)) (c : Char) (t : Chars)
    (h : tr (c :: t) = none) :
    subn tr (c :: t) = (c :: (subn tr t).1, (subn tr t).2) := by
  show subnGo tr (c :: t).length (c :: t) = _
  rw [List.length_cons]
  simp [subnGo, h, subn]

/-- A match at the head is substituted and the scan continues after it. -/
theorem subn_match_head (tr : Chars → Option (Chars × Chars))
    (hcons : ∀ cs x rest, tr cs = some (x, rest) → rest.length < cs.length)
    (cs x rest : Chars) (h : tr cs = some (x, rest)) :
    subn tr cs = (x ++ (subn tr rest).1, (subn tr rest).2 + 1) := by
  have hlt := hcons cs x rest h
  have hcs : cs.length = (cs.length - 1) + 1 := by omega
  show subnGo tr cs.length cs = _
  rw [hcs]
  simp only [subnGo, h]
  rw [subnGo_fuel_irrel tr hcons (cs.length - 1) rest.length rest (by omega) (le_refl _)]
  rfl

/-- `subn` skips a region in which the matcher fails at every position. -/
theorem subn_skip (tr : Chars → Option (Chars × Chars)) :
    ∀ (chunk rest : Chars),
      (∀ i, i < chunk.length → tr (chunk.drop i ++ rest) = none) →
      subn tr (chunk ++ rest) = (chunk ++ (subn tr rest).1, (subn tr rest).2)
  | [], rest, _ => by simp
  | c :: chunk, rest, h => by
    have h0 : tr (c :: (chunk ++ rest)) = none := by simpa using h 0 (by simp)
    have ih := subn_skip tr chunk rest (fun i hi => by
      simpa using h (i + 1) (by simp; omega))
    rw [show (c :: chunk) ++ rest = c :: (chunk ++ rest) from rfl,
      subn_cons_none tr c (chunk ++ rest) h0, ih]
    rfl

/-- A region in which the matcher fails everywhere is copied with count 0. -/
theorem subn_none_all (tr : Chars → Option (Chars × Chars)) :
    ∀ cs : Chars, (∀ i, i < cs.length → tr (cs.drop i) = none) → subn tr cs = (cs, 0)
  | [], _ => rfl
  | c :: t, h => by
    have h0 : tr (c :: t) = none := by simpa using h 0 (by simp)
    have ih := subn_none_all tr t (fun i hi => by
      simpa using h (i + 1) (by simp; omega))
    rw [subn_cons_none tr c t h0, ih]

/-- `re.search` skips a region in which the matcher fails at every
position. -/
theorem searchP_skip {α : Type} (tr : Chars → Option α) :
    ∀ (chunk rest : Chars),
      (∀ i, i < chunk.length → tr (chunk.drop i ++ rest) = none) →
      searchP tr (chunk ++ rest) = searchP tr rest
  | [], _, _ => by simp
  | c :: chunk, rest, h => by
    have h0 : tr (c :: (chunk ++ rest)) = none := by simpa using h 0 (by simp)
    have ih := searchP_skip tr chunk rest (fun i hi => by
      simpa using h (i + 1) (by simp; omega))
    simp [searchP, h0, ih]

/-- `re.search` returns the match at the head position when there is one. -/
theorem searchP_head_some {α : Type} (tr : Chars → Option α) (cs : Chars) (a : α)
    (hne : cs ≠ []) (h : tr cs = some a) : searchP tr cs = some a := by
  cases cs with
  | nil => exact absurd rfl hne
  | cons c t => simp [searchP, h]

/-- `re.search` fails when the matcher fails at every position. -/
theorem searchP_none_all {α : Type} (tr : Chars → Option α) :
    ∀ cs : Chars, (∀ i, i ≤ cs.length → tr (cs.drop i) = none) → searchP tr cs = none
  | [], h => by simpa using h 0 (by simp)
  | c :: t, h => by
    have h0 : tr (c :: t) = none := by simpa using h 0 (by simp)
    have ih := searchP_none_all tr t (fun i hi => by
      simpa using h (i + 1) (by simp; omega))
    simp [searchP, h0, ih]

/-- The target matcher at the designated attribute occurrence. -/
theorem tryTargetPat_at (r v b : Chars) (hv : v ≠ []) (hq : ∀ c ∈ v, ¬ c = '"') :
    tryTargetPat r (targetLit ++ (v ++ '"' :: b)) =
      some (targetLit ++ r ++ "\"".data, b) := by
  have hall : ∀ c ∈ v, (fun c => !(c = '"')) c = true := by
    intro c hc; simpa using hq c hc
  have hm := manyOne_stop (fun c => !(c = '"')) v '"' b hv hall (by simp)
  have hq2 : lit "\"".data ('"' :: b) = some b := by
    simpa using lit_self "\"".data b
  simp [tryTargetPat, lit_self, hm, hq2]

/-- The target matcher fails where its literal head is not a prefix. -/
theorem tryTargetPat_not_pref (r cs : Chars) (h : targetLit.isPrefixOf cs = false) :
    tryTargetPat r cs = none := by
  simp [tryTargetPat, lit, h]

/-- The target matcher fails on an empty attribute value. -/
theorem tryTargetPat_empty_val (r b : Chars) :
    tryTargetPat r (targetLit ++ '"' :: b) = none := by
  have hm : manyOne (fun c => !(c = '"')) ('"' :: b) = none :=
    manyOne_fail _ '"' b (by simp)
  simp [tryTargetPat, lit_self, hm]

/-- The target reader at the designated attribute occurrence. -/
theorem tryTargetRead_at (v b : Chars) (hv : v ≠ []) (hq : ∀ c ∈ v, ¬ c = '"') :
    tryTargetRead (targetLit ++ (v ++ '"' :: b)) = some v := by
  have hall : ∀ c ∈ v, (fun c => !(c = '"')) c = true := by
    intro c hc; simpa using hq c hc
  have hm := manyOne_stop (fun c => !(c = '"')) v '"' b hv hall (by simp)
  have hq2 : lit "\"".data ('"' :: b) = some b := by
    simpa using lit_self "\"".data b
  simp [tryTargetRead, lit_self, hm, hq2]

/-- The target reader fails where its literal head is not a prefix. -/
theorem tryTargetRead_not_pref (cs : Chars) (h : targetLit.isPrefixOf cs = false) :
    tryTargetRead cs = none := by
  simp [tryTargetRead, lit, h]

/-- Formalizes "the document's `target=` attribute occurs exactly once": the
document is `a ++ target="v" ++ b` and every tail starting with the literal
`target="` is the designated one. -/
def uniqueTargetAt (a v b : Chars) : Prop :=
  ∀ s ∈ (a ++ (targetLit ++ (v ++ '"' :: b))).tails,
    targetLit.isPrefixOf s = true → s = targetLit ++ (v ++ '"' :: b)

instance (a v b : Chars) : Decidable (uniqueTargetAt a v b) :=
  inferInstanceAs (Decidable (∀ s ∈ (a ++ (targetLit ++ (v ++ '"' :: b))).tails,
    targetLit.isPrefixOf s = true → s = targetLit ++ (v ++ '"' :: b)))

/-- Decomposition of a suffix of an append. -/
theorem suffix_split {s x y : Chars} (h : s <:+ x ++ y) :
    s <:+ y ∨ ∃ xs, xs <:+ x ∧ xs ≠ [] ∧ s = xs ++ y := by
  obtain ⟨t, ht⟩ := h
  have hs : s = (x ++ y).drop t.length := by
    have := congrArg (List.drop t.length) ht
    simpa [List.drop_left] using this
  rcases le_or_lt x.length t.length with hle | hlt
  · left
    have h2 : (x ++ y).drop t.length = y.drop (t.length - x.length) := by
      have he : t.length = x.length + (t.length - x.length) := by omega
      rw [he]
      simp [List.drop_append]
    rw [hs, h2]
    exact List.drop_suffix _ y
  · right
    refine ⟨x.drop t.length, List.drop_suffix _ x, ?_, ?_⟩
    · intro hempty
      have := congrArg List.length hempty
      simp at this
      omega
    · rw [hs, List.drop_append_of_le_length (by omega)]

/-- A short enough prefix of `xs ++ u ++ z` does not depend on `z`. -/
theorem take_append_indep :
    ∀ (xs u z1 z2 : Chars) (n : Nat), n ≤ xs.length + u.length →
      (xs ++ (u ++ z1)).take n = (xs ++ (u ++ z2)).take n := by
  intro xs
  induction xs with
  | nil =>
    intro u z1 z2 n hn
    simp only [List.nil_append, List.length_nil, Nat.zero_add] at hn ⊢
    rw [List.take_append_of_le_length hn, List.take_append_of_le_length hn]
  | cons c xs ih =>
    intro u z1 z2 n hn
    cases n with
    | zero => simp
    | succ m =>
      simp only [List.cons_append, List.take_succ_cons]
      have hm : m ≤ xs.length + u.length := by simp at hn; omega
      rw [ih u z1 z2 m hm]

/-- The first eight characters of `xs ++ target=" ++ z` do not depend on
`z`. -/
theorem take_targetLit_eq (xs z1 z2 : Chars) :
    (xs ++ (targetLit ++ z1)).take targetLit.length =
    (xs ++ (targetLit ++ z2)).take targetLit.length :=
  take_append_indep xs targetLit z1 z2 targetLit.length (by omega)

/-- Whether `target="` starts at a position crossing into the region
`target="z` does not depend on `z`. -/
theorem isPrefixOf_targetLit_cross (xs z1 z2 : Chars)
    (h : targetLit.isPrefixOf (xs ++ (targetLit ++ z1)) = true) :
    targetLit.isPrefixOf (xs ++ (targetLit ++ z2)) = true := by
  rw [List.isPrefixOf_iff_prefix, List.prefix_iff_eq_take] at h ⊢
  rw [take_targetLit_eq xs z2 z1]
  exact h

/-- Every character kept by `_getValidFilename` passes its keep filter. -/
theorem sanitized_chars (name : Chars) :
    ∀ c ∈ getValidFilename name,
      (c.isAlphanum || c = '.' || c = '_' || c = '/') = true := by
  intro c hc
  exact (List.mem_filter.1 hc).2

/-- Sanitized characters are neither quotes nor equals signs. -/
theorem sanitized_not_special (c : Char)
    (h : (c.isAlphanum || c = '.' || c = '_' || c = '/') = true) :
    ¬ c = '"' ∧ ¬ c = '=' := by
  constructor <;> rintro rfl <;> exact absurd h (by decide)

/-- `target="` cannot start inside a run of sanitized characters followed by
the closing quote. -/
theorem targetLit_not_pref_mid (rs b : Chars)
    (hrs : ∀ c ∈ rs, (c.isAlphanum || c = '.' || c = '_' || c = '/') = true) :
    targetLit.isPrefixOf (rs ++ '"' :: b) = false := by
  match rs with
  | [] => rfl
  | [c0] => simp [targetLit_chars, List.isPrefixOf]
  | [c0, c1] => simp [targetLit_chars, List.isPrefixOf]
  | [c0, c1, c2] => simp [targetLit_chars, List.isPrefixOf]
  | [c0, c1, c2, c3] => simp [targetLit_chars, List.isPrefixOf]
  | [c0, c1, c2, c3, c4] => simp [targetLit_chars, List.isPrefixOf]
  | [c0, c1, c2, c3, c4, c5] => simp [targetLit_chars, List.isPrefixOf]
  | [c0, c1, c2, c3, c4, c5, c6] =>
    have h6 : ('=' == c6) = false :=
      beq_eq_false_iff_ne.2 fun he =>
        (sanitized_not_special c6 (hrs c6 (by simp))).2 he.symm
    simp [targetLit_chars, List.isPrefixOf, h6]
  | c0 :: c1 :: c2 :: c3 :: c4 :: c5 :: c6 :: c7 :: rest =>
    have h7 : ('"' == c7) = false :=
      beq_eq_false_iff_ne.2 fun he =>
        (sanitized_not_special c7 (hrs c7 (by simp))).1 he.symm
    simp [targetLit_chars, List.isPrefixOf, h7]

/-- `target="` cannot start inside its own proper nonempty suffix. -/
theorem targetLit_suffix_not_pref (ts rest2 : Chars) (hts : ts <:+ targetLit)
    (htsne : ts ≠ []) (hne : ts ≠ targetLit) :
    targetLit.isPrefixOf (ts ++ rest2) = false := by
  rw [targetLit_chars] at hts
  rcases List.suffix_cons_iff.1 hts with rfl | hts
  · exact absurd targetLit_chars.symm hne
  rcases List.suffix_cons_iff.1 hts with rfl | hts
  · rfl
  rcases List.suffix_cons_iff.1 hts with rfl | hts
  · rfl
  rcases List.suffix_cons_iff.1 hts with rfl | hts
  · rfl
  rcases List.suffix_cons_iff.1 hts with rfl | hts
  · rfl
  rcases List.suffix_cons_iff.1 hts with rfl | hts
  · rfl
  rcases List.suffix_cons_iff.1 hts with rfl | hts
  · rfl
  rcases List.suffix_cons_iff.1 hts with rfl | hts
  · rfl
  exact absurd (List.suffix_nil.1 hts) htsne

/-- Replacing the unique attribute value with a sanitized name preserves the
uniqueness of the attribute occurrence. -/
theorem uniqueTargetAt_replace (a v b rf : Chars)
    (hrf : ∀ c ∈ rf, (c.isAlphanum || c = '.' || c = '_' || c = '/') = true)
    (hU : uniqueTargetAt a v b) : uniqueTargetAt a rf b := by
  intro s hs hpre
  rw [List.mem_tails] at hs
  rcases suffix_split hs with hs1 | ⟨xs, hxs, hxsne, rfl⟩
  · rcases suffix_split hs1 with hs2 | ⟨ts, hts, htsne, rfl⟩
    · rcases suffix_split hs2 with hs3 | ⟨rs, hrs, _, rfl⟩
      · rcases List.suffix_cons_iff.1 hs3 with rfl | hs4
        · exact absurd hpre (by simp [targetLit_chars, List.isPrefixOf])
        · exfalso
          have hsold : s ∈ (a ++ (targetLit ++ (v ++ '"' :: b))).tails := by
            rw [List.mem_tails]
            have hb : (b : Chars) <:+ a ++ (targetLit ++ (v ++ '"' :: b)) := by
              refine List.IsSuffix.trans ?_ (List.suffix_append a _)
              refine List.IsSuffix.trans ?_ (List.suffix_append targetLit _)
              refine List.IsSuffix.trans ?_ (List.suffix_append v _)
              exact ⟨['"'], rfl⟩
            exact hs4.trans hb
          have heq := hU s hsold hpre
          have hlen : s.length ≤ b.length := hs4.length_le
          rw [heq] at hlen
          simp [targetLit_chars] at hlen
          omega
      · have hchars : ∀ c ∈ rs, (c.isAlphanum || c = '.' || c = '_' || c = '/') = true :=
          fun c hc => hrf c (hrs.subset hc)
        exact absurd hpre (by simp [targetLit_not_pref_mid rs b hchars])
    · by_cases hfull : ts = targetLit
      · subst hfull; rfl
      · rw [targetLit_suffix_not_pref ts _ hts htsne hfull] at hpre
        exact absurd hpre (by simp)
  · exfalso
    have hpre0 : targetLit.isPrefixOf (xs ++ (targetLit ++ (v ++ '"' :: b))) = true :=
      isPrefixOf_targetLit_cross xs (rf ++ '"' :: b) (v ++ '"' :: b) hpre
    have hmem : xs ++ (targetLit ++ (v ++ '"' :: b)) ∈
        (a ++ (targetLit ++ (v ++ '"' :: b))).tails := by
      rw [List.mem_tails]
      obtain ⟨t, rfl⟩ := hxs
      exact ⟨t, by simp⟩
    have heq := hU _ hmem hpre0
    have hlen := congrArg List.length heq
    simp at hlen
    exact hxsne hlen

/-- Under uniqueness, a matcher that requires the literal template head
fails at every position strictly inside the leading region `a`. -/
theorem skip_head_none {α : Type} (mk : Chars → Option α)
    (hnp : ∀ cs, targetLit.isPrefixOf cs = false → mk cs = none)
    (a w b : Chars) (hU : uniqueTargetAt a w b) :
    ∀ i, i < a.length → mk (a.drop i ++ (targetLit ++ (w ++ '"' :: b))) = none := by
  intro i hi
  cases hcase : targetLit.isPrefixOf (a.drop i ++ (targetLit ++ (w ++ '"' :: b))) with
  | false => exact hnp _ hcase
  | true =>
    exfalso
    have hmem : a.drop i ++ (targetLit ++ (w ++ '"' :: b)) ∈
        (a ++ (targetLit ++ (w ++ '"' :: b))).tails := by
      rw [List.mem_tails, ← List.drop_append_of_le_length (Nat.le_of_lt hi)]
      exact List.drop_suffix i _
    have heq := hU _ hmem hcase
    have hlen := congrArg List.length heq
    simp at hlen
    omega

/-- Under uniqueness, a matcher that requires the literal template head
fails at every position inside the trailing region `b`. -/
theorem tail_none {α : Type} (mk : Chars → Option α)
    (hnp : ∀ cs, targetLit.isPrefixOf cs = false → mk cs = none)
    (a w b : Chars) (hU : uniqueTargetAt a w b) :
    ∀ i, mk (b.drop i) = none := by
  intro i
  cases hcase : targetLit.isPrefixOf (b.drop i) with
  | false => exact hnp _ hcase
  | true =>
    exfalso
    have hb : (b.drop i) <:+ a ++ (targetLit ++ (w ++ '"' :: b)) := by
      refine (List.drop_suffix i b).trans ?_
      refine List.IsSuffix.trans ?_ (List.suffix_append a _)
      refine List.IsSuffix.trans ?_ (List.suffix_append targetLit _)
      refine List.IsSuffix.trans ?_ (List.suffix_append w _)
      exact ⟨['"'], rfl⟩
    have heq := hU _ ((List.mem_tails _ _).2 hb) hcase
    have hlen : (b.drop i).length ≤ b.length := by simp
    rw [heq] at hlen
    simp [targetLit_chars] at hlen
    omega

/-- Under uniqueness the substitution rewrites exactly the designated
occurrence, once. -/
theorem subn_target_unique (r : Chars) (a v b : Chars)
    (hv : v ≠ []) (hq : ∀ c ∈ v, ¬ c = '"') (hU : uniqueTargetAt a v b) :
    subn (tryTargetPat r) (a ++ (targetLit ++ (v ++ '"' :: b))) =
      (a ++ (targetLit ++ (r ++ '"' :: b)), 1) := by
  have hcons := tryTargetPat_consumes r
  rw [subn_skip (tryTargetPat r) a (targetLit ++ (v ++ '"' :: b))
    (skip_head_none (tryTargetPat r) (fun cs h => tryTargetPat_not_pref r cs h) a v b hU)]
  rw [subn_match_head (tryTargetPat r) hcons _ _ _ (tryTargetPat_at r v b hv hq)]
  rw [subn_none_all (tryTargetPat r) b (fun i _ =>
    tail_none (tryTargetPat r) (fun cs h => tryTargetPat_not_pref r cs h) a v b hU i)]
  simp

/-- `setReportFileName` on a document with the unique designated attribute
occurrence succeeds with no warning and substitutes the sanitized name. -/
theorem setReport_unique (name : Chars) (warn : Bool) (a v b : Chars)
    (hv : v ≠ []) (hq : ∀ c ∈ v, ¬ c = '"') (hU : uniqueTargetAt a v b) :
    setReportFileName name warn (a ++ (targetLit ++ (v ++ '"' :: b))) =
      .ok (a ++ (targetLit ++ (getValidFilename name ++ '"' :: b))) 0 := by
  simp [setReportFileName, subn_target_unique (getValidFilename name) a v b hv hq hU]

/-- C3: on every document whose `target=` attribute occurs exactly once with
a nonempty value, `setReportFileName("foo")` succeeds; a fresh read of the
`target=` attribute then yields the sanitized form of `"foo"`; and the same
call applied a second time still matches exactly once and leaves the
document content identical (mutate-then-read round-trip and idempotence). -/
theorem setReportFileName_roundtrip_idempotent (a v b : Chars)
    (hv : v ≠ []) (hq : ∀ c ∈ v, ¬ c = '"') (hU : uniqueTargetAt a v b) :
    setReportFileName "foo".data false (a ++ (targetLit ++ (v ++ '"' :: b))) =
      .ok (a ++ (targetLit ++ ("foo".data ++ '"' :: b))) 0 ∧
    readTargetAttr (a ++ (targetLit ++ ("foo".data ++ '"' :: b))) =
      some (getValidFilename "foo".data) ∧
    subn (tryTargetPat (getValidFilename "foo".data))
        (a ++ (targetLit ++ ("foo".data ++ '"' :: b))) =
      (a ++ (targetLit ++ ("foo".data ++ '"' :: b)), 1) ∧
    setReportFileName "foo".data false (a ++ (targetLit ++ ("foo".data ++ '"' :: b))) =
      .ok (a ++ (targetLit ++ ("foo".data ++ '"' :: b))) 0 := by
  have hsan : getValidFilename "foo".data = "foo".data := by decide
  have hU2 : uniqueTargetAt a "foo".data b :=
    uniqueTargetAt_replace a v b "foo".data (by decide) hU
  refine ⟨?_, ?_, ?_, ?_⟩
  · have h := setReport_unique "foo".data false a v b hv hq hU
    rwa [hsan] at h
  · unfold readTargetAttr
    rw [searchP_skip tryTargetRead a _
      (skip_head_none tryTargetRead (fun cs h => tryTargetRead_not_pref cs h)
        a "foo".data b hU2)]
    rw [searchP_head_some tryTargetRead _ _ (by simp [targetLit_chars])
      (tryTargetRead_at "foo".data b (by decide) (by decide))]
    rw [hsan]
  · rw [hsan]
    exact subn_target_unique "foo".data a "foo".data b (by decide) (by decide) hU2
  · have h := setReport_unique "foo".data false a "foo".data b (by decide) (by decide) hU2
    rwa [hsan] at h

/-- Witness for `setReportFileName_roundtrip_idempotent` on a concrete
report element. -/
theorem setReportFileName_roundtrip_idempotent_witness :
    setReportFileName "foo".data false
      ("<Report ".data ++ (targetLit ++ ("old.txt".data ++ '"' :: " append=\"0\"/>".data))) =
      .ok ("<Report ".data ++ (targetLit ++ ("foo".data ++ '"' :: " append=\"0\"/>".data))) 0 ∧
    readTargetAttr
      ("<Report ".data ++ (targetLit ++ ("foo".data ++ '"' :: " append=\"0\"/>".data))) =
      some (getValidFilename "foo".data) ∧
    subn (tryTargetPat (getValidFilename "foo".data))
      ("<Report ".data ++ (targetLit ++ ("foo".data ++ '"' :: " append=\"0\"/>".data))) =
      ("<Report ".data ++ (targetLit ++ ("foo".data ++ '"' :: " append=\"0\"/>".data)), 1) ∧
    setReportFileName "foo".data false
      ("<Report ".data ++ (targetLit ++ ("foo".data ++ '"' :: " append=\"0\"/>".data))) =
      .ok ("<Report ".data ++ (targetLit ++ ("foo".data ++ '"' :: " append=\"0\"/>".data))) 0 :=
  setReportFileName_roundtrip_idempotent "<Report ".data "old.txt".data
    " append=\"0\"/>".data (by decide) (by decide) (by decide)

/-- C10: when the sanitized report name is empty, `setReportFileName` still
succeeds and sets the attribute value to the empty string; afterwards every
further `setReportFileName` call on the document fails fatally, because the
template requires a nonempty attribute value.  So the idempotence of
`setReportFileName` needs the precondition that the sanitized name is
nonempty. -/
theorem setReportFileName_empty_sanitized (name a v b : Chars)
    (hname : getValidFilename name = [])
    (hv : v ≠ []) (hq : ∀ c ∈ v, ¬ c = '"') (hU : uniqueTargetAt a v b) :
    setReportFileName name false (a ++ (targetLit ++ (v ++ '"' :: b))) =
      .ok (a ++ (targetLit ++ ('"' :: b))) 0 ∧
    (∀ name2 warn, setReportFileName name2 warn (a ++ (targetLit ++ ('"' :: b))) =
      .fatal "The output filename could not be changed.".data) := by
  have hU0 : uniqueTargetAt a [] b := uniqueTargetAt_replace a v b [] (by simp) hU
  constructor
  · have h := setReport_unique name false a v b hv hq hU
    rw [hname] at h
    simpa using h
  · intro name2 warn
    have ha : ∀ i, i < a.length →
        tryTargetPat (getValidFilename name2) (a.drop i ++ (targetLit ++ ('"' :: b))) = none :=
      skip_head_none (tryTargetPat (getValidFilename name2))
        (fun cs h => tryTargetPat_not_pref _ cs h) a [] b hU0
    have htgt : ∀ i, i < targetLit.length →
        tryTargetPat (getValidFilename name2) (targetLit.drop i ++ '"' :: b) = none := by
      intro i hi
      have hi8 : i < 8 := by simpa [targetLit_chars] using hi
      interval_cases i
      · exact tryTargetPat_empty_val _ b
      · exact tryTargetPat_not_pref _ _ rfl
      · exact tryTargetPat_not_pref _ _ rfl
      · exact tryTargetPat_not_pref _ _ rfl
      · exact tryTargetPat_not_pref _ _ rfl
      · exact tryTargetPat_not_pref _ _ rfl
      · exact tryTargetPat_not_pref _ _ rfl
      · exact tryTargetPat_not_pref _ _ rfl
    have hzero : subn (tryTargetPat (getValidFilename name2))
        (a ++ (targetLit ++ ('"' :: b))) = (a ++ (targetLit ++ ('"' :: b)), 0) := by
      rw [subn_skip _ a _ ha, subn_skip _ targetLit _ htgt,
        subn_cons_none _ '"' b (tryTargetPat_not_pref _ _ rfl),
        subn_none_all _ b (fun i _ => tail_none (tryTargetPat (getValidFilename name2))
          (fun cs h => tryTargetPat_not_pref _ cs h) a [] b hU0 i)]
    simp [setReportFileName, hzero]

/-- Witness for `setReportFileName_empty_sanitized`: the name `???`
sanitizes to the empty string; the follow-up call aborts. -/
theorem setReportFileName_empty_sanitized_witness :
    setReportFileName "???".data false
      ("<Report ".data ++ (targetLit ++ ("old.txt".data ++ '"' :: " append=\"0\"/>".data))) =
      .ok ("<Report ".data ++ (targetLit ++ ('"' :: " append=\"0\"/>".data))) 0 ∧
    setReportFileName "next".data false
      ("<Report ".data ++ (targetLit ++ ('"' :: " append=\"0\"/>".data))) =
      .fatal "The output filename could not be changed.".data :=
  ⟨(setReportFileName_empty_sanitized "???".data "<Report ".data "old.txt".data
      " append=\"0\"/>".data (by decide) (by decide) (by decide) (by decide)).1,
   (setReportFileName_empty_sanitized "???".data "<Report ".data "old.txt".data
      " append=\"0\"/>".data (by decide) (by decide) (by decide) (by decide)).2
     "next".data false⟩

/-!
Specification-side description for the MCA-result aggregation script, and
the generic dict and sorting lemmas it needs.
-/

/-- First-occurrence deduplication worker, threading the already-seen set. -/
def dedupFirstGo : List Chars → List Chars → List Chars
  | [], _ => []
  | x :: t, seen => if x ∈ seen then dedupFirstGo t seen else x :: dedupFirstGo t (x :: seen)

/-- Keep the first occurrence of every element. -/
def dedupFirst (l : List Chars) : List Chars := dedupFirstGo l []

/-- The running-dict update performed for every recorded triple. -/
def triplesUpd (d : List (Chars × List Chars)) (p : Chars × Chars) :
    List (Chars × List Chars) :=
  pyDictInsert p.1 ((pyDictGet p.1 d).getD [] ++ [p.2]) d

/-- Modelled from the spec: one input file of the MCA aggregation script,
given by its three name parts and its content. -/
structure MCAJob where
  scan : Chars
  row : Chars
  col : Chars
  content : Chars

/-- The filename convention `<scanId>_<row>_<column>.txt`. -/
def mcaJobName (j : MCAJob) : Chars :=
  j.scan ++ '_' :: (j.row ++ '_' :: (j.col ++ ".txt".data))

/-- Modelled from the spec: the triple recorded for one line — lines
containing the marker yield the scan id together with the tab-joined
`(row, column, value)` where the value is the stripped second tab field. -/
def lineTriple (scan row col : Chars) (l : Chars) : Option (Chars × Chars) :=
  if containsSub objMarker l then
    match splitOnChar '\t' l with
    | _ :: v :: _ => some (scan, joinSep ['\t'] [row, col, pyStrip v])
    | _ => none
  else none

/-- Modelled from the spec: all triples of one file, one per marker line,
in line order and without deduplication. -/
def mcaJobTriples (j : MCAJob) : List (Chars × Chars) :=
  (splitLinesC j.content).filterMap (lineTriple j.scan j.row j.col)

/-- Modelled from the spec: the aggregated output — one
`<scanId>_summary.txt` per scan id in lexicographically sorted order, each
holding that scan's triples newline-joined in recording order. -/
def specMCAOutput (jobs : List MCAJob) : List (Chars × Chars) :=
  let ts := (jobs.map mcaJobTriples).flatten
  (sortStrs (dedupFirst (ts.map Prod.fst))).map (fun s =>
    (s ++ "_summary.txt".data, joinSep ['\n'] ((ts.filter (fun p => p.1 = s)).map Prod.snd)))

/-- Well-formedness of one input file for the aggregation claim: nonempty
row and column segments without underscores or dots, a dot-free scan id,
and a tab-delimited value on every marker line. -/
def mcaJobOk (j : MCAJob) : Prop :=
  j.row ≠ [] ∧ j.col ≠ [] ∧
  (∀ c ∈ j.row, ¬ c = '_' ∧ ¬ c = '.') ∧
  (∀ c ∈ j.col, ¬ c = '_' ∧ ¬ c = '.') ∧
  (∀ c ∈ j.scan, ¬ c = '.') ∧
  (∀ l ∈ splitLinesC j.content,
    containsSub objMarker l = true → 1 < (splitOnChar '\t' l).length)

instance (j : MCAJob) : Decidable (mcaJobOk j) := by
  unfold mcaJobOk
  infer_instance

/-- Lookup after inserting the same key. -/
theorem pyDictGet_insert_self {β : Type} (k : Chars) (v : β) :
    ∀ d : List (Chars × β), pyDictGet k (pyDictInsert k v d) = some v
  | [] => by simp [pyDictInsert, pyDictGet]
  | (a, b) :: t => by
    by_cases ha : a = k
    · subst ha
      simp [pyDictInsert, pyDictGet]
    · simp only [pyDictInsert, if_neg ha, pyDictGet]
      exact pyDictGet_insert_self k v t

/-- Lookup after inserting a different key. -/
theorem pyDictGet_insert_other {β : Type} (s k : Chars) (v : β) (hne : ¬ s = k) :
    ∀ d : List (Chars × β), pyDictGet s (pyDictInsert k v d) = pyDictGet s d
  | [] => by
    simp only [pyDictInsert, pyDictGet]
    rw [if_neg (fun h => hne h.symm)]
  | (a, b) :: t => by
    by_cases ha : a = k
    · subst ha
      simp only [pyDictInsert, if_pos rfl, pyDictGet]
      have hna : ¬ a = s := fun h => hne h.symm
      rw [if_neg hna, if_neg hna]
    · simp only [pyDictInsert, if_neg ha, pyDictGet]
      by_cases hs : a = s
      · rw [if_pos hs, if_pos hs]
      · rw [if_neg hs, if_neg hs]
        exact pyDictGet_insert_other s k v hne t

/-- Keys after an insert: unchanged for a known key, appended for a fresh
one. -/
theorem pyDictKeys_insert {β : Type} (k : Chars) (v : β) :
    ∀ d : List (Chars × β), pyDictKeys (pyDictInsert k v d) =
      if k ∈ pyDictKeys d then pyDictKeys d else pyDictKeys d ++ [k]
  | [] => by simp [pyDictInsert, pyDictKeys]
  | (a, b) :: t => by
    by_cases ha : a = k
    · subst ha
      have hmem : a ∈ pyDictKeys ((a, b) :: t) := List.mem_cons_self a _
      rw [if_pos hmem,
        show pyDictInsert a v ((a, b) :: t) = (a, v) :: t from if_pos rfl]
      rfl
    · simp only [pyDictInsert, if_neg ha, pyDictKeys, List.map_cons]
      have ih := pyDictKeys_insert k v t
      simp only [pyDictKeys] at ih
      rw [ih]
      have hka : ¬ k = a := fun h => ha h.symm
      by_cases hk : k ∈ t.map (fun kv => kv.1)
      · rw [if_pos hk, if_pos (by simp [hk])]
      · rw [if_neg hk, if_neg (by simp [hka, hk]), List.cons_append]

/-- `dedupFirstGo` only depends on the membership of the seen set. -/
theorem dedupFirstGo_congr :
    ∀ (l s1 s2 : List Chars), (∀ y, y ∈ s1 ↔ y ∈ s2) →
      dedupFirstGo l s1 = dedupFirstGo l s2
  | [], _, _, _ => rfl
  | x :: t, s1, s2, h => by
    by_cases hx : x ∈ s1
    · simp [dedupFirstGo, hx, (h x).1 hx, dedupFirstGo_congr t s1 s2 h]
    · have hx2 : x ∉ s2 := fun hc => hx ((h x).2 hc)
      simp only [dedupFirstGo, if_neg hx, if_neg hx2]
      rw [dedupFirstGo_congr t (x :: s1) (x :: s2) (fun y => by simp [h y])]

/-- Elements produced by `dedupFirstGo` come from the input list. -/
theorem dedupFirstGo_subset :
    ∀ (l seen : List Chars) (x : Chars), x ∈ dedupFirstGo l seen → x ∈ l
  | [], _, _, h => by simp [dedupFirstGo] at h
  | y :: t, seen, x, h => by
    by_cases hy : y ∈ seen
    · simp only [dedupFirstGo, if_pos hy] at h
      exact List.mem_cons_of_mem y (dedupFirstGo_subset t seen x h)
    · simp only [dedupFirstGo, if_neg hy, List.mem_cons] at h
      rcases h with rfl | h
      · exact List.mem_cons_self x t
      · exact List.mem_cons_of_mem y (dedupFirstGo_subset t (y :: seen) x h)

/-- Membership in an insertion-sorted insert. -/
theorem mem_insSorted (x y : Chars) :
    ∀ l : List Chars, y ∈ insSorted x l ↔ y = x ∨ y ∈ l
  | [] => by simp [insSorted]
  | z :: t => by
    by_cases h : lexLtC x z = true
    · simp [insSorted, h]
    · simp only [insSorted, if_neg h, List.mem_cons, mem_insSorted x y t]
      tauto

/-- Membership is preserved by sorting. -/
theorem mem_sortStrs (y : Chars) :
    ∀ l : List Chars, y ∈ sortStrs l ↔ y ∈ l
  | [] => by simp [sortStrs]
  | x :: t => by
    have ih := mem_sortStrs y t
    simp only [sortStrs, List.foldr_cons] at ih ⊢
    rw [mem_insSorted, ih, List.mem_cons]

/-- Keys of the triple-dict fold: the first-seen order of the scan ids. -/
theorem keys_fold_upd :
    ∀ (ts : List (Chars × Chars)) (d0 : List (Chars × List Chars)),
      pyDictKeys (ts.foldl triplesUpd d0) =
        pyDictKeys d0 ++ dedupFirstGo (ts.map Prod.fst) (pyDictKeys d0)
  | [], d0 => by simp [dedupFirstGo]
  | p :: ts, d0 => by
    rw [List.foldl_cons, keys_fold_upd ts (triplesUpd d0 p)]
    have hk : pyDictKeys (triplesUpd d0 p) =
        if p.1 ∈ pyDictKeys d0 then pyDictKeys d0 else pyDictKeys d0 ++ [p.1] :=
      pyDictKeys_insert p.1 _ d0
    by_cases hp : p.1 ∈ pyDictKeys d0
    · rw [hk, if_pos hp]
      simp [dedupFirstGo, hp]
    · rw [hk, if_neg hp]
      have hcongr := dedupFirstGo_congr (ts.map Prod.fst)
        (pyDictKeys d0 ++ [p.1]) (p.1 :: pyDictKeys d0) (fun y => by simp; tauto)
      simp only [List.map_cons, dedupFirstGo, if_neg hp]
      rw [hcongr]
      simp

/-- Values of the triple-dict fold: per scan id, the triples recorded for it
in order. -/
theorem get_fold_upd :
    ∀ (ts : List (Chars × Chars)) (d0 : List (Chars × List Chars)) (s : Chars),
      pyDictGet s (ts.foldl triplesUpd d0) =
        if s ∈ ts.map Prod.fst ∨ (pyDictGet s d0).isSome = true
        then some ((pyDictGet s d0).getD [] ++
          (ts.filter (fun p => p.1 = s)).map Prod.snd)
        else none
  | [], d0, s => by
    cases hd : pyDictGet s d0 <;> simp [hd]
  | p :: ts, d0, s => by
    rw [List.foldl_cons, get_fold_upd ts (triplesUpd d0 p) s]
    by_cases hp : p.1 = s
    · have hupd : pyDictGet s (triplesUpd d0 p) =
          some ((pyDictGet s d0).getD [] ++ [p.2]) := by
        unfold triplesUpd
        rw [← hp]
        exact pyDictGet_insert_self p.1 _ d0
      rw [hupd]
      simp [hp, List.filter_cons]
    · have hupd : pyDictGet s (triplesUpd d0 p) = pyDictGet s d0 :=
        pyDictGet_insert_other s p.1 _ (fun h => hp h.symm) d0
      rw [hupd]
      have hmem : (s ∈ (p :: ts).map Prod.fst) ↔ (s ∈ ts.map Prod.fst) := by
        simp only [List.map_cons, List.mem_cons]
        constructor
        · rintro (h | h)
          · exact absurd h.symm hp
          · exact h
        · exact Or.inr
      have hfil : (p :: ts).filter (fun q => q.1 = s) = ts.filter (fun q => q.1 = s) := by
        simp [List.filter_cons, hp]
      rw [hfil]
      by_cases hs : s ∈ ts.map Prod.fst ∨ (pyDictGet s d0).isSome = true
      · rw [if_pos hs, if_pos (hs.imp_left hmem.mpr)]
      · rw [if_neg hs, if_neg (fun hc => hs (hc.imp_left hmem.mp))]

/-- `str.replace` on the empty string is the empty string. -/
theorem replaceAllGo_nilinput (pat repl : Chars) (hpat : pat ≠ []) :
    ∀ fuel, replaceAllGo pat repl fuel [] = []
  | 0 => rfl
  | fuel + 1 => by
    have hp : pat.isPrefixOf ([] : Chars) = false := by
      cases pat with
      | nil => exact absurd rfl hpat
      | cons p pt => rfl
    simp [replaceAllGo, hp]

/-- `str.replace` removes exactly the final occurrence when the pattern
occurs nowhere earlier. -/
theorem replaceAllGo_exact (pat repl : Chars) (hpat : pat ≠ []) :
    ∀ base : Chars,
      (∀ i, i < base.length → pat.isPrefixOf (base.drop i ++ pat) = false) →
      replaceAllGo pat repl (base ++ pat).length (base ++ pat) = base ++ repl
  | [], _ => by
    cases hp : pat with
    | nil => exact absurd hp hpat
    | cons p pt =>
      have hpre : pat.isPrefixOf pat = true := by
        rw [List.isPrefixOf_iff_prefix]
      rw [hp] at hpre
      show replaceAllGo (p :: pt) repl (pt.length + 1) (p :: pt) = [] ++ repl
      rw [← hp]
      simp only [← hp, replaceAllGo, hpre, if_true]
      rw [hp]
      simp [List.drop_length, replaceAllGo_nilinput (p :: pt) repl (by simp)]
  | c :: base, h => by
    have h0 : pat.isPrefixOf (c :: (base ++ pat)) = false := by
      simpa using h 0 (by simp)
    have ih := replaceAllGo_exact pat repl hpat base (fun i hi => by
      simpa using h (i + 1) (by simp; omega))
    show replaceAllGo pat repl ((base ++ pat).length + 1) (c :: (base ++ pat)) =
      c :: (base ++ repl)
    simp only [replaceAllGo, h0, Bool.false_eq_true, if_false]
    rw [ih]

/-- `str.replace` at the whole-string level. -/
theorem replaceAll_exact (pat repl base : Chars) (hpat : pat ≠ [])
    (h : ∀ i, i < base.length → pat.isPrefixOf (base.drop i ++ pat) = false) :
    replaceAll pat repl (base ++ pat) = base ++ repl :=
  replaceAllGo_exact pat repl hpat base h

/-- Field split: a leading separator closes the current field. -/
theorem splitOnCharGo_cons_sep (sep : Char) (t acc : Chars) :
    splitOnCharGo sep (sep :: t) acc = acc.reverse :: splitOnCharGo sep t [] := by
  simp [splitOnCharGo]

/-- Field split: a non-separator character extends the current field. -/
theorem splitOnCharGo_cons_ne (sep c : Char) (t acc : Chars) (hc : ¬ c = sep) :
    splitOnCharGo sep (c :: t) acc = splitOnCharGo sep t (c :: acc) := by
  simp [splitOnCharGo, hc]

/-- A split always yields at least one field. -/
theorem splitOnCharGo_ne_nil (sep : Char) :
    ∀ (cs acc : Chars), splitOnCharGo sep cs acc ≠ []
  | [], acc => by simp [splitOnCharGo]
  | c :: t, acc => by
    by_cases hc : c = sep
    · subst hc
      rw [splitOnCharGo_cons_sep]
      simp
    · rw [splitOnCharGo_cons_ne sep c t acc hc]
      exact splitOnCharGo_ne_nil sep t (c :: acc)

/-- Splitting distributes over a separator occurrence. -/
theorem splitOnCharGo_append_sep (sep : Char) :
    ∀ (a b acc : Chars),
      splitOnCharGo sep (a ++ sep :: b) acc =
        splitOnCharGo sep a acc ++ splitOnCharGo sep b []
  | [], b, acc => by
    rw [List.nil_append, splitOnCharGo_cons_sep]
    rfl
  | c :: a, b, acc => by
    rw [List.cons_append]
    by_cases hc : c = sep
    · subst hc
      rw [splitOnCharGo_cons_sep, splitOnCharGo_cons_sep,
        splitOnCharGo_append_sep c a b []]
      rfl
    · rw [splitOnCharGo_cons_ne sep c _ acc hc, splitOnCharGo_cons_ne sep c a acc hc]
      exact splitOnCharGo_append_sep sep a b (c :: acc)

/-- Splitting at the whole-string level distributes over a separator. -/
theorem splitOnChar_append_sep (sep : Char) (a b : Chars) :
    splitOnChar sep (a ++ sep :: b) = splitOnChar sep a ++ splitOnChar sep b :=
  splitOnCharGo_append_sep sep a b []

/-- A separator-free string splits into itself. -/
theorem splitOnCharGo_no_sep (sep : Char) :
    ∀ (cs acc : Chars), (∀ c ∈ cs, ¬ c = sep) →
      splitOnCharGo sep cs acc = [acc.reverse ++ cs]
  | [], acc, _ => by simp [splitOnCharGo]
  | c :: t, acc, h => by
    have hc : ¬ c = sep := h c (by simp)
    rw [splitOnCharGo_cons_ne sep c t acc hc,
      splitOnCharGo_no_sep sep t (c :: acc) (fun d hd => h d (by simp [hd]))]
    simp

/-- A separator-free string splits into the one-field list. -/
theorem splitOnChar_no_sep (sep : Char) (cs : Chars) (h : ∀ c ∈ cs, ¬ c = sep) :
    splitOnChar sep cs = [cs] := by
  simpa using splitOnCharGo_no_sep sep cs [] h

/-- Joining a split recovers the original string (worker form). -/
theorem joinSep_splitOnCharGo (sep : Char) :
    ∀ (cs acc : Chars), joinSep [sep] (splitOnCharGo sep cs acc) = acc.reverse ++ cs
  | [], acc => by simp [splitOnCharGo, joinSep]
  | c :: t, acc => by
    by_cases hc : c = sep
    · subst hc
      rw [splitOnCharGo_cons_sep]
      obtain ⟨y, ys, hys⟩ : ∃ y ys, splitOnCharGo c t [] = y :: ys := by
        cases hgo : splitOnCharGo c t [] with
        | nil => exact absurd hgo (splitOnCharGo_ne_nil c t [])
        | cons y ys => exact ⟨y, ys, rfl⟩
      have ih := joinSep_splitOnCharGo c t []
      rw [hys] at ih ⊢
      show acc.reverse ++ [c] ++ joinSep [c] (y :: ys) = acc.reverse ++ c :: t
      simp only [List.reverse_nil, List.nil_append] at ih
      rw [ih]
      simp
    · rw [splitOnCharGo_cons_ne sep c t acc hc,
        joinSep_splitOnCharGo sep t (c :: acc)]
      simp

/-- Joining a split recovers the original string. -/
theorem joinSep_splitOnChar (sep : Char) (cs : Chars) :
    joinSep [sep] (splitOnChar sep cs) = cs := by
  simpa using joinSep_splitOnCharGo sep cs []

/-- The `.txt` pattern cannot start at a dot-free position. -/
theorem isPrefixOf_txt_fail (cs rest : Chars) (hne : cs ≠ [])
    (h : ∀ c ∈ cs, ¬ c = '.') :
    ".txt".data.isPrefixOf (cs ++ rest) = false := by
  cases cs with
  | nil => exact absurd rfl hne
  | cons c t =>
    have hc : ('.' == c) = false :=
      beq_eq_false_iff_ne.2 (fun e => h c (by simp) e.symm)
    simp [List.isPrefixOf, hc]

/-- The filename dissection decodes the `<scanId>_<row>_<column>.txt`
convention: the last two underscore-delimited segments are the column and
the row, and everything before them — which may itself contain
underscores — is the scan id. -/
theorem scanRowCol_convention (j : MCAJob) (hok : mcaJobOk j) :
    scanRowCol (mcaJobName j) = some (j.scan, j.row, j.col) := by
  obtain ⟨hr, hc, hrc, hcc, hsc, -⟩ := hok
  have hbasechars : ∀ c ∈ j.scan ++ '_' :: (j.row ++ '_' :: j.col), ¬ c = '.' := by
    intro c hcmem
    simp only [List.mem_append, List.mem_cons] at hcmem
    rcases hcmem with h1 | h1 | h1 | h1 | h1
    · exact hsc c h1
    · subst h1; decide
    · exact (hrc c h1).2
    · subst h1; decide
    · exact (hcc c h1).2
  have hname : mcaJobName j =
      (j.scan ++ '_' :: (j.row ++ '_' :: j.col)) ++ ".txt".data := by
    simp [mcaJobName]
  have hrepl : replaceAll ".txt".data []
      ((j.scan ++ '_' :: (j.row ++ '_' :: j.col)) ++ ".txt".data) =
      j.scan ++ '_' :: (j.row ++ '_' :: j.col) := by
    have := replaceAll_exact ".txt".data [] (j.scan ++ '_' :: (j.row ++ '_' :: j.col))
      (by decide) (fun i hi => by
        refine isPrefixOf_txt_fail _ _ ?_ ?_
        · intro hnil
          rw [List.drop_eq_nil_iff] at hnil
          omega
        · intro c hcmem
          exact hbasechars c (List.drop_subset i _ hcmem))
    simpa using this
  have hsplit : splitOnChar '_' (j.scan ++ '_' :: (j.row ++ '_' :: j.col)) =
      splitOnChar '_' j.scan ++ [j.row, j.col] := by
    rw [splitOnChar_append_sep, splitOnChar_append_sep,
      splitOnChar_no_sep '_' j.row (fun c hcm => (hrc c hcm).1),
      splitOnChar_no_sep '_' j.col (fun c hcm => (hcc c hcm).1)]
    rfl
  unfold scanRowCol
  rw [hname, hrepl, hsplit]
  simp only [List.reverse_append, List.reverse_cons, List.reverse_nil,
    List.nil_append, List.cons_append, List.append_assoc]
  show some (joinSep ['_'] (splitOnChar '_' j.scan).reverse.reverse, j.row, j.col) = _
  rw [List.reverse_reverse, joinSep_splitOnChar]

/-- The per-file line loop records exactly the file's spec triples, in
order, onto the running dict. -/
theorem extractFileGo_spec (scan row col : Chars) :
    ∀ (lines : List Chars) (res : List (Chars × List Chars)),
      (∀ l ∈ lines, containsSub objMarker l = true → 1 < (splitOnChar '\t' l).length) →
      extractFileGo scan row col lines res =
        some ((lines.filterMap (lineTriple scan row col)).foldl triplesUpd res)
  | [], _, _ => rfl
  | l :: rest, res, h => by
    by_cases hm : containsSub objMarker l = true
    · have hlen := h l (by simp) hm
      cases hsp : splitOnChar '\t' l with
      | nil => rw [hsp] at hlen; simp at hlen
      | cons x r2 =>
        cases r2 with
        | nil => rw [hsp] at hlen; simp at hlen
        | cons v r3 =>
          have ih := extractFileGo_spec scan row col rest
            (triplesUpd res (scan, joinSep ['\t'] [row, col, pyStrip v]))
            (fun l2 hl2 hm2 => h l2 (by simp [hl2]) hm2)
          simp only [extractFileGo, hm, if_true, hsp, List.filterMap_cons,
            lineTriple, List.foldl_cons]
          exact ih
    · have hm' : containsSub objMarker l = false := by
        revert hm; cases containsSub objMarker l <;> simp
      have ih := extractFileGo_spec scan row col rest res
        (fun l2 hl2 hm2 => h l2 (by simp [hl2]) hm2)
      simp only [extractFileGo, hm', Bool.false_eq_true, if_false,
        List.filterMap_cons, lineTriple]
      exact ih

/-- The script's fold over the input files accumulates all files' spec
triples in file order. -/
theorem fold_jobs :
    ∀ (jobs : List MCAJob) (r0 : List (Chars × List Chars)),
      (∀ j ∈ jobs, mcaJobOk j) →
      (jobs.map (fun j => (mcaJobName j, j.content))).foldl
        (fun acc f => acc.bind (fun r =>
          match scanRowCol f.1 with
          | some src => extractFileGo src.1 src.2.1 src.2.2 (splitLinesC f.2) r
          | none => none)) (some r0) =
      some (((jobs.map mcaJobTriples).flatten).foldl triplesUpd r0)
  | [], _, _ => rfl
  | j :: jobs, r0, h => by
    have hokj := h j (by simp)
    have hscan := scanRowCol_convention j hokj
    have hfile := extractFileGo_spec j.scan j.row j.col (splitLinesC j.content) r0
      hokj.2.2.2.2.2
    have ih := fold_jobs jobs
      ((mcaJobTriples j).foldl triplesUpd r0) (fun j2 hj2 => h j2 (by simp [hj2]))
    simp only [List.map_cons, List.foldl_cons, Option.some_bind]
    simp only [hscan]
    rw [hfile]
    show _ = some (((mcaJobTriples j ++ (jobs.map mcaJobTriples).flatten)).foldl
      triplesUpd r0)
    rw [List.foldl_append]
    exact ih

/-- C8: for input files following the `<scanId>_<row>_<column>.txt`
convention (row and column the last two underscore-delimited segments, the
scan id — possibly containing underscores — everything before them), every
line containing the `Objective Function Value:` marker yields one separate
(row, column, value) triple recorded under the scan id with the value the
tab-delimited field after the marker and no deduplication, and the per-scan
output files are produced with scan ids in lexicographically sorted
order. -/
theorem runExtractMCA_spec (jobs : List MCAJob) (hok : ∀ j ∈ jobs, mcaJobOk j) :
    runExtractMCA (jobs.map (fun j => (mcaJobName j, j.content))) =
      some (specMCAOutput jobs) := by
  unfold runExtractMCA
  rw [fold_jobs jobs [] hok]
  unfold specMCAOutput
  simp only [Option.map_some']
  have hkeys : pyDictKeys (((jobs.map mcaJobTriples).flatten).foldl triplesUpd []) =
      dedupFirst (((jobs.map mcaJobTriples).flatten).map Prod.fst) := by
    rw [keys_fold_upd]
    rfl
  rw [hkeys]
  refine congrArg some (List.map_congr_left ?_)
  intro s hs
  have hmem : s ∈ ((jobs.map mcaJobTriples).flatten).map Prod.fst :=
    dedupFirstGo_subset _ [] s ((mem_sortStrs s _).1 hs)
  rw [get_fold_upd]
  rw [if_pos (Or.inl hmem)]
  simp [pyDictGet]

/-- Witness for `runExtractMCA_spec` on two concrete result files sharing
conventions, one with two marker lines and underscores in its scan id. -/
theorem runExtractMCA_spec_witness :
    runExtractMCA
      (([⟨"zz".data, "r1".data, "c1".data,
          "head\nObjective Function Value:\t0.5\nmid\nObjective Function Value:\t0.25\n".data⟩,
         ⟨"a_b".data, "r2".data, "c2".data,
          "Objective Function Value:\t7e-3\n".data⟩] : List MCAJob).map
        (fun j => (mcaJobName j, j.content))) =
      some (specMCAOutput
        [⟨"zz".data, "r1".data, "c1".data,
          "head\nObjective Function Value:\t0.5\nmid\nObjective Function Value:\t0.25\n".data⟩,
         ⟨"a_b".data, "r2".data, "c2".data,
          "Objective Function Value:\t7e-3\n".data⟩]) :=
  runExtractMCA_spec _ (by decide)

/-!
Specification-side description for the steady-state table aggregation.
-/

/-- C5 counterexample: two files with distinct paths but the same base name
`r`.  The file `b/r.txt` contributes no value for species `M`, yet its
column renders `1` (the value of `a/r.txt`) instead of the sentinel `na`,
because the dicts are keyed by base name; the claim that every (file,
entity) pair without a contributed value renders `na` is false.  The second
conjunct shows that no `na` cell appears at all. -/
theorem getTables_duplicate_basename_cex :
    getTables
      [("a/r.txt".data,
        ("A steady state with given resolution was found.\n\n" ++
         "Species\tConcentration (mol/l)\nM\t1\n\nReaction\tFlux (1/s)\n\nx").data),
       ("b/r.txt".data,
        ("A steady state with given resolution was found.\n\n" ++
         "Species\tConcentration (mol/l)\nN\t2\n\nReaction\tFlux (1/s)\n\nx").data)] =
      some ("\tr\tr\nM\t1\t1\nN\t2\t2".data, "\tr\tr".data) ∧
    containsSub "na".data "\tr\tr\nM\t1\t1\nN\t2\t2".data = false := by
  constructor
  · rfl
  · decide

/-- One rendered data row `name<TAB>value`. -/
def lineOfRow (r : Chars × Chars) : Chars := r.1 ++ '\t' :: r.2

/-- Modelled from the spec: one steady-state result file, given by its path,
whether the steady-state marker is present, and its two data sections. -/
structure SSFile where
  path : Chars
  activated : Bool
  concRows : List (Chars × Chars)
  fluxRows : List (Chars × Chars)

/-- The column name of a file: its base name without the extension. -/
def stemOf (f : SSFile) : Chars := fileStem f.path

/-- Renders one steady-state result file the way CopasiSE writes it: the
marker sentence, the two tabular sections separated by blank lines — or a
no-steady-state report when the file is not activated. -/
def renderSS (f : SSFile) : Chars :=
  if f.activated then
    joinSep ['\n'] ([steadyMarker, [], "Species\tConcentration (mol/l)".data] ++
      (f.concRows.map lineOfRow ++ ([[], "Reaction\tFlux (1/s)".data] ++
        (f.fluxRows.map lineOfRow ++ [[]]))))
  else "A steady state could not be found.".data

/-- Well-formedness of one data row: nonempty name and value, free of tabs
and newlines, with no leading whitespace on the name and no trailing
whitespace on the value (so that `strip()` leaves the line alone). -/
def rowOk (r : Chars × Chars) : Bool :=
  !r.1.isEmpty && !r.2.isEmpty &&
  r.1.all (fun c => !(c = '\t') && !(c = '\n')) &&
  r.2.all (fun c => !(c = '\t') && !(c = '\n')) &&
  !isPySpace (r.1.headD 'x') && !isPySpace (r.2.getLastD 'x')

/-- Well-formedness of one result file: clean rows with per-section distinct
entity names. -/
def ssFileOk (f : SSFile) : Bool :=
  f.concRows.all rowOk && f.fluxRows.all rowOk &&
  (f.concRows.map Prod.fst).Nodup && (f.fluxRows.map Prod.fst).Nodup

/-- Modelled from the spec: the inner column dict accumulated for an entity
— one entry per activated file that contributed a value, in file order. -/
def specInner (pick : SSFile → List (Chars × Chars)) (files : List SSFile) (e : Chars) :
    List (Chars × Chars) :=
  files.filterMap (fun f =>
    if f.activated then
      ((pick f).find? (fun r => r.1 = e)).map (fun r => (stemOf f, r.2))
    else none)

/-- Modelled from the spec: the entity names seen in any activated file, in
first-seen order (before deduplication and sorting). -/
def specEntities (pick : SSFile → List (Chars × Chars)) (files : List SSFile) :
    List Chars :=
  ((files.filter (fun f => f.activated)).map (fun f => (pick f).map Prod.fst)).flatten

/-- Modelled from the spec: the table cell for a (file, entity) pair — the
file's contributed value, or the literal sentinel `na`. -/
def specCell (pick : SSFile → List (Chars × Chars)) (f : SSFile) (e : Chars) : Chars :=
  if f.activated then (((pick f).find? (fun r => r.1 = e)).map Prod.snd).getD "na".data
  else "na".data

/-- Modelled from the spec: a whole aggregated table — the tab-led header of
base names in supplied order, then one row per entity name in sorted order
with one cell per file. -/
def specTable (pick : SSFile → List (Chars × Chars)) (files : List SSFile) : Chars :=
  joinSep ['\n'] (('\t' :: joinSep ['\t'] (files.map stemOf)) ::
    (sortStrs (dedupFirst (specEntities pick files))).map (fun e =>
      joinSep ['\t'] (e :: files.map (fun f => specCell pick f e))))

/-- `rfind` ignores a character-free region. -/
theorem rfindIdxGo_no (c : Char) :
    ∀ (cs : Chars) (i : Nat) (best : Option Nat), (∀ d ∈ cs, ¬ d = c) →
      rfindIdxGo c cs i best = best
  | [], _, _, _ => rfl
  | d :: t, i, best, h => by
    have hd : ¬ d = c := h d (by simp)
    simp only [rfindIdxGo, if_neg hd]
    exact rfindIdxGo_no c t (i + 1) best (fun x hx => h x (by simp [hx]))

/-- `rfind` scans an append in two stages. -/
theorem rfindIdxGo_append (c : Char) :
    ∀ (xs ys : Chars) (i : Nat) (best : Option Nat),
      rfindIdxGo c (xs ++ ys) i best =
        rfindIdxGo c ys (i + xs.length) (rfindIdxGo c xs i best)
  | [], ys, i, best => by simp [rfindIdxGo]
  | x :: xs, ys, i, best => by
    show rfindIdxGo c (xs ++ ys) (i + 1) (if x = c then some i else best) =
      rfindIdxGo c ys (i + (xs.length + 1))
        (rfindIdxGo c xs (i + 1) (if x = c then some i else best))
    rw [rfindIdxGo_append c xs ys (i + 1) _]
    have harith : i + 1 + xs.length = i + (xs.length + 1) := by omega
    rw [harith]

/-- The rightmost occurrence of a character placed before a region free of
it. -/
theorem rfindIdx_last (c : Char) (xs ys : Chars) (h : ∀ d ∈ ys, ¬ d = c) :
    rfindIdx c (xs ++ c :: ys) = some xs.length := by
  unfold rfindIdx
  rw [rfindIdxGo_append c xs (c :: ys) 0 none]
  show rfindIdxGo c ys (0 + xs.length + 1)
      (if c = c then some (0 + xs.length) else rfindIdxGo c xs 0 none) = _
  rw [if_pos rfl, rfindIdxGo_no c ys (0 + xs.length + 1) (some (0 + xs.length)) h]
  simp

/-- The column-name computation strips the directory and the extension from
a conventional path. -/
theorem fileStem_conv (dir stem ext : Chars) (hstem : stem ≠ [])
    (hs : ∀ c ∈ stem, ¬ c = '/' ∧ ¬ c = '.')
    (he : ∀ c ∈ ext, ¬ c = '/' ∧ ¬ c = '.') :
    fileStem (dir ++ '/' :: (stem ++ '.' :: ext)) = stem := by
  have hnos : ∀ d ∈ stem ++ '.' :: ext, ¬ d = '/' := by
    intro d hd
    simp only [List.mem_append, List.mem_cons] at hd
    rcases hd with h1 | h1 | h1
    · exact (hs d h1).1
    · subst h1; decide
    · exact (he d h1).1
  have hslash : rfindIdx '/' (dir ++ '/' :: (stem ++ '.' :: ext)) = some dir.length :=
    rfindIdx_last '/' dir (stem ++ '.' :: ext) hnos
  have hbase : pyBasename (dir ++ '/' :: (stem ++ '.' :: ext)) = stem ++ '.' :: ext := by
    unfold pyBasename
    rw [hslash]
    show List.drop (dir.length + 1) (dir ++ '/' :: (stem ++ '.' :: ext)) = _
    rw [show dir ++ '/' :: (stem ++ '.' :: ext) = (dir ++ ['/']) ++ (stem ++ '.' :: ext) by
      simp]
    rw [show dir.length + 1 = (dir ++ ['/']).length by simp]
    exact List.drop_left _ _
  have hdot : rfindIdx '.' (stem ++ '.' :: ext) = some stem.length :=
    rfindIdx_last '.' stem ext (fun d hd => (he d hd).2)
  have hany : stem.any (fun c => !(c = '.')) = true := by
    cases stem with
    | nil => exact absurd rfl hstem
    | cons s0 t =>
      have := (hs s0 (by simp)).2
      simp [List.any_cons, this]
  unfold fileStem
  simp only [hbase, hdot, List.take_left, hany, if_true]

/-- `dropWhile` is the identity when the head already fails. -/
theorem dropWhile_head_false (p : Char → Bool) (cs : Chars)
    (h : ∀ c, cs.head? = some c → p c = false) : cs.dropWhile p = cs := by
  cases cs with
  | nil => rfl
  | cons c t =>
    have := h c rfl
    simp [List.dropWhile_cons, this]

/-- `strip()` leaves a string without leading or trailing whitespace
alone. -/
theorem pyStrip_no_ws (cs : Chars)
    (hhead : ∀ c, cs.head? = some c → isPySpace c = false)
    (hlast : ∀ c, cs.getLast? = some c → isPySpace c = false) :
    pyStrip cs = cs := by
  unfold pyStrip
  rw [dropWhile_head_false isPySpace cs hhead,
    dropWhile_head_false isPySpace cs.reverse
      (fun c hc => hlast c (by rwa [List.head?_reverse] at hc)),
    List.reverse_reverse]

/-- Head of an append with a nonempty left part. -/
theorem head?_append_ne (xs ys : Chars) (h : xs ≠ []) :
    (xs ++ ys).head? = xs.head? := by
  cases xs with
  | nil => exact absurd rfl h
  | cons c t => rfl

/-- Last element of an append with a nonempty right part. -/
theorem getLast?_append_ne (xs ys : Chars) (h : ys ≠ []) :
    (xs ++ ys).getLast? = ys.getLast? := by
  rw [← List.head?_reverse, ← List.head?_reverse, List.reverse_append]
  exact head?_append_ne ys.reverse xs.reverse (by simpa using h)

/-- A well-formed data row is unchanged by `strip()`. -/
theorem rowOk_strip (r : Chars × Chars) (h : rowOk r = true) :
    pyStrip (lineOfRow r) = lineOfRow r := by
  simp only [rowOk, Bool.and_eq_true, Bool.not_eq_true'] at h
  obtain ⟨⟨⟨⟨⟨e1, e2⟩, -⟩, -⟩, s1⟩, s2⟩ := h
  have hr1 : r.1 ≠ [] := by
    intro hc; rw [hc] at e1; simp at e1
  have hr2 : r.2 ≠ [] := by
    intro hc; rw [hc] at e2; simp at e2
  refine pyStrip_no_ws _ ?_ ?_
  · intro c hc
    rw [show lineOfRow r = r.1 ++ '\t' :: r.2 from rfl,
      head?_append_ne _ _ hr1] at hc
    cases hr : r.1 with
    | nil => exact absurd hr hr1
    | cons c0 t =>
      rw [hr] at hc
      cases hc
      rw [hr] at s1
      simpa using s1
  · intro c hc
    rw [show lineOfRow r = r.1 ++ '\t' :: r.2 from rfl,
      getLast?_append_ne _ _ (by simp)] at hc
    have hc2 : r.2.getLast? = some c := by
      rw [← hc, show ('\t' :: r.2 : Chars) = ['\t'] ++ r.2 from rfl,
        getLast?_append_ne _ _ hr2]
    cases hr : r.2 with
    | nil => exact absurd hr hr2
    | cons c0 t =>
      have hlastD : r.2.getLastD 'x' = c := by
        rw [List.getLastD_eq_getLast?, hc2]
        rfl
      rw [hlastD] at s2
      exact s2

/-- A well-formed data row splits into its two tab fields. -/
theorem split_lineOfRow (r : Chars × Chars) (h : rowOk r = true) :
    splitOnChar '\t' (lineOfRow r) = [r.1, r.2] := by
  simp only [rowOk, Bool.and_eq_true, Bool.not_eq_true', List.all_eq_true] at h
  obtain ⟨⟨⟨⟨⟨-, -⟩, a1⟩, a2⟩, -⟩, -⟩ := h
  show splitOnChar '\t' (r.1 ++ '\t' :: r.2) = [r.1, r.2]
  rw [splitOnChar_append_sep,
    splitOnChar_no_sep '\t' r.1 (fun c hc => by simpa using (a1 c hc).1),
    splitOnChar_no_sep '\t' r.2 (fun c hc => by simpa using (a2 c hc).1)]
  rfl

/-- Splitting a newline-join recovers the lines. -/
theorem splitLinesC_joinSep :
    ∀ lines : List Chars, lines ≠ [] → (∀ l ∈ lines, ∀ c ∈ l, ¬ c = '\n') →
      splitLinesC (joinSep ['\n'] lines) = lines
  | [], h, _ => absurd rfl h
  | [x], _, h => by
    unfold splitLinesC
    rw [show joinSep ['\n'] [x] = x from rfl]
    exact splitOnChar_no_sep '\n' x (h x (by simp))
  | x :: y :: t, _, h => by
    unfold splitLinesC
    rw [show joinSep ['\n'] (x :: y :: t) = x ++ '\n' :: joinSep ['\n'] (y :: t) by
      show x ++ ['\n'] ++ joinSep ['\n'] (y :: t) = _
      simp]
    rw [splitOnChar_append_sep, splitOnChar_no_sep '\n' x (h x (by simp))]
    have ih := splitLinesC_joinSep (y :: t) (by simp)
      (fun l hl c hc => h l (by simp [hl]) c hc)
    unfold splitLinesC at ih
    rw [ih]
    rfl

/-- Scanner step: an idle line matching neither header is skipped. -/
theorem gvGo_idle_skip (fn line : Chars) (rest : List Chars) (cd fd : Dict2)
    (h1 : "Species\tConcentration".data.isPrefixOf (pyStrip line) = false)
    (h2 : "Reaction\tFlux".data.isPrefixOf (pyStrip line) = false) :
    gvGo fn (line :: rest) .idle cd fd = gvGo fn rest .idle cd fd := by
  simp [gvGo, h1, h2]

/-- Scanner step: the concentration header activates the conc section. -/
theorem gvGo_idle_conc (fn line : Chars) (rest : List Chars) (cd fd : Dict2)
    (h1 : "Species\tConcentration".data.isPrefixOf (pyStrip line) = true) :
    gvGo fn (line :: rest) .idle cd fd = gvGo fn rest .conc cd fd := by
  simp [gvGo, h1]

/-- Scanner step: the flux header activates the flux section. -/
theorem gvGo_idle_flux (fn line : Chars) (rest : List Chars) (cd fd : Dict2)
    (h1 : "Species\tConcentration".data.isPrefixOf (pyStrip line) = false)
    (h2 : "Reaction\tFlux".data.isPrefixOf (pyStrip line) = true) :
    gvGo fn (line :: rest) .idle cd fd = gvGo fn rest .flux cd fd := by
  simp [gvGo, h1, h2]

/-- Scanner step: a blank line leaves the concentration section. -/
theorem gvGo_conc_blank (fn : Chars) (rest : List Chars) (cd fd : Dict2) :
    gvGo fn ([] :: rest) .conc cd fd = gvGo fn rest .idle cd fd := by
  simp [gvGo, pyStrip]

/-- Scanner step: a blank line terminates the scan in the flux section. -/
theorem gvGo_flux_blank (fn : Chars) (rest : List Chars) (cd fd : Dict2) :
    gvGo fn ([] :: rest) .flux cd fd = some (cd, fd) := by
  simp [gvGo, pyStrip]

/-- The concentration section records its rows in order. -/
theorem gvGo_conc_rows (fn : Chars) :
    ∀ (rows : List (Chars × Chars)) (rest : List Chars) (cd fd : Dict2),
      (∀ r ∈ rows, rowOk r = true) →
      gvGo fn (rows.map lineOfRow ++ rest) .conc cd fd =
        gvGo fn rest .conc (rows.foldl (fun d r => dict2Insert r.1 fn r.2 d) cd) fd
  | [], rest, cd, fd, _ => by simp
  | r :: rows, rest, cd, fd, h => by
    have hok := h r (by simp)
    have hstrip := rowOk_strip r hok
    have hne : (lineOfRow r).isEmpty = false := by
      simp only [rowOk, Bool.and_eq_true, Bool.not_eq_true'] at hok
      cases hr : r.1 with
      | nil => rw [hr] at hok; simp at hok
      | cons c0 t => show (r.1 ++ '\t' :: r.2).isEmpty = false; rw [hr]; rfl
    have hsp := split_lineOfRow r hok
    rw [List.map_cons, List.cons_append]
    have step : gvGo fn (lineOfRow r :: (rows.map lineOfRow ++ rest)) .conc cd fd =
        gvGo fn (rows.map lineOfRow ++ rest) .conc (dict2Insert r.1 fn r.2 cd) fd := by
      simp [gvGo, hstrip, hne, hsp]
    rw [step,
      gvGo_conc_rows fn rows rest (dict2Insert r.1 fn r.2 cd) fd
        (fun r2 h2 => h r2 (by simp [h2]))]
    rfl

/-- The flux section records its rows in order. -/
theorem gvGo_flux_rows (fn : Chars) :
    ∀ (rows : List (Chars × Chars)) (rest : List Chars) (cd fd : Dict2),
      (∀ r ∈ rows, rowOk r = true) →
      gvGo fn (rows.map lineOfRow ++ rest) .flux cd fd =
        gvGo fn rest .flux cd (rows.foldl (fun d r => dict2Insert r.1 fn r.2 d) fd)
  | [], rest, cd, fd, _ => by simp
  | r :: rows, rest, cd, fd, h => by
    have hok := h r (by simp)
    have hstrip := rowOk_strip r hok
    have hne : (lineOfRow r).isEmpty = false := by
      simp only [rowOk, Bool.and_eq_true, Bool.not_eq_true'] at hok
      cases hr : r.1 with
      | nil => rw [hr] at hok; simp at hok
      | cons c0 t => show (r.1 ++ '\t' :: r.2).isEmpty = false; rw [hr]; rfl
    have hsp := split_lineOfRow r hok
    rw [List.map_cons, List.cons_append]
    have step : gvGo fn (lineOfRow r :: (rows.map lineOfRow ++ rest)) .flux cd fd =
        gvGo fn (rows.map lineOfRow ++ rest) .flux cd (dict2Insert r.1 fn r.2 fd) := by
      simp [gvGo, hstrip, hne, hsp]
    rw [step,
      gvGo_flux_rows fn rows rest cd (dict2Insert r.1 fn r.2 fd)
        (fun r2 h2 => h r2 (by simp [h2]))]
    rfl

/-- A well-formed data row contains no newline. -/
theorem lineOfRow_no_newline (r : Chars × Chars) (h : rowOk r = true) :
    ∀ c ∈ lineOfRow r, ¬ c = '\n' := by
  simp only [rowOk, Bool.and_eq_true, Bool.not_eq_true', List.all_eq_true] at h
  obtain ⟨⟨⟨⟨⟨-, -⟩, a1⟩, a2⟩, -⟩, -⟩ := h
  intro c hc
  rw [show lineOfRow r = r.1 ++ '\t' :: r.2 from rfl] at hc
  rcases List.mem_append.1 hc with h1 | h2
  · have := a1 c h1
    simp only [Bool.and_eq_true, Bool.not_eq_true', decide_eq_false_iff_not] at this
    exact this.2
  · rcases List.mem_cons.1 h2 with rfl | h3
    · decide
    · have := a2 c h3
      simp only [Bool.and_eq_true, Bool.not_eq_true', decide_eq_false_iff_not] at this
      exact this.2

/-- Scanning a rendered activated file accumulates exactly its two row
lists into the two dicts, in order. -/
theorem getValues_render_active (f : SSFile) (fn : Chars) (cd fd : Dict2)
    (hact : f.activated = true) (hok : ssFileOk f = true) :
    getValuesFromSingleFile (renderSS f) fn cd fd =
      some (f.concRows.foldl (fun d r => dict2Insert r.1 fn r.2 d) cd,
            f.fluxRows.foldl (fun d r => dict2Insert r.1 fn r.2 d) fd) := by
  simp only [ssFileOk, Bool.and_eq_true, List.all_eq_true, decide_eq_true_eq] at hok
  obtain ⟨⟨⟨hca, hfa⟩, -⟩, -⟩ := hok
  have hrender : renderSS f =
      steadyMarker ++ '\n' :: joinSep ['\n']
        (([[], "Species\tConcentration (mol/l)".data] : List Chars) ++
          (f.concRows.map lineOfRow ++ (([[], "Reaction\tFlux (1/s)".data] : List Chars) ++
            (f.fluxRows.map lineOfRow ++ [[]])))) := by
    unfold renderSS
    rw [if_pos hact]
    show steadyMarker ++ ['\n'] ++ _ = _
    simp
  have hpre : steadyMarker.isPrefixOf (renderSS f) = true := by
    rw [hrender, List.isPrefixOf_iff_prefix]
    exact List.prefix_append _ _
  have hsplit : splitLinesC (renderSS f) =
      ([steadyMarker, [], "Species\tConcentration (mol/l)".data] : List Chars) ++
        (f.concRows.map lineOfRow ++ (([[], "Reaction\tFlux (1/s)".data] : List Chars) ++
          (f.fluxRows.map lineOfRow ++ [[]]))) := by
    rw [show renderSS f = joinSep ['\n']
        (([steadyMarker, [], "Species\tConcentration (mol/l)".data] : List Chars) ++
          (f.concRows.map lineOfRow ++ (([[], "Reaction\tFlux (1/s)".data] : List Chars) ++
            (f.fluxRows.map lineOfRow ++ [[]])))) by
      unfold renderSS; rw [if_pos hact]]
    refine splitLinesC_joinSep _ (by simp) ?_
    intro l hl
    rcases List.mem_append.1 hl with h3 | hrest
    · simp only [List.mem_cons, List.not_mem_nil, or_false] at h3
      rcases h3 with rfl | rfl | rfl
      · decide
      · intro c hc; cases hc
      · decide
    · rcases List.mem_append.1 hrest with hconc | hrest2
      · rcases List.mem_map.1 hconc with ⟨r, hr, rfl⟩
        exact lineOfRow_no_newline r (hca r hr)
      · rcases List.mem_append.1 hrest2 with h4 | hrest3
        · simp only [List.mem_cons, List.not_mem_nil, or_false] at h4
          rcases h4 with rfl | rfl
          · intro c hc; cases hc
          · decide
        · rcases List.mem_append.1 hrest3 with hflux | h5
          · rcases List.mem_map.1 hflux with ⟨r, hr, rfl⟩
            exact lineOfRow_no_newline r (hfa r hr)
          · simp only [List.mem_cons, List.not_mem_nil, or_false] at h5
            rcases h5 with rfl
            intro c hc; cases hc
  unfold getValuesFromSingleFile
  rw [hpre]
  simp only [if_true]
  rw [hsplit]
  simp only [List.cons_append, List.nil_append]
  rw [gvGo_idle_skip _ _ _ _ _ (by decide) (by decide),
    gvGo_idle_skip _ _ _ _ _ (by decide) (by decide),
    gvGo_idle_conc _ _ _ _ _ (by decide),
    gvGo_conc_rows fn f.concRows _ cd fd hca,
    gvGo_conc_blank,
    gvGo_idle_flux _ _ _ _ _ (by decide) (by decide),
    gvGo_flux_rows fn f.fluxRows _ _ fd hfa,
    gvGo_flux_blank]

/-- Scanning a rendered non-activated file leaves the dicts unchanged. -/
theorem getValues_render_inactive (f : SSFile) (fn : Chars) (cd fd : Dict2)
    (hact : f.activated = false) :
    getValuesFromSingleFile (renderSS f) fn cd fd = some (cd, fd) := by
  unfold getValuesFromSingleFile renderSS
  rw [hact]
  have hpre : steadyMarker.isPrefixOf "A steady state could not be found.".data = false := by
    decide
  simp [hpre]

/-- Per-column fold that one file performs on one of the dicts: the update
of an activated file's rows, nothing for a skipped file. -/
def fileRowsFold (pick : SSFile → List (Chars × Chars)) (d : Dict2) (f : SSFile) : Dict2 :=
  if f.activated then
    (pick f).foldl (fun d2 r => dict2Insert r.1 (stemOf f) r.2 d2) d
  else d

/-- The file loop of `get_tables` over rendered files equals two
independent per-dict folds. -/
theorem fold_ssfiles :
    ∀ (files : List SSFile) (cd fd : Dict2), (∀ f ∈ files, ssFileOk f = true) →
      ((files.map (fun f => (f.path, renderSS f))).foldl
        (fun acc f => acc.bind (fun cf => getValuesFromSingleFile f.2 (fileStem f.1) cf.1 cf.2))
        (some (cd, fd))) =
      some (files.foldl (fileRowsFold (fun f => f.concRows)) cd,
            files.foldl (fileRowsFold (fun f => f.fluxRows)) fd)
  | [], cd, fd, _ => rfl
  | f :: files, cd, fd, h => by
    rw [List.map_cons, List.foldl_cons, List.foldl_cons, List.foldl_cons]
    cases hact : f.activated with
    | true =>
      rw [show (some (cd, fd)).bind
            (fun cf => getValuesFromSingleFile (renderSS f) (fileStem f.path) cf.1 cf.2) =
          getValuesFromSingleFile (renderSS f) (fileStem f.path) cd fd from rfl,
        getValues_render_active f (fileStem f.path) cd fd hact (h f (by simp)),
        fold_ssfiles files _ _ (fun g hg => h g (by simp [hg]))]
      rw [show fileRowsFold (fun f => f.concRows) cd f =
          f.concRows.foldl (fun d2 r => dict2Insert r.1 (stemOf f) r.2 d2) cd by
        unfold fileRowsFold; rw [if_pos hact]]
      rw [show fileRowsFold (fun f => f.fluxRows) fd f =
          f.fluxRows.foldl (fun d2 r => dict2Insert r.1 (stemOf f) r.2 d2) fd by
        unfold fileRowsFold; rw [if_pos hact]]
      rfl
    | false =>
      rw [show (some (cd, fd)).bind
            (fun cf => getValuesFromSingleFile (renderSS f) (fileStem f.path) cf.1 cf.2) =
          getValuesFromSingleFile (renderSS f) (fileStem f.path) cd fd from rfl,
        getValues_render_inactive f (fileStem f.path) cd fd hact,
        fold_ssfiles files _ _ (fun g hg => h g (by simp [hg]))]
      rw [show fileRowsFold (fun f => f.concRows) cd f = cd by
        unfold fileRowsFold; rw [if_neg (by rw [hact]; exact Bool.false_ne_true)]]
      rw [show fileRowsFold (fun f => f.fluxRows) fd f = fd by
        unfold fileRowsFold; rw [if_neg (by rw [hact]; exact Bool.false_ne_true)]]

/-- One nested-dict update for one recorded (entity, column, value) triple. -/
def dict2Upd (d : Dict2) (t : Chars × Chars × Chars) : Dict2 :=
  dict2Insert t.1 t.2.1 t.2.2 d

/-- All (entity, column, value) triples the activated files record, in file
order and per-file row order. -/
def ssTriples (pick : SSFile → List (Chars × Chars)) (files : List SSFile) :
    List (Chars × Chars × Chars) :=
  ((files.filter (fun f => f.activated)).map
    (fun f => (pick f).map (fun r => (r.1, stemOf f, r.2)))).flatten

/-- `dict2Insert` in one uniform insert-into-inner form. -/
theorem dict2Insert_eq (name fn v : Chars) (d : Dict2) :
    dict2Insert name fn v d =
      pyDictInsert name (pyDictInsert fn v ((pyDictGet name d).getD [])) d := by
  unfold dict2Insert
  cases h : pyDictGet name d with
  | none => rfl
  | some inner => rfl

/-- The file loop equals one flat fold over the recorded triples. -/
theorem fold_files_eq_triples (pick : SSFile → List (Chars × Chars)) :
    ∀ (files : List SSFile) (d0 : Dict2),
      files.foldl (fileRowsFold pick) d0 = (ssTriples pick files).foldl dict2Upd d0
  | [], _ => rfl
  | f :: files, d0 => by
    rw [List.foldl_cons]
    cases hact : f.activated with
    | true =>
      have hss : ssTriples pick (f :: files) =
          (pick f).map (fun r => (r.1, stemOf f, r.2)) ++ ssTriples pick files := by
        unfold ssTriples
        rw [show (f :: files).filter (fun f => f.activated) =
            f :: files.filter (fun f => f.activated) by simp [List.filter_cons, hact]]
        rw [List.map_cons, List.flatten_cons]
      rw [hss, List.foldl_append, List.foldl_map]
      rw [show fileRowsFold pick d0 f =
          (pick f).foldl (fun d2 r => dict2Insert r.1 (stemOf f) r.2 d2) d0 by
        unfold fileRowsFold; rw [if_pos hact]]
      exact fold_files_eq_triples pick files _
    | false =>
      have hss : ssTriples pick (f :: files) = ssTriples pick files := by
        unfold ssTriples
        rw [show (f :: files).filter (fun f => f.activated) =
            files.filter (fun f => f.activated) by simp [List.filter_cons, hact]]
      rw [hss,
        show fileRowsFold pick d0 f = d0 by
          unfold fileRowsFold; rw [if_neg (by rw [hact]; exact Bool.false_ne_true)]]
      exact fold_files_eq_triples pick files d0

/-- Keys of the nested-dict fold: first-seen order of the entity names. -/
theorem keys_fold_dict2 :
    ∀ (ts : List (Chars × Chars × Chars)) (d0 : Dict2),
      pyDictKeys (ts.foldl dict2Upd d0) =
        pyDictKeys d0 ++ dedupFirstGo (ts.map Prod.fst) (pyDictKeys d0)
  | [], d0 => by simp [dedupFirstGo]
  | p :: ts, d0 => by
    rw [List.foldl_cons, keys_fold_dict2 ts (dict2Upd d0 p)]
    have hk : pyDictKeys (dict2Upd d0 p) =
        if p.1 ∈ pyDictKeys d0 then pyDictKeys d0 else pyDictKeys d0 ++ [p.1] := by
      unfold dict2Upd
      rw [dict2Insert_eq]
      exact pyDictKeys_insert p.1 _ d0
    by_cases hp : p.1 ∈ pyDictKeys d0
    · rw [hk, if_pos hp]
      simp [dedupFirstGo, hp]
    · rw [hk, if_neg hp]
      have hcongr := dedupFirstGo_congr (ts.map Prod.fst)
        (pyDictKeys d0 ++ [p.1]) (p.1 :: pyDictKeys d0) (fun y => by simp; tauto)
      simp only [List.map_cons, dedupFirstGo, if_neg hp]
      rw [hcongr]
      simp

/-- Inner dicts of the nested-dict fold: per entity, the insert fold of its
filtered (column, value) pairs. -/
theorem get_fold_dict2 :
    ∀ (ts : List (Chars × Chars × Chars)) (d0 : Dict2) (s : Chars),
      pyDictGet s (ts.foldl dict2Upd d0) =
        if s ∈ ts.map Prod.fst ∨ (pyDictGet s d0).isSome = true
        then some ((ts.filter (fun p => p.1 = s)).foldl
          (fun inner p => pyDictInsert p.2.1 p.2.2 inner) ((pyDictGet s d0).getD []))
        else none
  | [], d0, s => by
    cases hd : pyDictGet s d0 <;> simp [hd]
  | p :: ts, d0, s => by
    rw [List.foldl_cons, get_fold_dict2 ts (dict2Upd d0 p) s]
    by_cases hp : p.1 = s
    · have hupd : pyDictGet s (dict2Upd d0 p) =
          some (pyDictInsert p.2.1 p.2.2 ((pyDictGet s d0).getD [])) := by
        unfold dict2Upd
        rw [dict2Insert_eq, ← hp]
        exact pyDictGet_insert_self p.1 _ d0
      rw [hupd]
      simp [hp, List.filter_cons]
    · have hupd : pyDictGet s (dict2Upd d0 p) = pyDictGet s d0 := by
        unfold dict2Upd
        rw [dict2Insert_eq]
        exact pyDictGet_insert_other s p.1 _ (fun h => hp h.symm) d0
      rw [hupd]
      have hmem : (s ∈ (p :: ts).map Prod.fst) ↔ (s ∈ ts.map Prod.fst) := by
        simp only [List.map_cons, List.mem_cons]
        constructor
        · rintro (h | h)
          · exact absurd h.symm hp
          · exact h
        · exact Or.inr
      have hfil : (p :: ts).filter (fun q => q.1 = s) = ts.filter (fun q => q.1 = s) := by
        simp [List.filter_cons, hp]
      rw [hfil]
      by_cases hs : s ∈ ts.map Prod.fst ∨ (pyDictGet s d0).isSome = true
      · rw [if_pos hs, if_pos (hs.imp_left hmem.mpr)]
      · rw [if_neg hs, if_neg (fun hc => hs (hc.imp_left hmem.mp))]

/-- Inserting a fresh key appends the pair. -/
theorem pyDictInsert_fresh {β : Type} (k : Chars) (v : β) :
    ∀ d : List (Chars × β), k ∉ pyDictKeys d → pyDictInsert k v d = d ++ [(k, v)]
  | [], _ => rfl
  | (a, b) :: t, h => by
    simp only [pyDictKeys, List.map_cons, List.mem_cons, not_or] at h
    have ha : ¬ a = k := fun hc => h.1 hc.symm
    simp only [pyDictInsert, if_neg ha, List.cons_append]
    rw [pyDictInsert_fresh k v t h.2]

/-- Looking up a key absent from a dict yields `none`. -/
theorem pyDictGet_none {β : Type} (k : Chars) :
    ∀ d : List (Chars × β), k ∉ pyDictKeys d → pyDictGet k d = none
  | [], _ => rfl
  | (a, b) :: t, h => by
    simp only [pyDictKeys, List.map_cons, List.mem_cons, not_or] at h
    have ha : ¬ a = k := fun hc => h.1 hc.symm
    simp only [pyDictGet, if_neg ha]
    exact pyDictGet_none k t h.2

/-- A fold of inserts with pairwise distinct fresh keys is an append. -/
theorem foldl_insert_fresh :
    ∀ (pairs base : List (Chars × Chars)),
      (∀ p ∈ pairs, p.1 ∉ pyDictKeys base) → (pairs.map Prod.fst).Nodup →
      pairs.foldl (fun inner p => pyDictInsert p.1 p.2 inner) base = base ++ pairs
  | [], base, _, _ => by simp
  | p :: pairs, base, hfresh, hnodup => by
    rw [List.foldl_cons, pyDictInsert_fresh p.1 p.2 base (hfresh p (by simp))]
    simp only [List.map_cons, List.nodup_cons] at hnodup
    have hrec := foldl_insert_fresh pairs (base ++ [p]) ?_ hnodup.2
    · rw [hrec]
      simp
    · intro q hq
      rw [show pyDictKeys (base ++ [p]) = pyDictKeys base ++ [p.1] by
        simp [pyDictKeys]]
      intro hc
      rcases List.mem_append.1 hc with h1 | h1
      · exact hfresh q (by simp [hq]) h1
      · have h2 : q.1 = p.1 := List.mem_singleton.1 h1
        exact hnodup.1 (h2 ▸ List.mem_map_of_mem Prod.fst hq)

/-- The recorded entity names, in order, are the spec's entity stream. -/
theorem ssTriples_fst (pick : SSFile → List (Chars × Chars)) :
    ∀ files : List SSFile, (ssTriples pick files).map Prod.fst = specEntities pick files
  | [] => rfl
  | f :: files => by
    cases hact : f.activated with
    | true =>
      unfold ssTriples specEntities
      rw [show (f :: files).filter (fun f => f.activated) =
          f :: files.filter (fun f => f.activated) by simp [List.filter_cons, hact]]
      rw [List.map_cons, List.map_cons, List.flatten_cons, List.flatten_cons,
        List.map_append, List.map_map]
      have ih := ssTriples_fst pick files
      unfold ssTriples specEntities at ih
      rw [ih]
      rfl
    | false =>
      unfold ssTriples specEntities
      rw [show (f :: files).filter (fun f => f.activated) =
          files.filter (fun f => f.activated) by simp [List.filter_cons, hact]]
      have ih := ssTriples_fst pick files
      unfold ssTriples specEntities at ih
      rw [ih]

/-- Filtering commutes through a map. -/
theorem filter_map_comm {α β : Type} (g : α → β) (p : β → Bool) :
    ∀ l : List α, (l.map g).filter p = (l.filter (fun a => p (g a))).map g
  | [] => rfl
  | a :: l => by
    rw [List.map_cons]
    by_cases ha : p (g a) = true
    · rw [show ((g a :: l.map g).filter p) = g a :: (l.map g).filter p by
          simp [List.filter_cons, ha],
        show (a :: l).filter (fun a => p (g a)) = a :: l.filter (fun a => p (g a)) by
          simp [List.filter_cons, ha],
        List.map_cons, filter_map_comm g p l]
    · rw [show ((g a :: l.map g).filter p) = (l.map g).filter p by
          simp [List.filter_cons, ha],
        show (a :: l).filter (fun a => p (g a)) = l.filter (fun a => p (g a)) by
          simp [List.filter_cons, ha],
        filter_map_comm g p l]

/-- With pairwise distinct names, the row found first is the only row kept
by the matching filter. -/
theorem filter_eq_of_find_some (e : Chars) :
    ∀ (rows : List (Chars × Chars)) (r : Chars × Chars),
      (rows.map Prod.fst).Nodup → rows.find? (fun q => q.1 = e) = some r →
      rows.filter (fun q => q.1 = e) = [r]
  | [], r, _, hfind => by simp [List.find?] at hfind
  | q :: rows, r, hnodup, hfind => by
    simp only [List.map_cons, List.nodup_cons] at hnodup
    by_cases hq : q.1 = e
    · have hfind2 : some q = some r := by
        rw [← hfind]
        simp [List.find?_cons, hq]
      have hrq : r = q := (Option.some_inj.1 hfind2).symm
      subst hrq
      rw [show (r :: rows).filter (fun q => q.1 = e) = r :: rows.filter (fun q => q.1 = e) by
        simp [List.filter_cons, hq]]
      rw [List.filter_eq_nil_iff.2 (fun p hp => by
        simp only [decide_eq_true_eq]
        intro hc
        refine hnodup.1 ?_
        rw [hq.trans hc.symm]
        exact List.mem_map_of_mem Prod.fst hp)]
    · rw [show (q :: rows).filter (fun q => q.1 = e) = rows.filter (fun q => q.1 = e) by
        simp [List.filter_cons, hq]]
      refine filter_eq_of_find_some e rows r hnodup.2 ?_
      rw [← hfind]
      simp [List.find?_cons, hq]

/-- The per-entity (column, value) pairs of the recorded triples are the
spec's inner column dict. -/
theorem ssTriples_filter_snd (pick : SSFile → List (Chars × Chars)) (e : Chars) :
    ∀ files : List SSFile, (∀ f ∈ files, ((pick f).map Prod.fst).Nodup) →
      ((ssTriples pick files).filter (fun t => t.1 = e)).map Prod.snd =
        specInner pick files e
  | [], _ => rfl
  | f :: files, hnd => by
    have ih := ssTriples_filter_snd pick e files (fun g hg => hnd g (by simp [hg]))
    cases hact : f.activated with
    | true =>
      rw [show ssTriples pick (f :: files) =
          (pick f).map (fun r => (r.1, stemOf f, r.2)) ++ ssTriples pick files by
        unfold ssTriples
        rw [show (f :: files).filter (fun f => f.activated) =
            f :: files.filter (fun f => f.activated) by simp [List.filter_cons, hact]]
        rw [List.map_cons, List.flatten_cons]]
      rw [List.filter_append, List.map_append, ih, filter_map_comm]
      show (((pick f).filter (fun r => r.1 = e)).map
          (fun r => (r.1, stemOf f, r.2))).map Prod.snd ++ specInner pick files e = _
      rw [List.map_map]
      cases hfind : (pick f).find? (fun r => r.1 = e) with
      | some r =>
        rw [filter_eq_of_find_some e (pick f) r (hnd f (by simp)) hfind]
        simp only [specInner, List.filterMap_cons, hact, if_true, hfind,
          Option.map_some', List.map_cons, List.map_nil, List.cons_append,
          List.nil_append]
        rfl
      | none =>
        rw [List.filter_eq_nil_iff.2 (fun p hp => by
          simp only [decide_eq_true_eq]
          have := List.find?_eq_none.1 hfind p hp
          simpa using this)]
        simp only [specInner, List.filterMap_cons, hact, if_true, hfind,
          Option.map_none', List.map_nil, List.nil_append]
    | false =>
      rw [show ssTriples pick (f :: files) = ssTriples pick files by
        unfold ssTriples
        rw [show (f :: files).filter (fun f => f.activated) =
            files.filter (fun f => f.activated) by simp [List.filter_cons, hact]]]
      rw [ih]
      simp only [specInner, List.filterMap_cons]
      rw [if_neg (by rw [hact]; exact Bool.false_ne_true)]

/-- The spec's inner-dict keys form a sublist of the supplied stems. -/
theorem specInner_fst_sublist (pick : SSFile → List (Chars × Chars)) (e : Chars) :
    ∀ files : List SSFile,
      ((specInner pick files e).map Prod.fst).Sublist (files.map stemOf)
  | [] => by simp [specInner]
  | g :: files => by
    have ih := specInner_fst_sublist pick e files
    by_cases ha : g.activated = true
    · cases hfind : (pick g).find? (fun r => r.1 = e) with
      | some r =>
        simp only [specInner, List.filterMap_cons, ha, if_true, hfind,
          Option.map_some', List.map_cons]
        exact ih.cons₂ (stemOf g)
      | none =>
        simp only [specInner, List.filterMap_cons, ha, if_true, hfind,
          Option.map_none', List.map_cons]
        exact ih.cons (stemOf g)
    · simp only [specInner, List.filterMap_cons]
      rw [if_neg ha]
      simp only [List.map_cons]
      exact ih.cons (stemOf g)

/-- A column lookup skips a head entry of a different stem. -/
theorem specInner_get_tail (pick : SSFile → List (Chars × Chars)) (e : Chars)
    (g : SSFile) (files : List SSFile) (k : Chars) (hne : ¬ stemOf g = k) :
    pyDictGet k (specInner pick (g :: files) e) = pyDictGet k (specInner pick files e) := by
  by_cases ha : g.activated = true
  · cases hfind : (pick g).find? (fun r => r.1 = e) with
    | some r =>
      simp only [specInner, List.filterMap_cons, ha, if_true, hfind, Option.map_some']
      simp [pyDictGet, hne]
    | none =>
      simp only [specInner, List.filterMap_cons, ha, if_true, hfind, Option.map_none']
  · simp only [specInner, List.filterMap_cons]
    rw [if_neg ha]

/-- A column lookup at the head file's stem returns exactly its
contribution, when no later file shares the stem. -/
theorem specInner_get_head (pick : SSFile → List (Chars × Chars)) (e : Chars)
    (g : SSFile) (files : List SSFile) (hg : stemOf g ∉ files.map stemOf) :
    pyDictGet (stemOf g) (specInner pick (g :: files) e) =
      if g.activated then ((pick g).find? (fun r => r.1 = e)).map Prod.snd else none := by
  have hnone : pyDictGet (stemOf g) (specInner pick files e) = none := by
    apply pyDictGet_none
    intro hc
    exact hg ((specInner_fst_sublist pick e files).subset hc)
  by_cases ha : g.activated = true
  · cases hfind : (pick g).find? (fun r => r.1 = e) with
    | some r =>
      simp only [specInner, List.filterMap_cons, ha, if_true, hfind, Option.map_some']
      simp [pyDictGet]
    | none =>
      simp only [specInner, List.filterMap_cons, ha, if_true, hfind, Option.map_none']
      exact hnone
  · simp only [specInner, List.filterMap_cons]
    rw [if_neg ha, if_neg ha]
    exact hnone

/-- Column lookup in the spec's inner dict, for any supplied file, under
pairwise distinct stems. -/
theorem specInner_get (pick : SSFile → List (Chars × Chars)) (e : Chars) :
    ∀ files : List SSFile, (files.map stemOf).Nodup → ∀ f ∈ files,
      pyDictGet (stemOf f) (specInner pick files e) =
        if f.activated then ((pick f).find? (fun r => r.1 = e)).map Prod.snd else none
  | [], _, f, hf => absurd hf (List.not_mem_nil f)
  | g :: files, hnodup, f, hf => by
    simp only [List.map_cons, List.nodup_cons] at hnodup
    rcases List.mem_cons.1 hf with rfl | hf2
    · exact specInner_get_head pick e f files hnodup.1
    · have hne : ¬ stemOf g = stemOf f :=
        fun hc => hnodup.1 (hc ▸ List.mem_map_of_mem stemOf hf2)
      rw [specInner_get_tail pick e g files (stemOf f) hne]
      exact specInner_get pick e files hnodup.2 f hf2

/-- A rendered cell over the spec's inner dict is the spec's cell. -/
theorem cellVal_specInner (pick : SSFile → List (Chars × Chars)) (e : Chars)
    (files : List SSFile) (hnodup : (files.map stemOf).Nodup)
    (f : SSFile) (hf : f ∈ files) :
    cellVal (specInner pick files e) (stemOf f) = specCell pick f e := by
  unfold cellVal specCell
  rw [specInner_get pick e files hnodup f hf]
  by_cases ha : f.activated = true
  · rw [if_pos ha, if_pos ha]
  · rw [if_neg ha, if_neg ha]
    rfl

/-- A rendered table over the folded dict is the spec's table, for either
section, provided the stems are pairwise distinct and each file's rows have
distinct entity names. -/
theorem renderTable_spec (pick : SSFile → List (Chars × Chars)) (files : List SSFile)
    (hnodup : (files.map stemOf).Nodup)
    (hrows : ∀ f ∈ files, ((pick f).map Prod.fst).Nodup) :
    renderTable (files.map stemOf) (files.foldl (fileRowsFold pick) []) =
      specTable pick files := by
  have hD := fold_files_eq_triples pick files []
  have hkeys : pyDictKeys (files.foldl (fileRowsFold pick) []) =
      dedupFirst (specEntities pick files) := by
    rw [hD, keys_fold_dict2]
    rw [show pyDictKeys ([] : Dict2) = [] from rfl]
    rw [List.nil_append, ssTriples_fst]
    rfl
  have hinner : ∀ e ∈ sortStrs (dedupFirst (specEntities pick files)),
      (pyDictGet e (files.foldl (fileRowsFold pick) [])).getD [] =
        specInner pick files e := by
    intro e he
    have hemem : e ∈ specEntities pick files :=
      dedupFirstGo_subset _ [] e ((mem_sortStrs e _).1 he)
    rw [hD, get_fold_dict2]
    rw [if_pos (Or.inl (by rw [ssTriples_fst]; exact hemem))]
    show ((ssTriples pick files).filter (fun p => p.1 = e)).foldl
        (fun inner p => pyDictInsert p.2.1 p.2.2 inner) [] = _
    rw [show ((ssTriples pick files).filter (fun p => p.1 = e)).foldl
          (fun inner p => pyDictInsert p.2.1 p.2.2 inner) [] =
        (((ssTriples pick files).filter (fun p => p.1 = e)).map Prod.snd).foldl
          (fun (inner : List (Chars × Chars)) (q : Chars × Chars) =>
            pyDictInsert q.1 q.2 inner) [] from
      (List.foldl_map Prod.snd
        (fun (inner : List (Chars × Chars)) (q : Chars × Chars) =>
          pyDictInsert q.1 q.2 inner) _ []).symm]
    rw [ssTriples_filter_snd pick e files hrows]
    rw [foldl_insert_fresh (specInner pick files e) []
      (fun p _ => by simp [pyDictKeys])
      ((specInner_fst_sublist pick e files).nodup hnodup)]
    rw [List.nil_append]
  have hrow : ∀ e ∈ sortStrs (dedupFirst (specEntities pick files)),
      joinSep ['\t'] (e :: (files.map stemOf).map (fun n =>
        cellVal ((pyDictGet e (files.foldl (fileRowsFold pick) [])).getD []) n)) =
      joinSep ['\t'] (e :: files.map (fun f => specCell pick f e)) := by
    intro e he
    rw [hinner e he]
    congr 1
    congr 1
    rw [List.map_map]
    exact List.map_congr_left (fun f hf => cellVal_specInner pick e files hnodup f hf)
  simp only [renderTable, specTable]
  rw [hkeys]
  rw [List.map_congr_left hrow]

/-- C5. For input files following the conventional CopasiSE steady-state
layout, with pairwise distinct base names and per-file distinct entity
names, `get_tables` produces exactly the two spec tables: one row per
entity name seen in any activated file, rows sorted lexicographically, one
column per source file named by its base name in supplied order, and the
literal sentinel `na` for every (file, entity) pair without a contributed
value. -/
theorem getTables_spec (files : List SSFile)
    (hok : ∀ f ∈ files, ssFileOk f = true)
    (hnodup : (files.map stemOf).Nodup) :
    getTables (files.map (fun f => (f.path, renderSS f))) =
      some (specTable (fun f => f.concRows) files,
            specTable (fun f => f.fluxRows) files) := by
  have hcn : ∀ f ∈ files, (f.concRows.map Prod.fst).Nodup := by
    intro f hf
    have h := hok f hf
    simp only [ssFileOk, Bool.and_eq_true, decide_eq_true_eq] at h
    exact h.1.2
  have hfn : ∀ f ∈ files, (f.fluxRows.map Prod.fst).Nodup := by
    intro f hf
    have h := hok f hf
    simp only [ssFileOk, Bool.and_eq_true, decide_eq_true_eq] at h
    exact h.2
  have hnames : (files.map (fun f => (f.path, renderSS f))).map (fun f => fileStem f.1) =
      files.map stemOf := by
    rw [List.map_map]
    rfl
  simp only [getTables]
  rw [fold_ssfiles files [] [] hok]
  simp only [Option.map_some']
  rw [hnames, renderTable_spec (fun f => f.concRows) files hnodup hcn,
    renderTable_spec (fun f => f.fluxRows) files hnodup hfn]

/-- A concrete activated steady-state file for the C5 witness. -/
def ssfA : SSFile :=
  ⟨"a/x.txt".data, true, [("M".data, "1".data)], [("R".data, "3".data)]⟩

/-- A concrete non-activated steady-state file for the C5 witness. -/
def ssfB : SSFile := ⟨"b/y.txt".data, false, [], []⟩

/-- C5 witness: the table equality instantiated at one activated and one
non-activated concrete file, hypotheses discharged by evaluation. -/
theorem getTables_spec_witness :
    ((∀ f ∈ [ssfA, ssfB], ssFileOk f = true) ∧ ([ssfA, ssfB].map stemOf).Nodup) ∧
    getTables ([ssfA, ssfB].map (fun f => (f.path, renderSS f))) =
      some (specTable (fun f => f.concRows) [ssfA, ssfB],
            specTable (fun f => f.fluxRows) [ssfA, ssfB]) :=
  ⟨⟨by decide, by decide⟩, getTables_spec [ssfA, ssfB] (by decide) (by decide)⟩

/-!
Development for `getMetabolites` (claim C4): occurrence-freeness machinery,
renderers for conventional model declaration lines, and the search lemmas.
-/

/-- The pattern `t` occurs nowhere in `cs`: it is a prefix of no suffix. -/
def NoOcc (t cs : Chars) : Prop := ∀ s : Chars, s <:+ cs → t.isPrefixOf s = false

/-- A substring test fails on an occurrence-free string. -/
theorem containsSub_eq_false_of_noOcc (t cs : Chars) (h : NoOcc t cs) :
    containsSub t cs = false := by
  unfold containsSub
  rw [searchP_none_all (prefOcc t) cs (fun i hi => by
    unfold prefOcc
    rw [h (cs.drop i) (List.drop_suffix i cs)]
    rfl)]
  rfl

/-- A prefix comparison already failing inside `s` fails for every
continuation. -/
theorem isPrefixOf_append_false :
    ∀ (t s b : Chars), s.isPrefixOf t = false → t.isPrefixOf s = false →
      t.isPrefixOf (s ++ b) = false
  | [], s, b, _, h2 => by
    simp [List.isPrefixOf] at h2
  | t0 :: tr, [], b, h1, _ => by
    simp [List.isPrefixOf] at h1
  | t0 :: tr, s0 :: sr, b, h1, h2 => by
    show (t0 == s0 && tr.isPrefixOf (sr ++ b)) = false
    cases he : (t0 == s0) with
    | false => rfl
    | true =>
      have hst : (s0 == t0) = true := by
        rw [beq_iff_eq] at he ⊢
        exact he.symm
      have h1' : sr.isPrefixOf tr = false := by
        rw [show (s0 :: sr).isPrefixOf (t0 :: tr) = (s0 == t0 && sr.isPrefixOf tr)
            from rfl, hst, Bool.true_and] at h1
        exact h1
      have h2' : tr.isPrefixOf sr = false := by
        rw [show (t0 :: tr).isPrefixOf (s0 :: sr) = (t0 == s0 && tr.isPrefixOf sr)
            from rfl, he, Bool.true_and] at h2
        exact h2
      rw [Bool.true_and]
      exact isPrefixOf_append_false tr sr b h1' h2'

/-- Decidable blocking test: every nonempty suffix of the chunk disagrees
with the pattern within the overlap. -/
def chunkBlocks (t chunk : Chars) : Bool :=
  chunk.tails.all (fun s => s.isEmpty || (!(s.isPrefixOf t) && !(t.isPrefixOf s)))

/-- A nonempty pattern does not occur in the empty string. -/
theorem noOcc_nil (t0 : Char) (tr : Chars) : NoOcc (t0 :: tr) [] := by
  intro s hs
  rw [List.suffix_nil.1 hs]
  rfl

/-- Occurrence-freeness extends over a blocking literal chunk. -/
theorem noOcc_chunk (t chunk b : Chars) (hchunk : chunkBlocks t chunk = true)
    (hb : NoOcc t b) : NoOcc t (chunk ++ b) := by
  intro s hs
  rcases suffix_split hs with h1 | ⟨xs, hxs, hxne, rfl⟩
  · exact hb s h1
  · have hall := (List.all_eq_true.1 hchunk) xs ((List.mem_tails xs chunk).2 hxs)
    have hxe : xs.isEmpty = false := by
      cases xs with
      | nil => exact absurd rfl hxne
      | cons _ _ => rfl
    rw [hxe] at hall
    simp only [Bool.false_or, Bool.and_eq_true, Bool.not_eq_true'] at hall
    exact isPrefixOf_append_false t xs b hall.1 hall.2

/-- Occurrence-freeness extends over a chunk free of the pattern's first
character. -/
theorem noOcc_class (t0 : Char) (tr : Chars) (a b : Chars)
    (hno : ∀ c ∈ a, ¬ c = t0) (hb : NoOcc (t0 :: tr) b) :
    NoOcc (t0 :: tr) (a ++ b) := by
  intro s hs
  rcases suffix_split hs with h1 | ⟨xs, hxs, hxne, rfl⟩
  · exact hb s h1
  · cases xs with
    | nil => exact absurd rfl hxne
    | cons x xt =>
      have hx : ¬ x = t0 := hno x (hxs.subset (by simp))
      show (t0 == x && tr.isPrefixOf (xt ++ b)) = false
      rw [beq_eq_false_iff_ne.2 (fun hc => hx hc.symm), Bool.false_and]

/-- Conventional compartment declaration line. -/
def compLine (k nm : Chars) : Chars :=
  "<Compartment ".data ++ ("key=\"Compartment_".data ++
    (k ++ ("\" name=\"".data ++ (nm ++ ("\"".data ++ " />".data)))))

/-- Conventional dynamic metabolite declaration line. -/
def metLine (d nm ck : Chars) : Chars :=
  "<Metabolite ".data ++ ("key=\"Metabolite_".data ++ (d ++ ("\" name=\"".data ++
    (nm ++ ("\" simulationType=\"reactions\" compartment=\"Compartment_".data ++
      (ck ++ ("\"".data ++ "/>".data)))))))

/-- Conventional state template variable reference line. -/
def stvLine (d : Chars) : Chars :=
  "<StateTemplateVariable ".data ++
    ("objectReference=\"Metabolite_".data ++ (d ++ ("\"".data ++ "/>".data)))

/-- The compartment matcher fails on any input not starting with `k`. -/
theorem tryCompartmentPat_head_ne (c : Char) (cs : Chars) (h : ¬ c = 'k') :
    tryCompartmentPat (c :: cs) = none := by
  have hf : ("key=\"Compartment_".data).isPrefixOf (c :: cs) = false := by
    show ('k' == c && _) = false
    rw [beq_eq_false_iff_ne.2 (fun hc => h hc.symm), Bool.false_and]
  simp [tryCompartmentPat, lit, hf]

/-- The metabolite matcher fails on any input not starting with `k`. -/
theorem tryMetabolitePat_head_ne (c : Char) (cs : Chars) (h : ¬ c = 'k') :
    tryMetabolitePat (c :: cs) = none := by
  have hf : ("key=\"Metabolite_".data).isPrefixOf (c :: cs) = false := by
    show ('k' == c && _) = false
    rw [beq_eq_false_iff_ne.2 (fun hc => h hc.symm), Bool.false_and]
  simp [tryMetabolitePat, lit, hf]

/-- The reference matcher fails on any input not starting with `o`. -/
theorem trySTVPat_head_ne (c : Char) (cs : Chars) (h : ¬ c = 'o') :
    trySTVPat (c :: cs) = none := by
  have hf : ("objectReference=\"Metabolite_".data).isPrefixOf (c :: cs) = false := by
    show ('o' == c && _) = false
    rw [beq_eq_false_iff_ne.2 (fun hc => h hc.symm), Bool.false_and]
  simp [trySTVPat, lit, hf]

/-- A decimal digit is distinct from any non-digit character. -/
theorem digit_ne (c : Char) (hc : Char.isDigit c = true) (x : Char)
    (hx : Char.isDigit x = false) : ¬ c = x := by
  intro h
  rw [h, hx] at hc
  cases hc

/-- Monadic bind on a present option steps to the continuation. -/
theorem bind_some_eq {α β : Type} (a : α) (f : α → Option β) :
    ((some a : Option α) >>= f) = f a := rfl

/-- The compartment matcher at its attribute occurrence. -/
theorem tryCompartmentPat_at (k nm rest : Chars) (hk : k ≠ [])
    (hkd : ∀ c ∈ k, Char.isDigit c = true) (hnm : nm ≠ [])
    (hnmq : ∀ c ∈ nm, ¬ c = '"') :
    tryCompartmentPat ("key=\"Compartment_".data ++
      (k ++ ("\" name=\"".data ++ (nm ++ ("\"".data ++ rest))))) =
      some ("Compartment_".data ++ k, nm) := by
  have h1 : manyOne Char.isDigit
      (k ++ ("\" name=\"".data ++ (nm ++ ("\"".data ++ rest)))) =
      some (k, "\" name=\"".data ++ (nm ++ ("\"".data ++ rest))) :=
    manyOne_stop Char.isDigit k '"' (" name=\"".data ++ (nm ++ ("\"".data ++ rest)))
      hk hkd (by decide)
  have h2 : manyOne (fun c => !(c = '"')) (nm ++ ("\"".data ++ rest)) =
      some (nm, "\"".data ++ rest) :=
    manyOne_stop _ nm '"' rest hnm (fun c hc => by simpa using hnmq c hc) (by decide)
  have h3 : lit "\"".data ("\"".data ++ rest) = some rest := lit_self _ _
  unfold tryCompartmentPat
  rw [lit_self]
  simp only [Option.some_bind, bind_some_eq]
  rw [h1]
  simp only [Option.some_bind, bind_some_eq]
  rw [lit_self]
  simp only [Option.some_bind, bind_some_eq]
  rw [h2]
  simp only [Option.some_bind, bind_some_eq]
  rw [h3]
  simp only [Option.some_bind, bind_some_eq]
  rfl

/-- The metabolite matcher at its attribute occurrence. -/
theorem tryMetabolitePat_at (d nm ck rest : Chars) (hd : d ≠ [])
    (hdd : ∀ c ∈ d, Char.isDigit c = true) (hnm : nm ≠ [])
    (hnmq : ∀ c ∈ nm, ¬ c = '"') (hck : ck ≠ [])
    (hckd : ∀ c ∈ ck, Char.isDigit c = true) :
    tryMetabolitePat ("key=\"Metabolite_".data ++ (d ++ ("\" name=\"".data ++
      (nm ++ ("\" simulationType=\"reactions\" compartment=\"Compartment_".data ++
        (ck ++ ("\"".data ++ rest))))))) =
      some (d, nm, "Compartment_".data ++ ck) := by
  have h1 : manyOne Char.isDigit (d ++ ("\" name=\"".data ++
      (nm ++ ("\" simulationType=\"reactions\" compartment=\"Compartment_".data ++
        (ck ++ ("\"".data ++ rest)))))) =
      some (d, "\" name=\"".data ++
        (nm ++ ("\" simulationType=\"reactions\" compartment=\"Compartment_".data ++
          (ck ++ ("\"".data ++ rest))))) :=
    manyOne_stop Char.isDigit d '"'
      (" name=\"".data ++
        (nm ++ ("\" simulationType=\"reactions\" compartment=\"Compartment_".data ++
          (ck ++ ("\"".data ++ rest)))))
      hd hdd (by decide)
  have h2 : manyOne (fun c => !(c = '"'))
      (nm ++ ("\" simulationType=\"reactions\" compartment=\"Compartment_".data ++
        (ck ++ ("\"".data ++ rest)))) =
      some (nm, "\" simulationType=\"reactions\" compartment=\"Compartment_".data ++
        (ck ++ ("\"".data ++ rest))) :=
    manyOne_stop _ nm '"'
      (" simulationType=\"reactions\" compartment=\"Compartment_".data ++
        (ck ++ ("\"".data ++ rest)))
      hnm (fun c hc => by simpa using hnmq c hc) (by decide)
  have h3 : manyOne Char.isDigit (ck ++ ("\"".data ++ rest)) =
      some (ck, "\"".data ++ rest) :=
    manyOne_stop Char.isDigit ck '"' rest hck hckd (by decide)
  have h4 : lit "\"".data ("\"".data ++ rest) = some rest := lit_self _ _
  unfold tryMetabolitePat
  rw [lit_self]
  simp only [Option.some_bind, bind_some_eq]
  rw [h1]
  simp only [Option.some_bind, bind_some_eq]
  rw [lit_self]
  simp only [Option.some_bind, bind_some_eq]
  rw [h2]
  simp only [Option.some_bind, bind_some_eq]
  rw [lit_self]
  simp only [Option.some_bind, bind_some_eq]
  rw [h3]
  simp only [Option.some_bind, bind_some_eq]
  rw [h4]
  simp only [Option.some_bind, bind_some_eq]
  rfl

/-- The reference matcher at its attribute occurrence. -/
theorem trySTVPat_at (d rest : Chars) (hd : d ≠ [])
    (hdd : ∀ c ∈ d, Char.isDigit c = true) :
    trySTVPat ("objectReference=\"Metabolite_".data ++ (d ++ ("\"".data ++ rest))) =
      some d := by
  have h1 : manyOne Char.isDigit (d ++ ("\"".data ++ rest)) =
      some (d, "\"".data ++ rest) :=
    manyOne_stop Char.isDigit d '"' rest hd hdd (by decide)
  have h2 : lit "\"".data ("\"".data ++ rest) = some rest := lit_self _ _
  unfold trySTVPat
  rw [lit_self]
  simp only [Option.some_bind, bind_some_eq]
  rw [h1]
  simp only [Option.some_bind, bind_some_eq]
  rw [h2]
  simp only [Option.some_bind, bind_some_eq]
  rfl

/-- The compartment search skips the tag-opening chunk. -/
theorem tryCompartmentPat_skip_head (rest : Chars) :
    searchP tryCompartmentPat ("<Compartment ".data ++ rest) =
      searchP tryCompartmentPat rest := by
  refine searchP_skip tryCompartmentPat _ rest (fun i hi => ?_)
  have hi13 : i < 13 := by simpa using hi
  interval_cases i <;> exact tryCompartmentPat_head_ne _ _ (by decide)

/-- The metabolite search skips the tag-opening chunk. -/
theorem tryMetabolitePat_skip_head (rest : Chars) :
    searchP tryMetabolitePat ("<Metabolite ".data ++ rest) =
      searchP tryMetabolitePat rest := by
  refine searchP_skip tryMetabolitePat _ rest (fun i hi => ?_)
  have hi12 : i < 12 := by simpa using hi
  interval_cases i <;> exact tryMetabolitePat_head_ne _ _ (by decide)

/-- The reference search skips the tag-opening chunk. -/
theorem trySTVPat_skip_head (rest : Chars) :
    searchP trySTVPat ("<StateTemplateVariable ".data ++ rest) =
      searchP trySTVPat rest := by
  refine searchP_skip trySTVPat _ rest (fun i hi => ?_)
  have hi23 : i < 23 := by simpa using hi
  interval_cases i <;> exact trySTVPat_head_ne _ _ (by decide)

/-- The compartment search on a rendered compartment line. -/
theorem searchP_compLine (k nm : Chars) (hk : k ≠ [])
    (hkd : ∀ c ∈ k, Char.isDigit c = true) (hnm : nm ≠ [])
    (hnmq : ∀ c ∈ nm, ¬ c = '"') :
    searchP tryCompartmentPat (compLine k nm) =
      some ("Compartment_".data ++ k, nm) := by
  unfold compLine
  rw [tryCompartmentPat_skip_head]
  exact searchP_head_some _ _ _ (List.cons_ne_nil _ _)
    (tryCompartmentPat_at k nm " />".data hk hkd hnm hnmq)

/-- The metabolite search on a rendered metabolite line. -/
theorem searchP_metLine (d nm ck : Chars) (hd : d ≠ [])
    (hdd : ∀ c ∈ d, Char.isDigit c = true) (hnm : nm ≠ [])
    (hnmq : ∀ c ∈ nm, ¬ c = '"') (hck : ck ≠ [])
    (hckd : ∀ c ∈ ck, Char.isDigit c = true) :
    searchP tryMetabolitePat (metLine d nm ck) =
      some (d, nm, "Compartment_".data ++ ck) := by
  unfold metLine
  rw [tryMetabolitePat_skip_head]
  exact searchP_head_some _ _ _ (List.cons_ne_nil _ _)
    (tryMetabolitePat_at d nm ck "/>".data hd hdd hnm hnmq hck hckd)

/-- The reference search on a rendered reference line. -/
theorem searchP_stvLine (d : Chars) (hd : d ≠ [])
    (hdd : ∀ c ∈ d, Char.isDigit c = true) :
    searchP trySTVPat (stvLine d) = some d := by
  unfold stvLine
  rw [trySTVPat_skip_head]
  exact searchP_head_some _ _ _ (List.cons_ne_nil _ _)
    (trySTVPat_at d "/>".data hd hdd)

/-- A substring present at the head is found. -/
theorem containsSub_head_true (t cs : Chars) (hne : cs ≠ [])
    (h : t.isPrefixOf cs = true) : containsSub t cs = true := by
  unfold containsSub
  rw [searchP_head_some (prefOcc t) cs () hne (by simp [prefOcc, h])]
  rfl

/-- The pattern does not occur in a rendered compartment line. -/
theorem noOcc_compLine (t0 : Char) (tr : Chars) (k nm : Chars)
    (hkd : ∀ c ∈ k, ¬ c = t0) (hnm : ∀ c ∈ nm, ¬ c = t0)
    (h1 : chunkBlocks (t0 :: tr) "<Compartment ".data = true)
    (h2 : chunkBlocks (t0 :: tr) "key=\"Compartment_".data = true)
    (h3 : chunkBlocks (t0 :: tr) "\" name=\"".data = true)
    (h4 : chunkBlocks (t0 :: tr) "\"".data = true)
    (h5 : chunkBlocks (t0 :: tr) " />".data = true) :
    NoOcc (t0 :: tr) (compLine k nm) := by
  unfold compLine
  refine noOcc_chunk _ _ _ h1 ?_
  refine noOcc_chunk _ _ _ h2 ?_
  refine noOcc_class t0 tr k _ hkd ?_
  refine noOcc_chunk _ _ _ h3 ?_
  refine noOcc_class t0 tr nm _ hnm ?_
  refine noOcc_chunk _ _ _ h4 ?_
  have hlast : NoOcc (t0 :: tr) (" />".data ++ []) :=
    noOcc_chunk _ _ _ h5 (noOcc_nil t0 tr)
  rw [List.append_nil] at hlast
  exact hlast

/-- The pattern does not occur in a rendered metabolite line. -/
theorem noOcc_metLine (t0 : Char) (tr : Chars) (d nm ck : Chars)
    (hdd : ∀ c ∈ d, ¬ c = t0) (hnm : ∀ c ∈ nm, ¬ c = t0)
    (hck : ∀ c ∈ ck, ¬ c = t0)
    (h1 : chunkBlocks (t0 :: tr) "<Metabolite ".data = true)
    (h2 : chunkBlocks (t0 :: tr) "key=\"Metabolite_".data = true)
    (h3 : chunkBlocks (t0 :: tr) "\" name=\"".data = true)
    (h4 : chunkBlocks (t0 :: tr)
      "\" simulationType=\"reactions\" compartment=\"Compartment_".data = true)
    (h5 : chunkBlocks (t0 :: tr) "\"".data = true)
    (h6 : chunkBlocks (t0 :: tr) "/>".data = true) :
    NoOcc (t0 :: tr) (metLine d nm ck) := by
  unfold metLine
  refine noOcc_chunk _ _ _ h1 ?_
  refine noOcc_chunk _ _ _ h2 ?_
  refine noOcc_class t0 tr d _ hdd ?_
  refine noOcc_chunk _ _ _ h3 ?_
  refine noOcc_class t0 tr nm _ hnm ?_
  refine noOcc_chunk _ _ _ h4 ?_
  refine noOcc_class t0 tr ck _ hck ?_
  refine noOcc_chunk _ _ _ h5 ?_
  have hlast : NoOcc (t0 :: tr) ("/>".data ++ []) :=
    noOcc_chunk _ _ _ h6 (noOcc_nil t0 tr)
  rw [List.append_nil] at hlast
  exact hlast

/-- The pattern does not occur in a rendered reference line. -/
theorem noOcc_stvLine (t0 : Char) (tr : Chars) (d : Chars)
    (hdd : ∀ c ∈ d, ¬ c = t0)
    (h1 : chunkBlocks (t0 :: tr) "<StateTemplateVariable ".data = true)
    (h2 : chunkBlocks (t0 :: tr) "objectReference=\"Metabolite_".data = true)
    (h3 : chunkBlocks (t0 :: tr) "\"".data = true)
    (h4 : chunkBlocks (t0 :: tr) "/>".data = true) :
    NoOcc (t0 :: tr) (stvLine d) := by
  unfold stvLine
  refine noOcc_chunk _ _ _ h1 ?_
  refine noOcc_chunk _ _ _ h2 ?_
  refine noOcc_class t0 tr d _ hdd ?_
  refine noOcc_chunk _ _ _ h3 ?_
  have hlast : NoOcc (t0 :: tr) ("/>".data ++ []) :=
    noOcc_chunk _ _ _ h4 (noOcc_nil t0 tr)
  rw [List.append_nil] at hlast
  exact hlast

/-- A conventional model document: compartment declarations, then dynamic
metabolite declarations, then the state template reference list. -/
def renderCps (comps : List (Chars × Chars)) (mets : List (Chars × Chars × Chars))
    (stvs : List Chars) : Chars :=
  joinSep ['\n'] (comps.map (fun c => compLine c.1 c.2) ++
    (mets.map (fun m => metLine m.1 m.2.1 m.2.2) ++ stvs.map stvLine))

/-- The compartment dict the declarations produce, in declaration order. -/
def compsDict (comps : List (Chars × Chars)) : List (Chars × Chars) :=
  comps.map (fun c => ("Compartment_".data ++ c.1, c.2))

/-- Modelled from the spec: a dynamic metabolite's display name — the raw
name, suffixed with an underscore and its compartment's name exactly when
the document declares more than one compartment. -/
def specDisplayName (comps : List (Chars × Chars)) (m : Chars × Chars × Chars) : Chars :=
  if comps.length > 1 then
    m.2.1 ++ "_".data ++ ((comps.find? (fun c => c.1 = m.2.2)).map Prod.snd).getD []
  else m.2.1

/-- The buffer dict built from the metabolite declarations. -/
def metBuf (comps : List (Chars × Chars)) (mets : List (Chars × Chars × Chars)) :
    List (Chars × Chars) :=
  mets.map (fun m => (m.1, specDisplayName comps m))

/-- Modelled from the spec: the exported metabolite names — one entry per
state template reference whose key is in the dynamic-metabolite map, in
reference order, references to unknown keys silently skipped. -/
def specMetabolites (comps : List (Chars × Chars)) (mets : List (Chars × Chars × Chars))
    (stvs : List Chars) : List Chars :=
  stvs.filterMap (fun d => (mets.find? (fun m => m.1 = d)).map (specDisplayName comps))

/-- A compartment line passes the compartment-tag guard. -/
theorem compLine_guard_comp (k nm : Chars) :
    containsSub "<Compartment".data (compLine k nm) = true :=
  containsSub_head_true _ _ (List.cons_ne_nil _ _) rfl

/-- A metabolite line passes the metabolite-tag guard. -/
theorem metLine_guard_met (d nm ck : Chars) :
    containsSub "<Metabolite".data (metLine d nm ck) = true :=
  containsSub_head_true _ _ (List.cons_ne_nil _ _) rfl

/-- A reference line passes the reference-tag guard. -/
theorem stvLine_guard_stv (d : Chars) :
    containsSub "<StateTemplateVariable".data (stvLine d) = true :=
  containsSub_head_true _ _ (List.cons_ne_nil _ _) rfl

/-- A compartment line fails the metabolite-tag guard. -/
theorem compLine_no_met (k nm : Chars) (hk : ∀ c ∈ k, ¬ c = '<')
    (hn : ∀ c ∈ nm, ¬ c = '<') :
    containsSub "<Metabolite".data (compLine k nm) = false :=
  containsSub_eq_false_of_noOcc _ _
    (noOcc_compLine '<' "Metabolite".data k nm hk hn
      (by decide) (by decide) (by decide) (by decide) (by decide))

/-- A compartment line fails the reference-tag guard. -/
theorem compLine_no_stv (k nm : Chars) (hk : ∀ c ∈ k, ¬ c = '<')
    (hn : ∀ c ∈ nm, ¬ c = '<') :
    containsSub "<StateTemplateVariable".data (compLine k nm) = false :=
  containsSub_eq_false_of_noOcc _ _
    (noOcc_compLine '<' "StateTemplateVariable".data k nm hk hn
      (by decide) (by decide) (by decide) (by decide) (by decide))

/-- A metabolite line fails the compartment-tag guard. -/
theorem metLine_no_comp (d nm ck : Chars) (hd : ∀ c ∈ d, ¬ c = '<')
    (hn : ∀ c ∈ nm, ¬ c = '<') (hc : ∀ c ∈ ck, ¬ c = '<') :
    containsSub "<Compartment".data (metLine d nm ck) = false :=
  containsSub_eq_false_of_noOcc _ _
    (noOcc_metLine '<' "Compartment".data d nm ck hd hn hc
      (by decide) (by decide) (by decide) (by decide) (by decide) (by decide))

/-- A reference line fails the compartment-tag guard. -/
theorem stvLine_no_comp (d : Chars) (hd : ∀ c ∈ d, ¬ c = '<') :
    containsSub "<Compartment".data (stvLine d) = false :=
  containsSub_eq_false_of_noOcc _ _
    (noOcc_stvLine '<' "Compartment".data d hd
      (by decide) (by decide) (by decide) (by decide))

/-- A reference line fails the metabolite-tag guard. -/
theorem stvLine_no_met (d : Chars) (hd : ∀ c ∈ d, ¬ c = '<') :
    containsSub "<Metabolite".data (stvLine d) = false :=
  containsSub_eq_false_of_noOcc _ _
    (noOcc_stvLine '<' "Metabolite".data d hd
      (by decide) (by decide) (by decide) (by decide))

/-- A rendered compartment line contains no newline. -/
theorem compLine_no_nl (k nm : Chars) (hk : ∀ c ∈ k, ¬ c = '\n')
    (hn : ∀ c ∈ nm, ¬ c = '\n') : ∀ c ∈ compLine k nm, ¬ c = '\n' := by
  intro c hc
  unfold compLine at hc
  rcases List.mem_append.1 hc with h1 | hc
  · exact (by decide : ∀ c ∈ "<Compartment ".data, ¬ c = '\n') c h1
  rcases List.mem_append.1 hc with h1 | hc
  · exact (by decide : ∀ c ∈ "key=\"Compartment_".data, ¬ c = '\n') c h1
  rcases List.mem_append.1 hc with h1 | hc
  · exact hk c h1
  rcases List.mem_append.1 hc with h1 | hc
  · exact (by decide : ∀ c ∈ "\" name=\"".data, ¬ c = '\n') c h1
  rcases List.mem_append.1 hc with h1 | hc
  · exact hn c h1
  rcases List.mem_append.1 hc with h1 | hc
  · exact (by decide : ∀ c ∈ "\"".data, ¬ c = '\n') c h1
  · exact (by decide : ∀ c ∈ " />".data, ¬ c = '\n') c hc

/-- A rendered metabolite line contains no newline. -/
theorem metLine_no_nl (d nm ck : Chars) (hd : ∀ c ∈ d, ¬ c = '\n')
    (hn : ∀ c ∈ nm, ¬ c = '\n') (hck : ∀ c ∈ ck, ¬ c = '\n') :
    ∀ c ∈ metLine d nm ck, ¬ c = '\n' := by
  intro c hc
  unfold metLine at hc
  rcases List.mem_append.1 hc with h1 | hc
  · exact (by decide : ∀ c ∈ "<Metabolite ".data, ¬ c = '\n') c h1
  rcases List.mem_append.1 hc with h1 | hc
  · exact (by decide : ∀ c ∈ "key=\"Metabolite_".data, ¬ c = '\n') c h1
  rcases List.mem_append.1 hc with h1 | hc
  · exact hd c h1
  rcases List.mem_append.1 hc with h1 | hc
  · exact (by decide : ∀ c ∈ "\" name=\"".data, ¬ c = '\n') c h1
  rcases List.mem_append.1 hc with h1 | hc
  · exact hn c h1
  rcases List.mem_append.1 hc with h1 | hc
  · exact (by decide :
      ∀ c ∈ "\" simulationType=\"reactions\" compartment=\"Compartment_".data,
        ¬ c = '\n') c h1
  rcases List.mem_append.1 hc with h1 | hc
  · exact hck c h1
  rcases List.mem_append.1 hc with h1 | hc
  · exact (by decide : ∀ c ∈ "\"".data, ¬ c = '\n') c h1
  · exact (by decide : ∀ c ∈ "/>".data, ¬ c = '\n') c hc

/-- A rendered reference line contains no newline. -/
theorem stvLine_no_nl (d : Chars) (hd : ∀ c ∈ d, ¬ c = '\n') :
    ∀ c ∈ stvLine d, ¬ c = '\n' := by
  intro c hc
  unfold stvLine at hc
  rcases List.mem_append.1 hc with h1 | hc
  · exact (by decide : ∀ c ∈ "<StateTemplateVariable ".data, ¬ c = '\n') c h1
  rcases List.mem_append.1 hc with h1 | hc
  · exact (by decide : ∀ c ∈ "objectReference=\"Metabolite_".data, ¬ c = '\n') c h1
  rcases List.mem_append.1 hc with h1 | hc
  · exact hd c h1
  rcases List.mem_append.1 hc with h1 | hc
  · exact (by decide : ∀ c ∈ "\"".data, ¬ c = '\n') c h1
  · exact (by decide : ∀ c ∈ "/>".data, ¬ c = '\n') c hc

/-- Looking up a prefixed compartment key in the declaration dict. -/
theorem compsDict_get (ck : Chars) :
    ∀ comps : List (Chars × Chars),
      pyDictGet ("Compartment_".data ++ ck) (compsDict comps) =
        (comps.find? (fun c => c.1 = ck)).map Prod.snd
  | [] => rfl
  | c :: comps => by
    by_cases h : c.1 = ck
    · rw [show pyDictGet ("Compartment_".data ++ ck) (compsDict (c :: comps)) =
          if "Compartment_".data ++ c.1 = "Compartment_".data ++ ck then some c.2
          else pyDictGet ("Compartment_".data ++ ck) (compsDict comps) from rfl]
      rw [if_pos (by rw [h])]
      rw [show ((c :: comps).find? (fun c => c.1 = ck)) = some c by
        simp [List.find?_cons, h]]
      rfl
    · rw [show pyDictGet ("Compartment_".data ++ ck) (compsDict (c :: comps)) =
          if "Compartment_".data ++ c.1 = "Compartment_".data ++ ck then some c.2
          else pyDictGet ("Compartment_".data ++ ck) (compsDict comps) from rfl]
      rw [if_neg (fun hc => h (List.append_cancel_left hc))]
      rw [show ((c :: comps).find? (fun c => c.1 = ck)) =
          comps.find? (fun c => c.1 = ck) by simp [List.find?_cons, h]]
      exact compsDict_get ck comps

/-- Looking up a reference key in the buffer dict. -/
theorem metBuf_get (comps : List (Chars × Chars)) (d : Chars) :
    ∀ mets : List (Chars × Chars × Chars),
      pyDictGet d (metBuf comps mets) =
        (mets.find? (fun m => m.1 = d)).map (specDisplayName comps)
  | [] => rfl
  | m :: mets => by
    by_cases h : m.1 = d
    · rw [show pyDictGet d (metBuf comps (m :: mets)) =
          if m.1 = d then some (specDisplayName comps m)
          else pyDictGet d (metBuf comps mets) from rfl]
      rw [if_pos h]
      rw [show ((m :: mets).find? (fun m => m.1 = d)) = some m by
        simp [List.find?_cons, h]]
      rfl
    · rw [show pyDictGet d (metBuf comps (m :: mets)) =
          if m.1 = d then some (specDisplayName comps m)
          else pyDictGet d (metBuf comps mets) from rfl]
      rw [if_neg h]
      rw [show ((m :: mets).find? (fun m => m.1 = d)) =
          mets.find? (fun m => m.1 = d) by simp [List.find?_cons, h]]
      exact metBuf_get comps d mets

/-- The compartment loop ignores lines without the compartment tag. -/
theorem getCompartmentsGo_skip :
    ∀ (lines : List Chars) (acc : List (Chars × Chars)),
      (∀ l ∈ lines, containsSub "<Compartment".data l = false) →
      getCompartmentsGo lines acc = acc
  | [], _, _ => rfl
  | l :: lines, acc, h => by
    have h0 := h l (by simp)
    simp only [getCompartmentsGo, h0, Bool.false_eq_true, if_false]
    exact getCompartmentsGo_skip lines acc (fun x hx => h x (by simp [hx]))

/-- The compartment loop records each rendered declaration in order. -/
theorem getCompartmentsGo_comps :
    ∀ (comps : List (Chars × Chars)) (rest : List Chars) (acc : List (Chars × Chars)),
      (∀ c ∈ comps, c.1 ≠ [] ∧ (∀ ch ∈ c.1, Char.isDigit ch = true) ∧
        c.2 ≠ [] ∧ (∀ ch ∈ c.2, ¬ ch = '"')) →
      getCompartmentsGo (comps.map (fun c => compLine c.1 c.2) ++ rest) acc =
        getCompartmentsGo rest
          (comps.foldl (fun a c => pyDictInsert ("Compartment_".data ++ c.1) c.2 a) acc)
  | [], rest, acc, _ => by simp
  | c :: comps, rest, acc, h => by
    obtain ⟨h1, h2, h3, h4⟩ := h c (by simp)
    rw [List.map_cons, List.cons_append]
    have hg := compLine_guard_comp c.1 c.2
    have hs := searchP_compLine c.1 c.2 h1 h2 h3 h4
    have step : getCompartmentsGo
        (compLine c.1 c.2 :: (comps.map (fun c => compLine c.1 c.2) ++ rest)) acc =
        getCompartmentsGo (comps.map (fun c => compLine c.1 c.2) ++ rest)
          (pyDictInsert ("Compartment_".data ++ c.1) c.2 acc) := by
      simp [getCompartmentsGo, hg, hs]
    rw [step, getCompartmentsGo_comps comps rest _ (fun x hx => h x (by simp [hx]))]
    rfl

/-- The metabolite loop ignores lines with neither relevant tag. -/
theorem getMetabolitesGo_skip (ac : Bool) (cd : List (Chars × Chars)) :
    ∀ (lines rest : List Chars) (buf : List (Chars × Chars)) (acc : List Chars),
      (∀ l ∈ lines, containsSub "<Metabolite".data l = false ∧
        containsSub "<StateTemplateVariable".data l = false) →
      getMetabolitesGo ac cd (lines ++ rest) buf acc =
        getMetabolitesGo ac cd rest buf acc
  | [], _, _, _, _ => rfl
  | l :: lines, rest, buf, acc, h => by
    have h0 := h l (by simp)
    rw [List.cons_append]
    have step : getMetabolitesGo ac cd (l :: (lines ++ rest)) buf acc =
        getMetabolitesGo ac cd (lines ++ rest) buf acc := by
      simp [getMetabolitesGo, h0.1, h0.2]
    rw [step]
    exact getMetabolitesGo_skip ac cd lines rest buf acc (fun x hx => h x (by simp [hx]))

/-- The metabolite loop buffers each rendered dynamic declaration under its
key, suffixing the compartment name exactly in multi-compartment mode. -/
theorem getMetabolitesGo_mets (comps : List (Chars × Chars)) (ac : Bool)
    (hac : ac = decide (comps.length > 1)) :
    ∀ (mets : List (Chars × Chars × Chars)) (rest : List Chars)
      (buf : List (Chars × Chars)) (acc : List Chars),
      (∀ m ∈ mets, m.1 ≠ [] ∧ (∀ ch ∈ m.1, Char.isDigit ch = true) ∧
        m.2.1 ≠ [] ∧ (∀ ch ∈ m.2.1, ¬ ch = '"') ∧
        m.2.2 ≠ [] ∧ (∀ ch ∈ m.2.2, Char.isDigit ch = true) ∧
        m.2.2 ∈ comps.map Prod.fst) →
      getMetabolitesGo ac (compsDict comps)
        (mets.map (fun m => metLine m.1 m.2.1 m.2.2) ++ rest) buf acc =
        getMetabolitesGo ac (compsDict comps) rest
          (mets.foldl (fun b m => pyDictInsert m.1 (specDisplayName comps m) b) buf) acc
  | [], rest, buf, acc, _ => rfl
  | m :: mets, rest, buf, acc, h => by
    obtain ⟨h1, h2, h3, h4, h5, h6, h7⟩ := h m (by simp)
    rw [List.map_cons, List.cons_append]
    have hg := metLine_guard_met m.1 m.2.1 m.2.2
    have hs := searchP_metLine m.1 m.2.1 m.2.2 h1 h2 h3 h4 h5 h6
    have hstep : getMetabolitesGo ac (compsDict comps)
        (metLine m.1 m.2.1 m.2.2 ::
          (mets.map (fun m => metLine m.1 m.2.1 m.2.2) ++ rest)) buf acc =
        getMetabolitesGo ac (compsDict comps)
          (mets.map (fun m => metLine m.1 m.2.1 m.2.2) ++ rest)
          (pyDictInsert m.1 (specDisplayName comps m) buf) acc := by
      cases hacv : ac with
      | false =>
        have hdisp : specDisplayName comps m = m.2.1 := by
          unfold specDisplayName
          rw [if_neg (of_decide_eq_false (by rw [← hac, hacv]))]
        simp [getMetabolitesGo, hg, hs, hdisp]
      | true =>
        have hlen : comps.length > 1 := of_decide_eq_true (by rw [← hac, hacv])
        obtain ⟨cw, hcw, hcweq⟩ := List.mem_map.1 h7
        cases hfind : comps.find? (fun c => c.1 = m.2.2) with
        | none =>
          exact absurd hcweq (by simpa using List.find?_eq_none.1 hfind cw hcw)
        | some cfound =>
          have hget : pyDictGet
              ('C' :: 'o' :: 'm' :: 'p' :: 'a' :: 'r' :: 't' :: 'm' :: 'e' :: 'n' ::
                't' :: '_' :: m.2.2) (compsDict comps) = some cfound.2 := by
            rw [show ('C' :: 'o' :: 'm' :: 'p' :: 'a' :: 'r' :: 't' :: 'm' :: 'e' ::
                'n' :: 't' :: '_' :: m.2.2 : Chars) = "Compartment_".data ++ m.2.2
              from rfl, compsDict_get, hfind]
            rfl
          have hdisp : specDisplayName comps m = m.2.1 ++ "_".data ++ cfound.2 := by
            unfold specDisplayName
            rw [if_pos hlen, hfind]
            rfl
          simp [getMetabolitesGo, hg, hs, hget, hdisp]
    rw [hstep,
      getMetabolitesGo_mets comps ac hac mets rest _ acc (fun x hx => h x (by simp [hx]))]
    rfl

/-- The metabolite loop resolves each rendered reference against the
buffer, in reference order, silently skipping unknown keys. -/
theorem getMetabolitesGo_stvs (ac : Bool) (cd : List (Chars × Chars)) :
    ∀ (stvs : List Chars) (buf : List (Chars × Chars)) (acc : List Chars),
      (∀ d ∈ stvs, d ≠ [] ∧ (∀ ch ∈ d, Char.isDigit ch = true)) →
      getMetabolitesGo ac cd (stvs.map stvLine) buf acc =
        some (acc.reverse ++ stvs.filterMap (fun d => pyDictGet d buf))
  | [], buf, acc, _ => by simp [getMetabolitesGo]
  | d :: stvs, buf, acc, h => by
    obtain ⟨h1, h2⟩ := h d (by simp)
    have hdlt : ∀ c ∈ d, ¬ c = '<' := fun c hc => digit_ne c (h2 c hc) '<' (by decide)
    have hg1 := stvLine_no_met d hdlt
    have hg2 := stvLine_guard_stv d
    have hs := searchP_stvLine d h1 h2
    rw [List.map_cons]
    cases hget : pyDictGet d buf with
    | some nm =>
      have step : getMetabolitesGo ac cd (stvLine d :: stvs.map stvLine) buf acc =
          getMetabolitesGo ac cd (stvs.map stvLine) buf (nm :: acc) := by
        simp [getMetabolitesGo, hg1, hg2, hs, hget]
      rw [step,
        getMetabolitesGo_stvs ac cd stvs buf (nm :: acc) (fun x hx => h x (by simp [hx]))]
      simp [List.filterMap_cons, hget, List.reverse_cons, List.append_assoc]
    | none =>
      have step : getMetabolitesGo ac cd (stvLine d :: stvs.map stvLine) buf acc =
          getMetabolitesGo ac cd (stvs.map stvLine) buf acc := by
        simp [getMetabolitesGo, hg1, hg2, hs, hget]
      rw [step,
        getMetabolitesGo_stvs ac cd stvs buf acc (fun x hx => h x (by simp [hx]))]
      simp [List.filterMap_cons, hget]

/-- The declaration fold with pairwise distinct digit keys is the list of
declared pairs. -/
theorem fold_compsDict (comps : List (Chars × Chars))
    (hnodup : (comps.map Prod.fst).Nodup) :
    comps.foldl (fun a c => pyDictInsert ("Compartment_".data ++ c.1) c.2 a) [] =
      compsDict comps := by
  have hconv : comps.foldl (fun a c => pyDictInsert ("Compartment_".data ++ c.1) c.2 a) [] =
      (comps.map (fun c => ("Compartment_".data ++ c.1, c.2))).foldl
        (fun a p => pyDictInsert p.1 p.2 a) [] :=
    (List.foldl_map (fun c : Chars × Chars => ("Compartment_".data ++ c.1, c.2))
      (fun (a : List (Chars × Chars)) (p : Chars × Chars) => pyDictInsert p.1 p.2 a)
      comps []).symm
  have hnd2 : (((comps.map (fun c => ("Compartment_".data ++ c.1, c.2))).map Prod.fst)).Nodup := by
    rw [List.map_map]
    rw [show (Prod.fst ∘ fun c : Chars × Chars => ("Compartment_".data ++ c.1, c.2)) =
        (fun k => "Compartment_".data ++ k) ∘ Prod.fst from rfl]
    rw [← List.map_map]
    exact hnodup.map (fun a b hab => List.append_cancel_left hab)
  rw [hconv, foldl_insert_fresh _ [] (fun p _ => by simp [pyDictKeys]) hnd2,
    List.nil_append]
  rfl

/-- The buffer fold with pairwise distinct keys is the buffer dict. -/
theorem fold_metBuf (comps : List (Chars × Chars)) (mets : List (Chars × Chars × Chars))
    (hnodup : (mets.map Prod.fst).Nodup) :
    mets.foldl (fun b m => pyDictInsert m.1 (specDisplayName comps m) b) [] =
      metBuf comps mets := by
  have hconv : mets.foldl (fun b m => pyDictInsert m.1 (specDisplayName comps m) b) [] =
      (mets.map (fun m => (m.1, specDisplayName comps m))).foldl
        (fun b p => pyDictInsert p.1 p.2 b) [] :=
    (List.foldl_map (fun m : Chars × Chars × Chars => (m.1, specDisplayName comps m))
      (fun (b : List (Chars × Chars)) (p : Chars × Chars) => pyDictInsert p.1 p.2 b)
      mets []).symm
  have hnd2 : (((mets.map (fun m => (m.1, specDisplayName comps m))).map Prod.fst)).Nodup := by
    rw [List.map_map]
    exact hnodup
  rw [hconv, foldl_insert_fresh _ [] (fun p _ => by simp [pyDictKeys]) hnd2,
    List.nil_append]
  rfl

/-- C4. For every conventionally rendered document, `getMetabolites`
returns exactly the display names of the metabolites declared with
`simulationType="reactions"`, ordered by the position at which each
metabolite's key is referenced in the StateTemplateVariable section; a
reference whose key is not in the dynamic-metabolite map is silently
skipped; and each name carries the `_<compartmentName>` suffix exactly when
the document declares more than one compartment. -/
theorem getMetabolites_spec (comps : List (Chars × Chars))
    (mets : List (Chars × Chars × Chars)) (stvs : List Chars)
    (hcomp : ∀ c ∈ comps, c.1 ≠ [] ∧ (∀ ch ∈ c.1, Char.isDigit ch = true) ∧
      c.2 ≠ [] ∧ (∀ ch ∈ c.2, ¬ ch = '"' ∧ ¬ ch = '<' ∧ ¬ ch = '\n'))
    (hmet : ∀ m ∈ mets, m.1 ≠ [] ∧ (∀ ch ∈ m.1, Char.isDigit ch = true) ∧
      m.2.1 ≠ [] ∧ (∀ ch ∈ m.2.1, ¬ ch = '"' ∧ ¬ ch = '<' ∧ ¬ ch = '\n') ∧
      m.2.2 ≠ [] ∧ (∀ ch ∈ m.2.2, Char.isDigit ch = true) ∧
      m.2.2 ∈ comps.map Prod.fst)
    (hstv : ∀ d ∈ stvs, d ≠ [] ∧ (∀ ch ∈ d, Char.isDigit ch = true))
    (hcnd : (comps.map Prod.fst).Nodup) (hmnd : (mets.map Prod.fst).Nodup) :
    getMetabolites (renderCps comps mets stvs) =
      some (specMetabolites comps mets stvs) := by
  by_cases hnil : comps.map (fun c => compLine c.1 c.2) ++
      (mets.map (fun m => metLine m.1 m.2.1 m.2.2) ++ stvs.map stvLine) = ([] : List Chars)
  · obtain ⟨hc0, hrest⟩ := List.append_eq_nil.1 hnil
    obtain ⟨hm0, hs0⟩ := List.append_eq_nil.1 hrest
    rw [List.map_eq_nil_iff.1 hc0, List.map_eq_nil_iff.1 hm0, List.map_eq_nil_iff.1 hs0]
    rfl
  · have hsplit : splitLinesC (renderCps comps mets stvs) =
        comps.map (fun c => compLine c.1 c.2) ++
          (mets.map (fun m => metLine m.1 m.2.1 m.2.2) ++ stvs.map stvLine) := by
      unfold renderCps
      refine splitLinesC_joinSep _ hnil ?_
      intro l hl
      rcases List.mem_append.1 hl with h1 | h23
      · rcases List.mem_map.1 h1 with ⟨c, hc, rfl⟩
        obtain ⟨-, hk, -, hn⟩ := hcomp c hc
        exact compLine_no_nl c.1 c.2
          (fun ch hch => digit_ne ch (hk ch hch) '\n' (by decide))
          (fun ch hch => (hn ch hch).2.2)
      · rcases List.mem_append.1 h23 with h2 | h3
        · rcases List.mem_map.1 h2 with ⟨m, hm, rfl⟩
          obtain ⟨-, hd, -, hn, -, hck, -⟩ := hmet m hm
          exact metLine_no_nl m.1 m.2.1 m.2.2
            (fun ch hch => digit_ne ch (hd ch hch) '\n' (by decide))
            (fun ch hch => (hn ch hch).2.2)
            (fun ch hch => digit_ne ch (hck ch hch) '\n' (by decide))
        · rcases List.mem_map.1 h3 with ⟨d, hdm, rfl⟩
          obtain ⟨-, hd⟩ := hstv d hdm
          exact stvLine_no_nl d (fun ch hch => digit_ne ch (hd ch hch) '\n' (by decide))
    have htailnocomp : ∀ l ∈ mets.map (fun m => metLine m.1 m.2.1 m.2.2) ++
        stvs.map stvLine, containsSub "<Compartment".data l = false := by
      intro l hl
      rcases List.mem_append.1 hl with h2 | h3
      · rcases List.mem_map.1 h2 with ⟨m, hm, rfl⟩
        obtain ⟨-, hd, -, hn, -, hck, -⟩ := hmet m hm
        exact metLine_no_comp m.1 m.2.1 m.2.2
          (fun ch hch => digit_ne ch (hd ch hch) '<' (by decide))
          (fun ch hch => (hn ch hch).2.1)
          (fun ch hch => digit_ne ch (hck ch hch) '<' (by decide))
      · rcases List.mem_map.1 h3 with ⟨d, hdm, rfl⟩
        obtain ⟨-, hd⟩ := hstv d hdm
        exact stvLine_no_comp d (fun ch hch => digit_ne ch (hd ch hch) '<' (by decide))
    have hcomps : getCompartments (renderCps comps mets stvs) = compsDict comps := by
      unfold getCompartments
      rw [hsplit,
        getCompartmentsGo_comps comps _ [] (fun c hc => by
          obtain ⟨h1, h2, h3, h4⟩ := hcomp c hc
          exact ⟨h1, h2, h3, fun ch hch => (h4 ch hch).1⟩),
        getCompartmentsGo_skip _ _ htailnocomp]
      exact fold_compsDict comps hcnd
    have hcompskip : ∀ l ∈ comps.map (fun c => compLine c.1 c.2),
        containsSub "<Metabolite".data l = false ∧
          containsSub "<StateTemplateVariable".data l = false := by
      intro l hl
      rcases List.mem_map.1 hl with ⟨c, hc, rfl⟩
      obtain ⟨-, hk, -, hn⟩ := hcomp c hc
      have hk2 : ∀ ch ∈ c.1, ¬ ch = '<' :=
        fun ch hch => digit_ne ch (hk ch hch) '<' (by decide)
      have hn2 : ∀ ch ∈ c.2, ¬ ch = '<' := fun ch hch => (hn ch hch).2.1
      exact ⟨compLine_no_met c.1 c.2 hk2 hn2, compLine_no_stv c.1 c.2 hk2 hn2⟩
    show getMetabolitesGo
        (decide ((getCompartments (renderCps comps mets stvs)).length > 1))
        (getCompartments (renderCps comps mets stvs))
        (splitLinesC (renderCps comps mets stvs)) [] [] = _
    rw [hcomps, hsplit]
    have hlen : decide ((compsDict comps).length > 1) = decide (comps.length > 1) := by
      rw [show (compsDict comps).length = comps.length from List.length_map _ _]
    rw [hlen,
      getMetabolitesGo_skip _ _ (comps.map (fun c => compLine c.1 c.2)) _ [] [] hcompskip,
      getMetabolitesGo_mets comps _ rfl mets (stvs.map stvLine) [] [] (fun m hm => by
        obtain ⟨h1, h2, h3, h4, h5, h6, h7⟩ := hmet m hm
        exact ⟨h1, h2, h3, fun ch hch => (h4 ch hch).1, h5, h6, h7⟩),
      fold_metBuf comps mets hmnd,
      getMetabolitesGo_stvs _ _ stvs (metBuf comps mets) [] hstv]
    simp only [List.reverse_nil, List.nil_append]
    congr 1
    show stvs.filterMap (fun d => pyDictGet d (metBuf comps mets)) =
      stvs.filterMap (fun d => (mets.find? (fun m => m.1 = d)).map (specDisplayName comps))
    exact List.filterMap_congr (fun d _ => metBuf_get comps d mets)

/-- C4 witness: a two-compartment document with one dynamic metabolite and
two references, one of which resolves and gets the compartment suffix, the
other silently skipped. -/
theorem getMetabolites_spec_witness :
    ((["1".data, "2".data] : List Chars).Nodup ∧ "5".data ≠ []) ∧
    getMetabolites (renderCps
        [("1".data, "cyt".data), ("2".data, "ext".data)]
        [("5".data, "NAD".data, "1".data)]
        ["5".data, "9".data]) =
      some (specMetabolites
        [("1".data, "cyt".data), ("2".data, "ext".data)]
        [("5".data, "NAD".data, "1".data)]
        ["5".data, "9".data]) :=
  ⟨⟨by decide, by decide⟩,
    getMetabolites_spec
      [("1".data, "cyt".data), ("2".data, "ext".data)]
      [("5".data, "NAD".data, "1".data)]
      ["5".data, "9".data]
      (by decide) (by decide) (by decide) (by decide) (by decide)⟩

end PyCopasi
